import Mathlib

/-
Verification of the binary wire codec in x/evm/txs/support/evm.pb.go
(gogo-protobuf generated marshal/unmarshal/size code for the records
Params, ChainConfig, State, TransactionLogs, Log, TxResult, AccessTuple,
TraceConfig).

Modelling conventions:
* byte buffers are `List Nat` (each element one byte);
* decoding consumes from the front of the remaining list, which is
  equivalent to the source's cursor `iNdEx` into a fixed buffer;
* Go's fixed-width machine integers are modelled as `Nat`/`Int` with the
  wrap-around made explicit (`% 2 ^ 64`, `% 2 ^ 32`);
* the source writes fields into a pre-sized buffer from the end backward,
  in descending field-number order; read forward, the produced buffer is
  the concatenation of the encoded fields in ascending field-number order,
  which is how `marshal` is written here;
* loops are translated as fuel-indexed structural recursions; the fuel is
  always sufficient (every iteration consumes at least one byte), which is
  proved where needed via fuel-monotonicity lemmas.
-/

namespace EvmPb

/-- Error outcomes of decoding, matching the error values in evm.pb.go:
`unexpectedEOF` = io.ErrUnexpectedEOF, `intOverflow` = ErrIntOverflowEvm,
`invalidLength` = ErrInvalidLengthEvm (a decoded length is negative as a
signed int), `unexpectedEndOfGroup` = ErrUnexpectedEndOfGroupEvm,
`endGroupForNonGroup` = the "wiretype end group for non-group" error,
`illegalTag` = the "illegal tag" error (field number <= 0),
`wrongWireType` = the per-field "wrong wireType" errors,
`illegalWireType` = the skipper's "illegal wireType" error (wire kind 6/7),
`intCodec` = an error from the extended-precision integer codec. -/
inductive DecodeError where
  | unexpectedEOF
  | intOverflow
  | invalidLength
  | unexpectedEndOfGroup
  | endGroupForNonGroup
  | illegalTag
  | wrongWireType
  | illegalWireType
  | intCodec
deriving DecidableEq, Repr

deriving instance DecidableEq for Except

/-- Fuel-indexed body of `putUvarint`; the fuel only bounds the recursion
depth (at most `n` is always enough) and does not affect the value. -/
def putUvarintAux : Nat → Nat → List Nat
  | 0, n => [n]
  | fuel + 1, n =>
      if n < 128 then [n] else (n % 128 + 128) :: putUvarintAux fuel (n / 128)

/-- Base-128 varint encoding, least-significant group first, continuation
bit set on all but the last byte.  Translates the loop of
`encodeVarintEvm` (and the identical loop writing the packed
`extra_eips` payload): `for v >= 1<<7 { dAtA[offset] = uint8(v&0x7f |
0x80); v >>= 7; offset++ }; dAtA[offset] = uint8(v)`. -/
def putUvarint (n : Nat) : List Nat :=
  putUvarintAux n n

/-- One iteration of the varint read loop used throughout evm.pb.go:
`if shift >= 64 { return ErrIntOverflowEvm }; if iNdEx >= l { return
io.ErrUnexpectedEOF }; b := dAtA[iNdEx]; iNdEx++; acc |= uint64(b&0x7F) <<
shift; if b < 0x80 { break }`.  Successive 7-bit groups occupy disjoint
bit positions of the 64-bit accumulator, so the bitwise or is addition,
with the wrap-around of the `uint64` accumulator written `% 2 ^ 64`. -/
def readVarintAux (rem : List Nat) (shift : Nat) (acc : Nat) :
    Except DecodeError (Nat × List Nat) :=
  if 64 ≤ shift then .error .intOverflow
  else
    match rem with
    | [] => .error .unexpectedEOF
    | b :: rest =>
        let acc' := (acc + b % 128 * 2 ^ shift) % 2 ^ 64
        if b < 128 then .ok (acc', rest) else readVarintAux rest (shift + 7) acc'

/-- Read one varint from the front of the remaining buffer. -/
def readVarint (rem : List Nat) : Except DecodeError (Nat × List Nat) :=
  readVarintAux rem 0 0

/-- Fuel-indexed bit-length helper (Go's `math/bits.Len64` on values below
`2 ^ 64`): number of bits needed to represent `n`, 0 for 0. -/
def len64Aux : Nat → Nat → Nat
  | 0, _ => 0
  | fuel + 1, n => if n = 0 then 0 else len64Aux fuel (n / 2) + 1

/-- Bit length of `n` (Go's `math/bits.Len64`). -/
def len64 (n : Nat) : Nat :=
  len64Aux n n

/-- Size of the varint encoding of `x`, translating
`func sovEvm(x uint64) (n int) { return (math_bits.Len64(x|1) + 6) / 7 }`. -/
def sovEvm (x : Nat) : Nat :=
  (len64 (x ||| 1) + 6) / 7

/-- Go's `uint64(v)` conversion of a signed 64-bit value held as `Int`:
two's-complement reduction into `[0, 2^64)`. -/
def toUnsigned64 (e : Int) : Nat :=
  (e % (2 ^ 64 : Int)).toNat

/-- Go's interpretation of a 64-bit accumulator as a signed `int64`:
two's complement. -/
def toSigned64 (v : Nat) : Int :=
  if v % 2 ^ 64 < 2 ^ 63 then ((v % 2 ^ 64 : Nat) : Int)
  else ((v % 2 ^ 64 : Nat) : Int) - 2 ^ 64

/-- Go's `int32` accumulation of varint groups (`m.Limit |= int32(b&0x7F)
<< shift`): groups at shift 32 and above contribute nothing, so the result
is the low 32 bits of the full accumulation, read as two's complement. -/
def toSigned32 (v : Nat) : Int :=
  if v % 2 ^ 32 < 2 ^ 31 then ((v % 2 ^ 32 : Nat) : Int)
  else ((v % 2 ^ 32 : Nat) : Int) - 2 ^ 32

/-- Fuel-indexed decimal digit list of `n`, least significant first. -/
def natDigitsAux : Nat → Nat → List Nat
  | 0, n => [n]
  | fuel + 1, n => if n < 10 then [n] else n % 10 :: natDigitsAux fuel (n / 10)

/-- Decimal digits of `n`, least significant first. -/
def natDigitsRev (n : Nat) : List Nat :=
  natDigitsAux n n

/-- Modelled from the spec: the payload format of the extended-precision
integer codec (spec 4.2).  The underlying arbitrary-precision type
(`cosmossdk.io/math.Int`, whose own source is not part of this
repository) marshals to a canonical byte representation; per the spec it
is a length-prefixed opaque byte string whose only contract is exact
round-tripping of the signed value, including zero and negatives, with
presence-with-zero still producing a non-empty payload.  Modelled as
ASCII decimal text with a leading minus sign for negatives. -/
def intEncode (x : Int) : List Nat :=
  if x < 0 then 45 :: (natDigitsRev (-x).toNat).reverse.map (fun d => d + 48)
  else (natDigitsRev x.toNat).reverse.map (fun d => d + 48)

/-- Modelled from the spec: the `Size` of the extended-precision integer
codec, the byte length of its marshalled payload (spec 4.2). -/
def intSize (x : Int) : Nat :=
  (intEncode x).length

/-- Parse a run of ASCII decimal digits, most significant first. -/
def parseDigits : List Nat → Nat → Except DecodeError Nat
  | [], acc => .ok acc
  | d :: rest, acc =>
      if 48 ≤ d ∧ d ≤ 57 then parseDigits rest (acc * 10 + (d - 48))
      else .error .intCodec

/-- Modelled from the spec: the decode direction of the extended-precision
integer codec (spec 4.2), inverse of `intEncode`. -/
def intDecode : List Nat → Except DecodeError Int
  | [] => .error .intCodec
  | b :: rest =>
      if b = 45 then
        if rest = [] then .error .intCodec
        else (parseDigits rest 0).map (fun n => -(n : Int))
      else (parseDigits (b :: rest) 0).map (fun n => (n : Int))

/-- ChainConfig (evm.pb.go): the Ethereum chain configuration record; each
fork-activation block is an optional extended-precision integer
(`*cosmossdk_io_math.Int`, here `Option Int`), absence (`nil`) meaning the
fork is not scheduled. -/
structure ChainConfig where
  HomesteadBlock : Option Int
  DAOForkBlock : Option Int
  DAOForkSupport : Bool
  EIP150Block : Option Int
  EIP150Hash : List Nat
  EIP155Block : Option Int
  EIP158Block : Option Int
  ByzantiumBlock : Option Int
  ConstantinopleBlock : Option Int
  PetersburgBlock : Option Int
  IstanbulBlock : Option Int
  MuirGlacierBlock : Option Int
  BerlinBlock : Option Int
  LondonBlock : Option Int
  ArrowGlacierBlock : Option Int
  GrayGlacierBlock : Option Int
  MergeNetsplitBlock : Option Int
  ShanghaiBlock : Option Int
  CancunBlock : Option Int
deriving DecidableEq, Repr

/-- The zero value `ChainConfig{}`. -/
def ChainConfig.zero : ChainConfig :=
  ⟨none, none, false, none, [], none, none, none, none, none, none, none,
   none, none, none, none, none, none, none⟩

/-- Params (evm.pb.go): the EVM module parameters record.  Strings and
byte strings are byte lists; `ExtraEIPs` is `[]int64`. -/
structure Params where
  EvmDenom : List Nat
  EnableCreate : Bool
  EnableCall : Bool
  ExtraEIPs : List Int
  ChainConfig : ChainConfig
  AllowUnprotectedTxs : Bool
deriving DecidableEq, Repr

/-- The zero value `Params{}`. -/
def Params.zero : Params :=
  ⟨[], false, false, [], ChainConfig.zero, false⟩

/-- State (evm.pb.go): a single storage key/value pair. -/
structure State where
  Key : List Nat
  Value : List Nat
deriving DecidableEq, Repr

/-- The zero value `State{}`. -/
def State.zero : State :=
  ⟨[], []⟩

/-- Log (evm.pb.go): a protobuf-compatible Ethereum log record. -/
structure Log where
  Address : List Nat
  Topics : List (List Nat)
  Data : List Nat
  BlockNumber : Nat
  TxHash : List Nat
  TxIndex : Nat
  BlockHash : List Nat
  Index : Nat
  Removed : Bool
deriving DecidableEq, Repr

/-- The zero value `Log{}`. -/
def Log.zero : Log :=
  ⟨[], [], [], 0, [], 0, [], 0, false⟩

/-- TransactionLogs (evm.pb.go): a transaction hash with its ordered
sequence of logs. -/
structure TransactionLogs where
  Hash : List Nat
  Logs : List Log
deriving DecidableEq, Repr

/-- The zero value `TransactionLogs{}`. -/
def TransactionLogs.zero : TransactionLogs :=
  ⟨[], []⟩

/-- TxResult (evm.pb.go): the outcome of one transaction execution. -/
structure TxResult where
  ContractAddress : List Nat
  Bloom : List Nat
  TxLogs : TransactionLogs
  Ret : List Nat
  Reverted : Bool
  GasUsed : Nat
deriving DecidableEq, Repr

/-- The zero value `TxResult{}`. -/
def TxResult.zero : TxResult :=
  ⟨[], [], TransactionLogs.zero, [], false, 0⟩

/-- AccessTuple (evm.pb.go): an address with its list of storage keys. -/
structure AccessTuple where
  Address : List Nat
  StorageKeys : List (List Nat)
deriving DecidableEq, Repr

/-- The zero value `AccessTuple{}`. -/
def AccessTuple.zero : AccessTuple :=
  ⟨[], []⟩

/-- TraceConfig (evm.pb.go): execution-tracing options; `Limit` is
`int32`, `Overrides` is `*ChainConfig`. -/
structure TraceConfig where
  Tracer : List Nat
  Timeout : List Nat
  Reexec : Nat
  DisableStack : Bool
  DisableStorage : Bool
  Debug : Bool
  Limit : Int
  Overrides : Option ChainConfig
  EnableMemory : Bool
  EnableReturnData : Bool
  TracerJsonConfig : List Nat
deriving DecidableEq, Repr

/-- The zero value `TraceConfig{}`. -/
def TraceConfig.zero : TraceConfig :=
  ⟨[], [], 0, false, false, false, 0, none, false, false, []⟩

/-- Fuel-indexed body of `skipEvm` (evm.pb.go `func skipEvm(dAtA []byte)
(n int, err error)`): one iteration reads a tag varint, advances past the
field payload according to its wire kind, maintains the group-nesting
depth for legacy wire kinds 3/4, and returns the consumed byte count once
depth zero is reached; falling past the end of the buffer with the loop
still running yields io.ErrUnexpectedEOF.  The consumed count can exceed
the buffer length (fixed-width and length-delimited skips advance the
cursor unconditionally); the caller checks that.  The fuel only bounds
the recursion depth (the buffer length is always enough, as every
iteration consumes at least the tag byte). -/
def skipAux : Nat → List Nat → Nat → Except DecodeError Nat
  | 0, _, _ => .error .unexpectedEOF
  | fuel + 1, rem, depth =>
      match rem with
      | [] => .error .unexpectedEOF
      | _ :: _ =>
          match readVarint rem with
          | .error e => .error e
          | .ok (wire, rem1) =>
              let t := rem.length - rem1.length
              match wire % 8 with
              | 0 =>
                  match readVarint rem1 with
                  | .error e => .error e
                  | .ok (_, rem2) =>
                      let k := t + (rem1.length - rem2.length)
                      if depth = 0 then .ok k
                      else (skipAux fuel rem2 depth).map (fun n => k + n)
              | 1 =>
                  if depth = 0 then .ok (t + 8)
                  else (skipAux fuel (rem1.drop 8) depth).map (fun n => t + 8 + n)
              | 2 =>
                  match readVarint rem1 with
                  | .error e => .error e
                  | .ok (len, rem2) =>
                      if 2 ^ 63 ≤ len then .error .invalidLength
                      else
                        let k := t + (rem1.length - rem2.length) + len
                        if depth = 0 then .ok k
                        else (skipAux fuel (rem2.drop len) depth).map (fun n => k + n)
              | 3 => (skipAux fuel rem1 (depth + 1)).map (fun n => t + n)
              | 4 =>
                  if depth = 0 then .error .unexpectedEndOfGroup
                  else if depth = 1 then .ok t
                  else (skipAux fuel rem1 (depth - 1)).map (fun n => t + n)
              | 5 =>
                  if depth = 0 then .ok (t + 4)
                  else (skipAux fuel (rem1.drop 4) depth).map (fun n => t + 4 + n)
              | _ => .error .illegalWireType

/-- `skipEvm`: number of bytes occupied by the field (tag included) at the
front of `rem`, or a decode error. -/
def skipEvm (rem : List Nat) : Except DecodeError Nat :=
  skipAux rem.length rem 0

/-- The shared shape of every length-delimited field arm in the
`Unmarshal` functions: read the byte-length varint, fail with
ErrInvalidLengthEvm when it is negative as a signed int (accumulator at or
above `2 ^ 63`), fail with io.ErrUnexpectedEOF when the announced payload
runs past the end of the buffer, otherwise return the payload slice
`dAtA[iNdEx:postIndex]` and the rest.  The source additionally checks
`postIndex < 0`, the int64 wrap of `iNdEx + intStringLen` (e.g.
evm.pb.go lines 2853-2855): this cursor-free definition drops that guard,
so it is faithful only while the absolute end offset `iNdEx +
intStringLen` stays below `2 ^ 63`; `readLenDelimAt` further down keeps
the guard, and the theorems whose truth depends on this corner carry the
corresponding bound or use the guarded definition. -/
def readLenDelim (rem : List Nat) : Except DecodeError (List Nat × List Nat) :=
  match readVarint rem with
  | .error e => .error e
  | .ok (len, rem1) =>
      if 2 ^ 63 ≤ len then .error .invalidLength
      else if rem1.length < len then .error .unexpectedEOF
      else .ok (rem1.take len, rem1.drop len)

/-- The shared `default:` arm of every `Unmarshal` switch: call `skipEvm`
on the buffer starting at the field's tag (`dAtA[preIndex:]`), fail with
io.ErrUnexpectedEOF when the skip runs past the end of the buffer, and
resume after the skipped field.  The source also checks `skippy < 0` and
`iNdEx + skippy < 0` for int64 overflow; like the `iNdEx < 0` guard
dropped from `skipAux` (evm.pb.go lines 4045-4047), those fire only when
an announced length pushes the absolute cursor to `2 ^ 63` or beyond, a
corner where the program returns ErrInvalidLengthEvm and this cursor-free
model reports the overrun as io.ErrUnexpectedEOF; no theorem below relies
on this corner. -/
def skipField (rem : List Nat) : Except DecodeError (List Nat) :=
  match skipEvm rem with
  | .error e => .error e
  | .ok n => if rem.length < n then .error .unexpectedEOF else .ok (rem.drop n)

/-- Fuel-indexed body of the packed `extra_eips` decoding loop
(Params.Unmarshal, case 4, wireType 2): `for iNdEx < postIndex` parse one
varint (bounded by the whole buffer, not the packed payload) and append
its value as an `int64`; `left` is `postIndex - iNdEx`, clamped at zero
when the last varint overruns the payload, which like the source ends the
loop at the cursor position after that varint.  (The source's
`elementCount` pre-scan only pre-allocates capacity and is semantically
inert.)  The fuel only bounds the recursion depth (`left` is always
enough, as every iteration consumes at least one byte). -/
def packedLoopAux : Nat → Nat → List Nat → List Int →
    Except DecodeError (List Int × List Nat)
  | _, 0, rem, acc => .ok (acc, rem)
  | 0, _ + 1, _, _ => .error .unexpectedEOF
  | fuel + 1, left + 1, rem, acc =>
      match readVarint rem with
      | .error e => .error e
      | .ok (v, rem') =>
          packedLoopAux fuel ((left + 1) - (rem.length - rem'.length)) rem'
            (acc ++ [toSigned64 v])

/-- The packed `extra_eips` decoding loop over a payload of `left` bytes. -/
def packedLoop (left : Nat) (rem : List Nat) (acc : List Int) :
    Except DecodeError (List Int × List Nat) :=
  packedLoopAux left left rem acc

/-- Fuel-indexed body of the outer `for iNdEx < l` loop shared by every
`Unmarshal` function: while bytes remain, run the per-record `step`
(one tag read plus one switch dispatch) and continue on its returned
suffix.  The fuel only bounds the recursion depth (the buffer length is
always enough, as every step consumes at least the tag byte); the
source's final `if iNdEx > l` check is unreachable because every arm
bounds-checks before advancing. -/
def driverAux {α : Type} (step : List Nat → α → Except DecodeError (α × List Nat)) :
    Nat → List Nat → α → Except DecodeError α
  | _, [], r => .ok r
  | 0, _ :: _, _ => .error .unexpectedEOF
  | fuel + 1, rem@(_ :: _), r =>
      match step rem r with
      | .error e => .error e
      | .ok (r', rem') => driverAux step fuel rem' r'

/-- One optional boolean field as `MarshalToSizedBuffer` emits it: nothing
when false, otherwise the one-byte tag followed by the byte 1. -/
def boolField (tag : Nat) (b : Bool) : List Nat :=
  if b then [tag, 1] else []

/-- One optional string/bytes field as `MarshalToSizedBuffer` emits it:
nothing when empty, otherwise the one-byte tag, the length varint and the
raw bytes. -/
def bytesField (tag : Nat) (s : List Nat) : List Nat :=
  if 0 < s.length then tag :: (putUvarint s.length ++ s) else []

/-- One repeated-string element as `MarshalToSizedBuffer` emits it
(`Topics`, `StorageKeys`): emitted unconditionally, even when empty. -/
def strElemField (tag : Nat) (s : List Nat) : List Nat :=
  tag :: (putUvarint s.length ++ s)

/-- One optional varint-encoded integer field as `MarshalToSizedBuffer`
emits it: nothing when zero, otherwise the one-byte tag and the value
varint. -/
def uintField (tag : Nat) (v : Nat) : List Nat :=
  if v ≠ 0 then tag :: putUvarint v else []

/-- One optional extended-precision integer field as
`ChainConfig.MarshalToSizedBuffer` emits it: nothing when nil, otherwise
the tag bytes, the varint of the payload size and the payload written by
the integer codec's `MarshalTo`. -/
def intOptField (tagBytes : List Nat) (v : Option Int) : List Nat :=
  match v with
  | none => []
  | some x => tagBytes ++ (putUvarint (intSize x) ++ intEncode x)

/-- One embedded-message field as `MarshalToSizedBuffer` emits it
(emitted unconditionally for non-optional embedded records): the one-byte
tag, the varint of the nested encoding's length and the nested encoding. -/
def msgField (tag : Nat) (payload : List Nat) : List Nat :=
  tag :: (putUvarint payload.length ++ payload)

/-- The packed `extra_eips` payload (Params.MarshalToSizedBuffer): the
varint encodings of `uint64(e)` for each element, in list order. -/
def eipsPayload (l : List Int) : List Nat :=
  (l.map (fun e => putUvarint (toUnsigned64 e))).flatten

/-- `ChainConfig.MarshalToSizedBuffer`, read forward: the present fields
in ascending field-number order (the source writes them backward in
descending order).  Fields 17 and above carry two-byte tags, written with
the same byte values the source stores. -/
def ChainConfig.marshal (m : ChainConfig) : List Nat :=
  intOptField [0xa] m.HomesteadBlock ++
  intOptField [0x12] m.DAOForkBlock ++
  boolField 0x18 m.DAOForkSupport ++
  intOptField [0x22] m.EIP150Block ++
  bytesField 0x2a m.EIP150Hash ++
  intOptField [0x32] m.EIP155Block ++
  intOptField [0x3a] m.EIP158Block ++
  intOptField [0x42] m.ByzantiumBlock ++
  intOptField [0x4a] m.ConstantinopleBlock ++
  intOptField [0x52] m.PetersburgBlock ++
  intOptField [0x5a] m.IstanbulBlock ++
  intOptField [0x62] m.MuirGlacierBlock ++
  intOptField [0x6a] m.BerlinBlock ++
  intOptField [0x8a, 0x1] m.LondonBlock ++
  intOptField [0x92, 0x1] m.ArrowGlacierBlock ++
  intOptField [0xa2, 0x1] m.GrayGlacierBlock ++
  intOptField [0xaa, 0x1] m.MergeNetsplitBlock ++
  intOptField [0xb2, 0x1] m.ShanghaiBlock ++
  intOptField [0xba, 0x1] m.CancunBlock

/-- `Params.MarshalToSizedBuffer`, read forward: fields in ascending
field-number order; `chain_config` (field 5, tag 0x2a) is emitted
unconditionally. -/
def Params.marshal (m : Params) : List Nat :=
  bytesField 0xa m.EvmDenom ++
  boolField 0x10 m.EnableCreate ++
  boolField 0x18 m.EnableCall ++
  (if 0 < m.ExtraEIPs.length then
    0x22 :: (putUvarint (eipsPayload m.ExtraEIPs).length ++ eipsPayload m.ExtraEIPs)
  else []) ++
  msgField 0x2a (ChainConfig.marshal m.ChainConfig) ++
  boolField 0x30 m.AllowUnprotectedTxs

/-- `State.MarshalToSizedBuffer`, read forward. -/
def State.marshal (m : State) : List Nat :=
  bytesField 0xa m.Key ++ bytesField 0x12 m.Value

/-- `Log.MarshalToSizedBuffer`, read forward: each topic is emitted
unconditionally, in list order. -/
def Log.marshal (m : Log) : List Nat :=
  bytesField 0xa m.Address ++
  (m.Topics.map (strElemField 0x12)).flatten ++
  bytesField 0x1a m.Data ++
  uintField 0x20 m.BlockNumber ++
  bytesField 0x2a m.TxHash ++
  uintField 0x30 m.TxIndex ++
  bytesField 0x3a m.BlockHash ++
  uintField 0x40 m.Index ++
  boolField 0x48 m.Removed

/-- `TransactionLogs.MarshalToSizedBuffer`, read forward: the hash, then
one embedded-message field per log, in list order. -/
def TransactionLogs.marshal (m : TransactionLogs) : List Nat :=
  bytesField 0xa m.Hash ++
  (m.Logs.map (fun lg => msgField 0x12 (Log.marshal lg))).flatten

/-- `TxResult.MarshalToSizedBuffer`, read forward: `tx_logs` (field 3,
tag 0x1a) is emitted unconditionally. -/
def TxResult.marshal (m : TxResult) : List Nat :=
  bytesField 0xa m.ContractAddress ++
  bytesField 0x12 m.Bloom ++
  msgField 0x1a (TransactionLogs.marshal m.TxLogs) ++
  bytesField 0x22 m.Ret ++
  boolField 0x28 m.Reverted ++
  uintField 0x30 m.GasUsed

/-- `AccessTuple.MarshalToSizedBuffer`, read forward: each storage key is
emitted unconditionally, in list order. -/
def AccessTuple.marshal (m : AccessTuple) : List Nat :=
  bytesField 0xa m.Address ++
  (m.StorageKeys.map (strElemField 0x12)).flatten

/-- `TraceConfig.MarshalToSizedBuffer`, read forward; `limit` is emitted
as the varint of `uint64(m.Limit)` when nonzero, `overrides` only when
non-nil. -/
def TraceConfig.marshal (m : TraceConfig) : List Nat :=
  bytesField 0xa m.Tracer ++
  bytesField 0x12 m.Timeout ++
  uintField 0x18 m.Reexec ++
  boolField 0x28 m.DisableStack ++
  boolField 0x30 m.DisableStorage ++
  boolField 0x40 m.Debug ++
  (if m.Limit ≠ 0 then 0x48 :: putUvarint (toUnsigned64 m.Limit) else []) ++
  (match m.Overrides with
   | none => []
   | some cc => msgField 0x52 (ChainConfig.marshal cc)) ++
  boolField 0x58 m.EnableMemory ++
  boolField 0x60 m.EnableReturnData ++
  bytesField 0x6a m.TracerJsonConfig

/-- Size contribution of an optional string/bytes field
(`l = len(s); if l > 0 { n += 1 + l + sovEvm(uint64(l)) }`). -/
def bytesFieldSize (s : List Nat) : Nat :=
  if 0 < s.length then 1 + s.length + sovEvm s.length else 0

/-- Size contribution of an optional boolean field (`if b { n += 2 }`). -/
def boolFieldSize (b : Bool) : Nat :=
  if b then 2 else 0

/-- Size contribution of an optional varint integer field
(`if v != 0 { n += 1 + sovEvm(uint64(v)) }`). -/
def uintFieldSize (v : Nat) : Nat :=
  if v ≠ 0 then 1 + sovEvm v else 0

/-- Size contribution of an optional extended-precision integer field
(`if p != nil { l = p.Size(); n += tagLen + l + sovEvm(uint64(l)) }`);
`tagLen` is 1 for field numbers up to 15 and 2 above. -/
def intOptFieldSize (tagLen : Nat) (v : Option Int) : Nat :=
  match v with
  | none => 0
  | some x => tagLen + intSize x + sovEvm (intSize x)

/-- `ChainConfig.Size`. -/
def ChainConfig.size (m : ChainConfig) : Nat :=
  intOptFieldSize 1 m.HomesteadBlock +
  intOptFieldSize 1 m.DAOForkBlock +
  boolFieldSize m.DAOForkSupport +
  intOptFieldSize 1 m.EIP150Block +
  bytesFieldSize m.EIP150Hash +
  intOptFieldSize 1 m.EIP155Block +
  intOptFieldSize 1 m.EIP158Block +
  intOptFieldSize 1 m.ByzantiumBlock +
  intOptFieldSize 1 m.ConstantinopleBlock +
  intOptFieldSize 1 m.PetersburgBlock +
  intOptFieldSize 1 m.IstanbulBlock +
  intOptFieldSize 1 m.MuirGlacierBlock +
  intOptFieldSize 1 m.BerlinBlock +
  intOptFieldSize 2 m.LondonBlock +
  intOptFieldSize 2 m.ArrowGlacierBlock +
  intOptFieldSize 2 m.GrayGlacierBlock +
  intOptFieldSize 2 m.MergeNetsplitBlock +
  intOptFieldSize 2 m.ShanghaiBlock +
  intOptFieldSize 2 m.CancunBlock

/-- `Params.Size`; the `chain_config` contribution is unconditional. -/
def Params.size (m : Params) : Nat :=
  bytesFieldSize m.EvmDenom +
  boolFieldSize m.EnableCreate +
  boolFieldSize m.EnableCall +
  (if 0 < m.ExtraEIPs.length then
    1 + sovEvm (m.ExtraEIPs.map (fun e => sovEvm (toUnsigned64 e))).sum +
      (m.ExtraEIPs.map (fun e => sovEvm (toUnsigned64 e))).sum
  else 0) +
  (1 + ChainConfig.size m.ChainConfig + sovEvm (ChainConfig.size m.ChainConfig)) +
  boolFieldSize m.AllowUnprotectedTxs

/-- `State.Size`. -/
def State.size (m : State) : Nat :=
  bytesFieldSize m.Key + bytesFieldSize m.Value

/-- `Log.Size`; each topic contributes unconditionally. -/
def Log.size (m : Log) : Nat :=
  bytesFieldSize m.Address +
  (m.Topics.map (fun s => 1 + s.length + sovEvm s.length)).sum +
  bytesFieldSize m.Data +
  uintFieldSize m.BlockNumber +
  bytesFieldSize m.TxHash +
  uintFieldSize m.TxIndex +
  bytesFieldSize m.BlockHash +
  uintFieldSize m.Index +
  boolFieldSize m.Removed

/-- `TransactionLogs.Size`; each log contributes unconditionally. -/
def TransactionLogs.size (m : TransactionLogs) : Nat :=
  bytesFieldSize m.Hash +
  (m.Logs.map (fun lg => 1 + Log.size lg + sovEvm (Log.size lg))).sum

/-- `TxResult.Size`; the `tx_logs` contribution is unconditional. -/
def TxResult.size (m : TxResult) : Nat :=
  bytesFieldSize m.ContractAddress +
  bytesFieldSize m.Bloom +
  (1 + TransactionLogs.size m.TxLogs + sovEvm (TransactionLogs.size m.TxLogs)) +
  bytesFieldSize m.Ret +
  boolFieldSize m.Reverted +
  uintFieldSize m.GasUsed

/-- `AccessTuple.Size`; each storage key contributes unconditionally. -/
def AccessTuple.size (m : AccessTuple) : Nat :=
  bytesFieldSize m.Address +
  (m.StorageKeys.map (fun s => 1 + s.length + sovEvm s.length)).sum

/-- `TraceConfig.Size`. -/
def TraceConfig.size (m : TraceConfig) : Nat :=
  bytesFieldSize m.Tracer +
  bytesFieldSize m.Timeout +
  uintFieldSize m.Reexec +
  boolFieldSize m.DisableStack +
  boolFieldSize m.DisableStorage +
  boolFieldSize m.Debug +
  (if m.Limit ≠ 0 then 1 + sovEvm (toUnsigned64 m.Limit) else 0) +
  (match m.Overrides with
   | none => 0
   | some cc => 1 + ChainConfig.size cc + sovEvm (ChainConfig.size cc)) +
  boolFieldSize m.EnableMemory +
  boolFieldSize m.EnableReturnData +
  bytesFieldSize m.TracerJsonConfig

/-- The shared shape of every optional extended-precision integer field
arm in `ChainConfig.Unmarshal`: read the length-delimited payload, then
`var v cosmossdk_io_math.Int; field = &v; field.Unmarshal(payload)`. -/
def readIntField (rem : List Nat) : Except DecodeError (Int × List Nat) :=
  match readLenDelim rem with
  | .error e => .error e
  | .ok (payload, rem2) =>
      match intDecode payload with
      | .error e => .error e
      | .ok v => .ok (v, rem2)

/-- One iteration of the `ChainConfig.Unmarshal` loop: read the tag
varint, reject wire type 4 ("wiretype end group for non-group") and
`fieldNum <= 0` ("illegal tag"; `fieldNum = int32(wire >> 3)`, which as a
signed 32-bit value is non-positive exactly when `(wire/8) % 2^32` is zero
or at least `2^31`), then dispatch on the field number, delegating
unknown fields to `skipEvm` on the buffer starting at the tag. -/
def ChainConfig.step (dAtA : List Nat) (m : ChainConfig) :
    Except DecodeError (ChainConfig × List Nat) :=
  match readVarint dAtA with
  | .error e => .error e
  | .ok (wire, rem) =>
      let fieldNum := wire / 8 % 2 ^ 32
      let wireType := wire % 8
      if wireType = 4 then .error .endGroupForNonGroup
      else if fieldNum = 0 ∨ 2 ^ 31 ≤ fieldNum then .error .illegalTag
      else if fieldNum = 1 then
        if wireType ≠ 2 then .error .wrongWireType
        else
          match readIntField rem with
          | .error e => .error e
          | .ok (v, rem2) => .ok ({ m with HomesteadBlock := some v }, rem2)
      else if fieldNum = 2 then
        if wireType ≠ 2 then .error .wrongWireType
        else
          match readIntField rem with
          | .error e => .error e
          | .ok (v, rem2) => .ok ({ m with DAOForkBlock := some v }, rem2)
      else if fieldNum = 3 then
        if wireType ≠ 0 then .error .wrongWireType
        else
          match readVarint rem with
          | .error e => .error e
          | .ok (v, rem2) => .ok ({ m with DAOForkSupport := v != 0 }, rem2)
      else if fieldNum = 4 then
        if wireType ≠ 2 then .error .wrongWireType
        else
          match readIntField rem with
          | .error e => .error e
          | .ok (v, rem2) => .ok ({ m with EIP150Block := some v }, rem2)
      else if fieldNum = 5 then
        if wireType ≠ 2 then .error .wrongWireType
        else
          match readLenDelim rem with
          | .error e => .error e
          | .ok (payload, rem2) => .ok ({ m with EIP150Hash := payload }, rem2)
      else if fieldNum = 6 then
        if wireType ≠ 2 then .error .wrongWireType
        else
          match readIntField rem with
          | .error e => .error e
          | .ok (v, rem2) => .ok ({ m with EIP155Block := some v }, rem2)
      else if fieldNum = 7 then
        if wireType ≠ 2 then .error .wrongWireType
        else
          match readIntField rem with
          | .error e => .error e
          | .ok (v, rem2) => .ok ({ m with EIP158Block := some v }, rem2)
      else if fieldNum = 8 then
        if wireType ≠ 2 then .error .wrongWireType
        else
          match readIntField rem with
          | .error e => .error e
          | .ok (v, rem2) => .ok ({ m with ByzantiumBlock := some v }, rem2)
      else if fieldNum = 9 then
        if wireType ≠ 2 then .error .wrongWireType
        else
          match readIntField rem with
          | .error e => .error e
          | .ok (v, rem2) => .ok ({ m with ConstantinopleBlock := some v }, rem2)
      else if fieldNum = 10 then
        if wireType ≠ 2 then .error .wrongWireType
        else
          match readIntField rem with
          | .error e => .error e
          | .ok (v, rem2) => .ok ({ m with PetersburgBlock := some v }, rem2)
      else if fieldNum = 11 then
        if wireType ≠ 2 then .error .wrongWireType
        else
          match readIntField rem with
          | .error e => .error e
          | .ok (v, rem2) => .ok ({ m with IstanbulBlock := some v }, rem2)
      else if fieldNum = 12 then
        if wireType ≠ 2 then .error .wrongWireType
        else
          match readIntField rem with
          | .error e => .error e
          | .ok (v, rem2) => .ok ({ m with MuirGlacierBlock := some v }, rem2)
      else if fieldNum = 13 then
        if wireType ≠ 2 then .error .wrongWireType
        else
          match readIntField rem with
          | .error e => .error e
          | .ok (v, rem2) => .ok ({ m with BerlinBlock := some v }, rem2)
      else if fieldNum = 17 then
        if wireType ≠ 2 then .error .wrongWireType
        else
          match readIntField rem with
          | .error e => .error e
          | .ok (v, rem2) => .ok ({ m with LondonBlock := some v }, rem2)
      else if fieldNum = 18 then
        if wireType ≠ 2 then .error .wrongWireType
        else
          match readIntField rem with
          | .error e => .error e
          | .ok (v, rem2) => .ok ({ m with ArrowGlacierBlock := some v }, rem2)
      else if fieldNum = 20 then
        if wireType ≠ 2 then .error .wrongWireType
        else
          match readIntField rem with
          | .error e => .error e
          | .ok (v, rem2) => .ok ({ m with GrayGlacierBlock := some v }, rem2)
      else if fieldNum = 21 then
        if wireType ≠ 2 then .error .wrongWireType
        else
          match readIntField rem with
          | .error e => .error e
          | .ok (v, rem2) => .ok ({ m with MergeNetsplitBlock := some v }, rem2)
      else if fieldNum = 22 then
        if wireType ≠ 2 then .error .wrongWireType
        else
          match readIntField rem with
          | .error e => .error e
          | .ok (v, rem2) => .ok ({ m with ShanghaiBlock := some v }, rem2)
      else if fieldNum = 23 then
        if wireType ≠ 2 then .error .wrongWireType
        else
          match readIntField rem with
          | .error e => .error e
          | .ok (v, rem2) => .ok ({ m with CancunBlock := some v }, rem2)
      else
        match skipField dAtA with
        | .error e => .error e
        | .ok rem' => .ok (m, rem')

/-- `ChainConfig.Unmarshal` merging into an existing record `m` (the Go
method's receiver). -/
def ChainConfig.unmarshalFrom (m : ChainConfig) (dAtA : List Nat) :
    Except DecodeError ChainConfig :=
  driverAux ChainConfig.step dAtA.length dAtA m

/-- `ChainConfig.Unmarshal` on a fresh zero record. -/
def ChainConfig.unmarshal (dAtA : List Nat) : Except DecodeError ChainConfig :=
  ChainConfig.unmarshalFrom ChainConfig.zero dAtA

/-- The shape of an embedded-ChainConfig field arm (`chain_config` in
`Params.Unmarshal`, `overrides` in `TraceConfig.Unmarshal`): read the
length-delimited payload and unmarshal it into the given receiver. -/
def readCCField (cc : ChainConfig) (rem : List Nat) :
    Except DecodeError (ChainConfig × List Nat) :=
  match readLenDelim rem with
  | .error e => .error e
  | .ok (payload, rem2) =>
      match ChainConfig.unmarshalFrom cc payload with
      | .error e => .error e
      | .ok cc' => .ok (cc', rem2)

/-- One iteration of the `Params.Unmarshal` loop (same tag handling as
`ChainConfig.step`); field 4 (`extra_eips`) accepts wire type 0 (one
value, appended) and wire type 2 (packed run of varints, each appended).
The packed arm drops the source's `postIndex < 0` int64-overflow guard
(evm.pb.go lines 1975-1977), like `readLenDelim`: it diverges from the
program only for packed lengths at or above `2 ^ 63` minus the cursor,
a corner no theorem below relies on. -/
def Params.step (dAtA : List Nat) (m : Params) :
    Except DecodeError (Params × List Nat) :=
  match readVarint dAtA with
  | .error e => .error e
  | .ok (wire, rem) =>
      let fieldNum := wire / 8 % 2 ^ 32
      let wireType := wire % 8
      if wireType = 4 then .error .endGroupForNonGroup
      else if fieldNum = 0 ∨ 2 ^ 31 ≤ fieldNum then .error .illegalTag
      else if fieldNum = 1 then
        if wireType ≠ 2 then .error .wrongWireType
        else
          match readLenDelim rem with
          | .error e => .error e
          | .ok (payload, rem2) => .ok ({ m with EvmDenom := payload }, rem2)
      else if fieldNum = 2 then
        if wireType ≠ 0 then .error .wrongWireType
        else
          match readVarint rem with
          | .error e => .error e
          | .ok (v, rem2) => .ok ({ m with EnableCreate := v != 0 }, rem2)
      else if fieldNum = 3 then
        if wireType ≠ 0 then .error .wrongWireType
        else
          match readVarint rem with
          | .error e => .error e
          | .ok (v, rem2) => .ok ({ m with EnableCall := v != 0 }, rem2)
      else if fieldNum = 4 then
        if wireType = 0 then
          match readVarint rem with
          | .error e => .error e
          | .ok (v, rem2) =>
              .ok ({ m with ExtraEIPs := m.ExtraEIPs ++ [toSigned64 v] }, rem2)
        else if wireType = 2 then
          match readVarint rem with
          | .error e => .error e
          | .ok (packedLen, rem2) =>
              if 2 ^ 63 ≤ packedLen then .error .invalidLength
              else if rem2.length < packedLen then .error .unexpectedEOF
              else
                match packedLoop packedLen rem2 m.ExtraEIPs with
                | .error e => .error e
                | .ok (eips, rem3) => .ok ({ m with ExtraEIPs := eips }, rem3)
        else .error .wrongWireType
      else if fieldNum = 5 then
        if wireType ≠ 2 then .error .wrongWireType
        else
          match readCCField m.ChainConfig rem with
          | .error e => .error e
          | .ok (cc, rem2) => .ok ({ m with ChainConfig := cc }, rem2)
      else if fieldNum = 6 then
        if wireType ≠ 0 then .error .wrongWireType
        else
          match readVarint rem with
          | .error e => .error e
          | .ok (v, rem2) => .ok ({ m with AllowUnprotectedTxs := v != 0 }, rem2)
      else
        match skipField dAtA with
        | .error e => .error e
        | .ok rem' => .ok (m, rem')

/-- `Params.Unmarshal` merging into an existing record `m`. -/
def Params.unmarshalFrom (m : Params) (dAtA : List Nat) :
    Except DecodeError Params :=
  driverAux Params.step dAtA.length dAtA m

/-- `Params.Unmarshal` on a fresh zero record. -/
def Params.unmarshal (dAtA : List Nat) : Except DecodeError Params :=
  Params.unmarshalFrom Params.zero dAtA

/-- One iteration of the `State.Unmarshal` loop. -/
def State.step (dAtA : List Nat) (m : State) :
    Except DecodeError (State × List Nat) :=
  match readVarint dAtA with
  | .error e => .error e
  | .ok (wire, rem) =>
      let fieldNum := wire / 8 % 2 ^ 32
      let wireType := wire % 8
      if wireType = 4 then .error .endGroupForNonGroup
      else if fieldNum = 0 ∨ 2 ^ 31 ≤ fieldNum then .error .illegalTag
      else if fieldNum = 1 then
        if wireType ≠ 2 then .error .wrongWireType
        else
          match readLenDelim rem with
          | .error e => .error e
          | .ok (payload, rem2) => .ok ({ m with Key := payload }, rem2)
      else if fieldNum = 2 then
        if wireType ≠ 2 then .error .wrongWireType
        else
          match readLenDelim rem with
          | .error e => .error e
          | .ok (payload, rem2) => .ok ({ m with Value := payload }, rem2)
      else
        match skipField dAtA with
        | .error e => .error e
        | .ok rem' => .ok (m, rem')

/-- `State.Unmarshal` merging into an existing record `m`. -/
def State.unmarshalFrom (m : State) (dAtA : List Nat) : Except DecodeError State :=
  driverAux State.step dAtA.length dAtA m

/-- `State.Unmarshal` on a fresh zero record. -/
def State.unmarshal (dAtA : List Nat) : Except DecodeError State :=
  State.unmarshalFrom State.zero dAtA

/-- One iteration of the `Log.Unmarshal` loop; field 2 (`topics`) appends,
field 3 (`data`) overwrites (`m.Data = append(m.Data[:0], payload...)`),
the numeric fields reset then re-accumulate (`m.X = 0; m.X |= ...`). -/
def Log.step (dAtA : List Nat) (m : Log) : Except DecodeError (Log × List Nat) :=
  match readVarint dAtA with
  | .error e => .error e
  | .ok (wire, rem) =>
      let fieldNum := wire / 8 % 2 ^ 32
      let wireType := wire % 8
      if wireType = 4 then .error .endGroupForNonGroup
      else if fieldNum = 0 ∨ 2 ^ 31 ≤ fieldNum then .error .illegalTag
      else if fieldNum = 1 then
        if wireType ≠ 2 then .error .wrongWireType
        else
          match readLenDelim rem with
          | .error e => .error e
          | .ok (payload, rem2) => .ok ({ m with Address := payload }, rem2)
      else if fieldNum = 2 then
        if wireType ≠ 2 then .error .wrongWireType
        else
          match readLenDelim rem with
          | .error e => .error e
          | .ok (payload, rem2) =>
              .ok ({ m with Topics := m.Topics ++ [payload] }, rem2)
      else if fieldNum = 3 then
        if wireType ≠ 2 then .error .wrongWireType
        else
          match readLenDelim rem with
          | .error e => .error e
          | .ok (payload, rem2) => .ok ({ m with Data := payload }, rem2)
      else if fieldNum = 4 then
        if wireType ≠ 0 then .error .wrongWireType
        else
          match readVarint rem with
          | .error e => .error e
          | .ok (v, rem2) => .ok ({ m with BlockNumber := v }, rem2)
      else if fieldNum = 5 then
        if wireType ≠ 2 then .error .wrongWireType
        else
          match readLenDelim rem with
          | .error e => .error e
          | .ok (payload, rem2) => .ok ({ m with TxHash := payload }, rem2)
      else if fieldNum = 6 then
        if wireType ≠ 0 then .error .wrongWireType
        else
          match readVarint rem with
          | .error e => .error e
          | .ok (v, rem2) => .ok ({ m with TxIndex := v }, rem2)
      else if fieldNum = 7 then
        if wireType ≠ 2 then .error .wrongWireType
        else
          match readLenDelim rem with
          | .error e => .error e
          | .ok (payload, rem2) => .ok ({ m with BlockHash := payload }, rem2)
      else if fieldNum = 8 then
        if wireType ≠ 0 then .error .wrongWireType
        else
          match readVarint rem with
          | .error e => .error e
          | .ok (v, rem2) => .ok ({ m with Index := v }, rem2)
      else if fieldNum = 9 then
        if wireType ≠ 0 then .error .wrongWireType
        else
          match readVarint rem with
          | .error e => .error e
          | .ok (v, rem2) => .ok ({ m with Removed := v != 0 }, rem2)
      else
        match skipField dAtA with
        | .error e => .error e
        | .ok rem' => .ok (m, rem')

/-- `Log.Unmarshal` merging into an existing record `m`. -/
def Log.unmarshalFrom (m : Log) (dAtA : List Nat) : Except DecodeError Log :=
  driverAux Log.step dAtA.length dAtA m

/-- `Log.Unmarshal` on a fresh zero record. -/
def Log.unmarshal (dAtA : List Nat) : Except DecodeError Log :=
  Log.unmarshalFrom Log.zero dAtA

/-- The shape of the repeated `logs` field arm in
`TransactionLogs.Unmarshal`: read the length-delimited payload and
unmarshal it into an appended fresh `&Log{}`. -/
def readLogField (rem : List Nat) : Except DecodeError (Log × List Nat) :=
  match readLenDelim rem with
  | .error e => .error e
  | .ok (payload, rem2) =>
      match Log.unmarshal payload with
      | .error e => .error e
      | .ok lg => .ok (lg, rem2)

/-- One iteration of the `TransactionLogs.Unmarshal` loop; field 2
(`logs`) appends a fresh `&Log{}` and unmarshals the payload into it. -/
def TransactionLogs.step (dAtA : List Nat) (m : TransactionLogs) :
    Except DecodeError (TransactionLogs × List Nat) :=
  match readVarint dAtA with
  | .error e => .error e
  | .ok (wire, rem) =>
      let fieldNum := wire / 8 % 2 ^ 32
      let wireType := wire % 8
      if wireType = 4 then .error .endGroupForNonGroup
      else if fieldNum = 0 ∨ 2 ^ 31 ≤ fieldNum then .error .illegalTag
      else if fieldNum = 1 then
        if wireType ≠ 2 then .error .wrongWireType
        else
          match readLenDelim rem with
          | .error e => .error e
          | .ok (payload, rem2) => .ok ({ m with Hash := payload }, rem2)
      else if fieldNum = 2 then
        if wireType ≠ 2 then .error .wrongWireType
        else
          match readLogField rem with
          | .error e => .error e
          | .ok (lg, rem2) => .ok ({ m with Logs := m.Logs ++ [lg] }, rem2)
      else
        match skipField dAtA with
        | .error e => .error e
        | .ok rem' => .ok (m, rem')

/-- `TransactionLogs.Unmarshal` merging into an existing record `m`. -/
def TransactionLogs.unmarshalFrom (m : TransactionLogs) (dAtA : List Nat) :
    Except DecodeError TransactionLogs :=
  driverAux TransactionLogs.step dAtA.length dAtA m

/-- `TransactionLogs.Unmarshal` on a fresh zero record. -/
def TransactionLogs.unmarshal (dAtA : List Nat) : Except DecodeError TransactionLogs :=
  TransactionLogs.unmarshalFrom TransactionLogs.zero dAtA

/-- The shape of the embedded `tx_logs` field arm in
`TxResult.Unmarshal`: read the length-delimited payload and unmarshal it
into the existing embedded record. -/
def readTxLogsField (tl : TransactionLogs) (rem : List Nat) :
    Except DecodeError (TransactionLogs × List Nat) :=
  match readLenDelim rem with
  | .error e => .error e
  | .ok (payload, rem2) =>
      match TransactionLogs.unmarshalFrom tl payload with
      | .error e => .error e
      | .ok tl' => .ok (tl', rem2)

/-- One iteration of the `TxResult.Unmarshal` loop; field 3 (`tx_logs`)
unmarshals into the existing embedded record. -/
def TxResult.step (dAtA : List Nat) (m : TxResult) :
    Except DecodeError (TxResult × List Nat) :=
  match readVarint dAtA with
  | .error e => .error e
  | .ok (wire, rem) =>
      let fieldNum := wire / 8 % 2 ^ 32
      let wireType := wire % 8
      if wireType = 4 then .error .endGroupForNonGroup
      else if fieldNum = 0 ∨ 2 ^ 31 ≤ fieldNum then .error .illegalTag
      else if fieldNum = 1 then
        if wireType ≠ 2 then .error .wrongWireType
        else
          match readLenDelim rem with
          | .error e => .error e
          | .ok (payload, rem2) => .ok ({ m with ContractAddress := payload }, rem2)
      else if fieldNum = 2 then
        if wireType ≠ 2 then .error .wrongWireType
        else
          match readLenDelim rem with
          | .error e => .error e
          | .ok (payload, rem2) => .ok ({ m with Bloom := payload }, rem2)
      else if fieldNum = 3 then
        if wireType ≠ 2 then .error .wrongWireType
        else
          match readTxLogsField m.TxLogs rem with
          | .error e => .error e
          | .ok (tl, rem2) => .ok ({ m with TxLogs := tl }, rem2)
      else if fieldNum = 4 then
        if wireType ≠ 2 then .error .wrongWireType
        else
          match readLenDelim rem with
          | .error e => .error e
          | .ok (payload, rem2) => .ok ({ m with Ret := payload }, rem2)
      else if fieldNum = 5 then
        if wireType ≠ 0 then .error .wrongWireType
        else
          match readVarint rem with
          | .error e => .error e
          | .ok (v, rem2) => .ok ({ m with Reverted := v != 0 }, rem2)
      else if fieldNum = 6 then
        if wireType ≠ 0 then .error .wrongWireType
        else
          match readVarint rem with
          | .error e => .error e
          | .ok (v, rem2) => .ok ({ m with GasUsed := v }, rem2)
      else
        match skipField dAtA with
        | .error e => .error e
        | .ok rem' => .ok (m, rem')

/-- `TxResult.Unmarshal` merging into an existing record `m`. -/
def TxResult.unmarshalFrom (m : TxResult) (dAtA : List Nat) :
    Except DecodeError TxResult :=
  driverAux TxResult.step dAtA.length dAtA m

/-- `TxResult.Unmarshal` on a fresh zero record. -/
def TxResult.unmarshal (dAtA : List Nat) : Except DecodeError TxResult :=
  TxResult.unmarshalFrom TxResult.zero dAtA

/-- One iteration of the `AccessTuple.Unmarshal` loop; field 2
(`storage_keys`) appends. -/
def AccessTuple.step (dAtA : List Nat) (m : AccessTuple) :
    Except DecodeError (AccessTuple × List Nat) :=
  match readVarint dAtA with
  | .error e => .error e
  | .ok (wire, rem) =>
      let fieldNum := wire / 8 % 2 ^ 32
      let wireType := wire % 8
      if wireType = 4 then .error .endGroupForNonGroup
      else if fieldNum = 0 ∨ 2 ^ 31 ≤ fieldNum then .error .illegalTag
      else if fieldNum = 1 then
        if wireType ≠ 2 then .error .wrongWireType
        else
          match readLenDelim rem with
          | .error e => .error e
          | .ok (payload, rem2) => .ok ({ m with Address := payload }, rem2)
      else if fieldNum = 2 then
        if wireType ≠ 2 then .error .wrongWireType
        else
          match readLenDelim rem with
          | .error e => .error e
          | .ok (payload, rem2) =>
              .ok ({ m with StorageKeys := m.StorageKeys ++ [payload] }, rem2)
      else
        match skipField dAtA with
        | .error e => .error e
        | .ok rem' => .ok (m, rem')

/-- `AccessTuple.Unmarshal` merging into an existing record `m`. -/
def AccessTuple.unmarshalFrom (m : AccessTuple) (dAtA : List Nat) :
    Except DecodeError AccessTuple :=
  driverAux AccessTuple.step dAtA.length dAtA m

/-- `AccessTuple.Unmarshal` on a fresh zero record. -/
def AccessTuple.unmarshal (dAtA : List Nat) : Except DecodeError AccessTuple :=
  AccessTuple.unmarshalFrom AccessTuple.zero dAtA

/-- One iteration of the `TraceConfig.Unmarshal` loop; field 9 (`limit`)
accumulates into an `int32`, field 10 (`overrides`) allocates
`&ChainConfig{}` when nil and unmarshals into it; there are no fields 4
or 7, which therefore fall to the skipper. -/
def TraceConfig.step (dAtA : List Nat) (m : TraceConfig) :
    Except DecodeError (TraceConfig × List Nat) :=
  match readVarint dAtA with
  | .error e => .error e
  | .ok (wire, rem) =>
      let fieldNum := wire / 8 % 2 ^ 32
      let wireType := wire % 8
      if wireType = 4 then .error .endGroupForNonGroup
      else if fieldNum = 0 ∨ 2 ^ 31 ≤ fieldNum then .error .illegalTag
      else if fieldNum = 1 then
        if wireType ≠ 2 then .error .wrongWireType
        else
          match readLenDelim rem with
          | .error e => .error e
          | .ok (payload, rem2) => .ok ({ m with Tracer := payload }, rem2)
      else if fieldNum = 2 then
        if wireType ≠ 2 then .error .wrongWireType
        else
          match readLenDelim rem with
          | .error e => .error e
          | .ok (payload, rem2) => .ok ({ m with Timeout := payload }, rem2)
      else if fieldNum = 3 then
        if wireType ≠ 0 then .error .wrongWireType
        else
          match readVarint rem with
          | .error e => .error e
          | .ok (v, rem2) => .ok ({ m with Reexec := v }, rem2)
      else if fieldNum = 5 then
        if wireType ≠ 0 then .error .wrongWireType
        else
          match readVarint rem with
          | .error e => .error e
          | .ok (v, rem2) => .ok ({ m with DisableStack := v != 0 }, rem2)
      else if fieldNum = 6 then
        if wireType ≠ 0 then .error .wrongWireType
        else
          match readVarint rem with
          | .error e => .error e
          | .ok (v, rem2) => .ok ({ m with DisableStorage := v != 0 }, rem2)
      else if fieldNum = 8 then
        if wireType ≠ 0 then .error .wrongWireType
        else
          match readVarint rem with
          | .error e => .error e
          | .ok (v, rem2) => .ok ({ m with Debug := v != 0 }, rem2)
      else if fieldNum = 9 then
        if wireType ≠ 0 then .error .wrongWireType
        else
          match readVarint rem with
          | .error e => .error e
          | .ok (v, rem2) => .ok ({ m with Limit := toSigned32 v }, rem2)
      else if fieldNum = 10 then
        if wireType ≠ 2 then .error .wrongWireType
        else
          match readCCField
              (match m.Overrides with
               | none => ChainConfig.zero
               | some cc => cc) rem with
          | .error e => .error e
          | .ok (cc, rem2) => .ok ({ m with Overrides := some cc }, rem2)
      else if fieldNum = 11 then
        if wireType ≠ 0 then .error .wrongWireType
        else
          match readVarint rem with
          | .error e => .error e
          | .ok (v, rem2) => .ok ({ m with EnableMemory := v != 0 }, rem2)
      else if fieldNum = 12 then
        if wireType ≠ 0 then .error .wrongWireType
        else
          match readVarint rem with
          | .error e => .error e
          | .ok (v, rem2) => .ok ({ m with EnableReturnData := v != 0 }, rem2)
      else if fieldNum = 13 then
        if wireType ≠ 2 then .error .wrongWireType
        else
          match readLenDelim rem with
          | .error e => .error e
          | .ok (payload, rem2) => .ok ({ m with TracerJsonConfig := payload }, rem2)
      else
        match skipField dAtA with
        | .error e => .error e
        | .ok rem' => .ok (m, rem')

/-- `TraceConfig.Unmarshal` merging into an existing record `m`. -/
def TraceConfig.unmarshalFrom (m : TraceConfig) (dAtA : List Nat) :
    Except DecodeError TraceConfig :=
  driverAux TraceConfig.step dAtA.length dAtA m

/-- `TraceConfig.Unmarshal` on a fresh zero record. -/
def TraceConfig.unmarshal (dAtA : List Nat) : Except DecodeError TraceConfig :=
  TraceConfig.unmarshalFrom TraceConfig.zero dAtA

/-! Fuel-invariance and unfolding lemmas for the fuel-indexed recursions. -/

theorem putUvarintAux_congr : ∀ f₁ f₂ n, n ≤ f₁ → n ≤ f₂ →
    putUvarintAux f₁ n = putUvarintAux f₂ n := by
  intro f₁
  induction f₁ with
  | zero =>
      intro f₂ n h₁ _
      interval_cases n
      cases f₂ <;> simp [putUvarintAux]
  | succ f ih =>
      intro f₂ n h₁ h₂
      cases f₂ with
      | zero =>
          interval_cases n
          simp [putUvarintAux]
      | succ f₂' =>
          simp only [putUvarintAux]
          by_cases hn : n < 128
          · simp [hn]
          · simp only [hn, if_false]
            have hd : n / 128 ≤ f := by omega
            have hd₂ : n / 128 ≤ f₂' := by omega
            rw [ih f₂' (n / 128) hd hd₂]

theorem putUvarint_eq (n : Nat) :
    putUvarint n = if n < 128 then [n] else (n % 128 + 128) :: putUvarint (n / 128) := by
  show putUvarintAux n n = _
  rw [putUvarintAux_congr n (n + 1) n (le_refl n) (by omega)]
  simp only [putUvarintAux]
  by_cases hn : n < 128
  · simp [hn]
  · simp only [hn, if_false]
    rw [putUvarintAux_congr n (n / 128) (n / 128) (by omega) (le_refl _)]
    rfl

theorem len64Aux_congr : ∀ f₁ f₂ n, n ≤ f₁ → n ≤ f₂ →
    len64Aux f₁ n = len64Aux f₂ n := by
  intro f₁
  induction f₁ with
  | zero =>
      intro f₂ n h₁ _
      interval_cases n
      cases f₂ <;> simp [len64Aux]
  | succ f ih =>
      intro f₂ n h₁ h₂
      cases f₂ with
      | zero =>
          interval_cases n
          simp [len64Aux]
      | succ f₂' =>
          simp only [len64Aux]
          by_cases hn : n = 0
          · simp [hn]
          · simp only [hn, if_false]
            rw [ih f₂' (n / 2) (by omega) (by omega)]

theorem len64_eq (n : Nat) :
    len64 n = if n = 0 then 0 else len64 (n / 2) + 1 := by
  show len64Aux n n = _
  rw [len64Aux_congr n (n + 1) n (le_refl n) (by omega)]
  simp only [len64Aux]
  by_cases hn : n = 0
  · simp [hn]
  · simp only [hn, if_false]
    rw [len64Aux_congr n (n / 2) (n / 2) (by omega) (le_refl _)]
    rfl

theorem natDigitsAux_congr : ∀ f₁ f₂ n, n ≤ f₁ → n ≤ f₂ →
    natDigitsAux f₁ n = natDigitsAux f₂ n := by
  intro f₁
  induction f₁ with
  | zero =>
      intro f₂ n h₁ _
      interval_cases n
      cases f₂ <;> simp [natDigitsAux]
  | succ f ih =>
      intro f₂ n h₁ h₂
      cases f₂ with
      | zero =>
          interval_cases n
          simp [natDigitsAux]
      | succ f₂' =>
          simp only [natDigitsAux]
          by_cases hn : n < 10
          · simp [hn]
          · simp only [hn, if_false]
            rw [ih f₂' (n / 10) (by omega) (by omega)]

theorem natDigitsRev_eq (n : Nat) :
    natDigitsRev n = if n < 10 then [n] else n % 10 :: natDigitsRev (n / 10) := by
  show natDigitsAux n n = _
  rw [natDigitsAux_congr n (n + 1) n (le_refl n) (by omega)]
  simp only [natDigitsAux]
  by_cases hn : n < 10
  · simp [hn]
  · simp only [hn, if_false]
    rw [natDigitsAux_congr n (n / 10) (n / 10) (by omega) (le_refl _)]
    rfl

/-! Bit-length facts that relate `sovEvm` to the varint encoder. -/

theorem len64_le_iff : ∀ n k : Nat, len64 n ≤ k ↔ n < 2 ^ k := by
  intro n
  induction n using Nat.strong_induction_on with
  | _ n ih =>
      intro k
      rw [len64_eq]
      by_cases hn : n = 0
      · subst hn
        simp [Nat.pos_pow_of_pos]
      · simp only [hn, if_false]
        cases k with
        | zero =>
            simp only [Nat.pow_zero]
            omega
        | succ k' =>
            have h2 : n / 2 < n := Nat.div_lt_self (by omega) (by omega)
            rw [Nat.succ_le_succ_iff, ih (n / 2) h2 k']
            constructor
            · intro h
              have := Nat.pow_succ 2 k'
              omega
            · intro h
              have := Nat.pow_succ 2 k'
              omega

theorem lor_one_eq (n : Nat) : n ||| 1 = 2 * (n / 2) + 1 := by
  conv_lhs => rw [← Nat.bit_decomp n]
  have h1 : (1 : Nat) = Nat.bit true 0 := by decide
  rw [h1, Nat.lor_bit]
  simp [Nat.bit_val, Nat.div2_val]

theorem len64_lor_one (n : Nat) (h : 1 ≤ n) : len64 (n ||| 1) = len64 n := by
  rw [lor_one_eq]
  rw [len64_eq, len64_eq n]
  have h1 : 2 * (n / 2) + 1 ≠ 0 := by omega
  have h2 : (2 * (n / 2) + 1) / 2 = n / 2 := by omega
  simp [h1, h2, show n ≠ 0 by omega]

theorem sovEvm_eq (n : Nat) :
    sovEvm n = if n < 128 then 1 else sovEvm (n / 128) + 1 := by
  by_cases hn : n < 128
  · simp only [hn, if_true]
    show (len64 (n ||| 1) + 6) / 7 = 1
    rcases Nat.eq_zero_or_pos n with h0 | h0
    · subst h0
      decide
    · rw [len64_lor_one n h0]
      have hle : len64 n ≤ 7 := (len64_le_iff n 7).mpr (by omega)
      have hpos : ¬ len64 n ≤ 0 := by
        rw [len64_le_iff]
        omega
      omega
  · simp only [hn, if_false]
    show (len64 (n ||| 1) + 6) / 7 = (len64 (n / 128 ||| 1) + 6) / 7 + 1
    rw [len64_lor_one n (by omega), len64_lor_one (n / 128) (by omega)]
    have hstep : ∀ m : Nat, m ≠ 0 → len64 m = len64 (m / 2) + 1 := by
      intro m hm
      rw [len64_eq]
      simp [hm]
    have h7 : len64 n = len64 (n / 128) + 7 := by
      rw [hstep n (by omega)]
      rw [hstep (n / 2) (by omega)]
      rw [hstep (n / 2 / 2) (by omega)]
      rw [hstep (n / 2 / 2 / 2) (by omega)]
      rw [hstep (n / 2 / 2 / 2 / 2) (by omega)]
      rw [hstep (n / 2 / 2 / 2 / 2 / 2) (by omega)]
      rw [hstep (n / 2 / 2 / 2 / 2 / 2 / 2) (by omega)]
      have : n / 2 / 2 / 2 / 2 / 2 / 2 / 2 = n / 128 := by omega
      rw [this]
    omega

theorem putUvarint_length (n : Nat) : (putUvarint n).length = sovEvm n := by
  induction n using Nat.strong_induction_on with
  | _ n ih =>
      rw [putUvarint_eq, sovEvm_eq]
      by_cases hn : n < 128
      · simp [hn]
      · simp only [hn, if_false, List.length_cons]
        rw [ih (n / 128) (by omega)]

theorem putUvarint_ne_nil (n : Nat) : putUvarint n ≠ [] := by
  rw [putUvarint_eq]
  by_cases hn : n < 128 <;> simp [hn]

/-! Round-trip of the varint reader against the varint writer. -/

theorem readVarintAux_putUvarint (m : Nat) : ∀ (rest : List Nat) (shift acc : Nat),
    shift < 64 → m < 2 ^ (64 - shift) → acc < 2 ^ shift →
    readVarintAux (putUvarint m ++ rest) shift acc = .ok (acc + m * 2 ^ shift, rest) := by
  induction m using Nat.strong_induction_on with
  | _ m ih =>
      intro rest shift acc hs hm hacc
      have hpow : 2 ^ shift * 2 ^ (64 - shift) = 2 ^ 64 := by
        rw [← Nat.pow_add]
        congr 1
        omega
      have hns : ¬ 64 ≤ shift := by omega
      rw [putUvarint_eq]
      by_cases h128 : m < 128
      · have hm128 : m % 128 = m := Nat.mod_eq_of_lt h128
        have hlt : acc + m * 2 ^ shift < 2 ^ 64 := by
          have h1 : (m + 1) * 2 ^ shift ≤ 2 ^ (64 - shift) * 2 ^ shift :=
            Nat.mul_le_mul_right _ (by omega)
          have h2 : (m + 1) * 2 ^ shift = m * 2 ^ shift + 2 ^ shift := by ring
          have h3 : 2 ^ (64 - shift) * 2 ^ shift = 2 ^ shift * 2 ^ (64 - shift) :=
            Nat.mul_comm _ _
          omega
        simp only [h128, if_true, List.cons_append, readVarintAux, hns, if_false,
          hm128]
        rw [Nat.mod_eq_of_lt hlt]
        simp [h128]
      · have hb1 : ¬ m % 128 + 128 < 128 := by omega
        have hb2 : (m % 128 + 128) % 128 = m % 128 := by omega
        have hshift7 : shift + 7 < 64 := by
          by_contra hcon
          have h1 : 64 - shift ≤ 7 := by omega
          have h2 : 2 ^ (64 - shift) ≤ 2 ^ 7 := Nat.pow_le_pow_right (by omega) h1
          have h3 : (2 : Nat) ^ 7 = 128 := by norm_num
          omega
        have hacc' : acc + m % 128 * 2 ^ shift < 2 ^ (shift + 7) := by
          have h1 : m % 128 * 2 ^ shift ≤ 127 * 2 ^ shift :=
            Nat.mul_le_mul_right _ (by omega)
          have h2 : 2 ^ (shift + 7) = 2 ^ shift * 128 := by
            rw [Nat.pow_add]
          have h3 : 2 ^ shift * 128 = 128 * 2 ^ shift := Nat.mul_comm _ _
          omega
        have hlt64 : acc + m % 128 * 2 ^ shift < 2 ^ 64 := by
          have h4 : 2 ^ (shift + 7) ≤ 2 ^ 64 := Nat.pow_le_pow_right (by omega) (by omega)
          omega
        have hdiv : m / 128 < 2 ^ (64 - (shift + 7)) := by
          rw [Nat.div_lt_iff_lt_mul (by omega : (0:Nat) < 128)]
          have h2 : 2 ^ (64 - (shift + 7)) * 128 = 2 ^ (64 - shift) := by
            rw [show (128 : Nat) = 2 ^ 7 by norm_num, ← Nat.pow_add]
            congr 1
            omega
          omega
        simp only [h128, if_false, List.cons_append, readVarintAux, hns, hb1, hb2]
        rw [Nat.mod_eq_of_lt hlt64]
        rw [ih (m / 128) (by omega) rest (shift + 7)
          (acc + m % 128 * 2 ^ shift) hshift7 hdiv hacc']
        have harith : acc + m % 128 * 2 ^ shift + m / 128 * 2 ^ (shift + 7) =
            acc + m * 2 ^ shift := by
          have hm' : m = 128 * (m / 128) + m % 128 := (Nat.div_add_mod m 128).symm
          calc acc + m % 128 * 2 ^ shift + m / 128 * 2 ^ (shift + 7)
              = acc + (m % 128 + m / 128 * 2 ^ 7) * 2 ^ shift := by
                rw [Nat.pow_add]
                ring
            _ = acc + m * 2 ^ shift := by
                have h7 : m % 128 + m / 128 * 2 ^ 7 = m := by
                  have h8 : (2 : Nat) ^ 7 = 128 := by norm_num
                  omega
                rw [h7]
        rw [harith]

theorem readVarint_putUvarint (n : Nat) (rest : List Nat) (h : n < 2 ^ 64) :
    readVarint (putUvarint n ++ rest) = .ok (n, rest) := by
  have h0 := readVarintAux_putUvarint n rest 0 0 (by omega) (by simpa using h)
    (by simp)
  simpa using h0

theorem readVarint_single (b : Nat) (rest : List Nat) (hb : b < 128) :
    readVarint (b :: rest) = .ok (b, rest) := by
  have h1 : b % 128 = b := Nat.mod_eq_of_lt hb
  have h2 : b % 2 ^ 64 = b := Nat.mod_eq_of_lt (by omega)
  simp [readVarint, readVarintAux, hb, h1, h2]
  omega

theorem readVarint_two (b b2 : Nat) (rest : List Nat) (hb : 128 ≤ b)
    (hb2 : b2 < 128) : readVarint (b :: b2 :: rest) = .ok (b % 128 + b2 * 128, rest) := by
  have h1 : ¬ b < 128 := by omega
  have h2 : b % 128 % 2 ^ 64 = b % 128 := Nat.mod_eq_of_lt (by omega)
  have h3 : b2 % 128 = b2 := Nat.mod_eq_of_lt hb2
  have h4 : (b % 128 + b2 * 2 ^ 7) % 2 ^ 64 = b % 128 + b2 * 2 ^ 7 := by
    have hb128 : b % 128 < 128 := Nat.mod_lt _ (by omega)
    have h7 : (2 : Nat) ^ 7 = 128 := by norm_num
    apply Nat.mod_eq_of_lt
    have : b2 * 2 ^ 7 ≤ 127 * 2 ^ 7 := Nat.mul_le_mul_right _ (by omega)
    omega
  have h7 : (2 : Nat) ^ 7 = 128 := by norm_num
  simp [readVarint, readVarintAux, h1, hb2, h2, h3, h4, h7]
  omega

theorem readLenDelim_spec (payload rest : List Nat) (h : payload.length < 2 ^ 63) :
    readLenDelim (putUvarint payload.length ++ (payload ++ rest)) = .ok (payload, rest) := by
  unfold readLenDelim
  rw [readVarint_putUvarint _ _ (by omega)]
  have h1 : ¬ 2 ^ 63 ≤ payload.length := by omega
  have h2 : ¬ (payload ++ rest).length < payload.length := by
    simp
  simp only [h1, if_false, h2]
  rw [List.take_left, List.drop_left]

theorem readCCField_spec (cc cc' : ChainConfig) (P rest : List Nat)
    (hP : P.length < 2 ^ 63) (h : ChainConfig.unmarshalFrom cc P = .ok cc') :
    readCCField cc (putUvarint P.length ++ (P ++ rest)) = .ok (cc', rest) := by
  unfold readCCField
  rw [readLenDelim_spec P rest hP]
  show (match ChainConfig.unmarshalFrom cc P with
        | .error e => (.error e : Except DecodeError (ChainConfig × List Nat))
        | .ok cc' => .ok (cc', rest)) = .ok (cc', rest)
  rw [h]

theorem readLogField_spec (P : List Nat) (lg' : Log) (rest : List Nat)
    (hP : P.length < 2 ^ 63) (h : Log.unmarshal P = .ok lg') :
    readLogField (putUvarint P.length ++ (P ++ rest)) = .ok (lg', rest) := by
  unfold readLogField
  rw [readLenDelim_spec P rest hP]
  show (match Log.unmarshal P with
        | .error e => (.error e : Except DecodeError (Log × List Nat))
        | .ok lg => .ok (lg, rest)) = .ok (lg', rest)
  rw [h]

theorem readTxLogsField_spec (tl tl' : TransactionLogs) (P rest : List Nat)
    (hP : P.length < 2 ^ 63) (h : TransactionLogs.unmarshalFrom tl P = .ok tl') :
    readTxLogsField tl (putUvarint P.length ++ (P ++ rest)) = .ok (tl', rest) := by
  unfold readTxLogsField
  rw [readLenDelim_spec P rest hP]
  show (match TransactionLogs.unmarshalFrom tl P with
        | .error e => (.error e : Except DecodeError (TransactionLogs × List Nat))
        | .ok tl' => .ok (tl', rest)) = .ok (tl', rest)
  rw [h]

/-! Round-trip of the modelled extended-precision integer codec. -/

theorem natDigitsRev_digits (n : Nat) : ∀ d ∈ natDigitsRev n, d < 10 := by
  induction n using Nat.strong_induction_on with
  | _ n ih =>
      rw [natDigitsRev_eq]
      by_cases hn : n < 10
      · simp [hn]
      · simp only [hn, if_false, List.mem_cons]
        rintro d (rfl | hd)
        · omega
        · exact ih (n / 10) (by omega) d hd

theorem natDigitsRev_foldr (n : Nat) :
    (natDigitsRev n).foldr (fun d a => a * 10 + d) 0 = n := by
  induction n using Nat.strong_induction_on with
  | _ n ih =>
      rw [natDigitsRev_eq]
      by_cases hn : n < 10
      · simp [hn]
      · simp only [hn, if_false, List.foldr_cons]
        rw [ih (n / 10) (by omega)]
        omega

theorem natDigitsRev_ne_nil (n : Nat) : natDigitsRev n ≠ [] := by
  rw [natDigitsRev_eq]
  by_cases hn : n < 10 <;> simp [hn]

theorem parseDigits_ok (ds : List Nat) : ∀ acc : Nat,
    (∀ d ∈ ds, 48 ≤ d ∧ d ≤ 57) →
    parseDigits ds acc = .ok (ds.foldl (fun a d => a * 10 + (d - 48)) acc) := by
  induction ds with
  | nil => intro acc _; simp [parseDigits]
  | cons d rest ih =>
      intro acc hds
      have hd := hds d (by simp)
      simp only [parseDigits, hd, and_self, if_true, List.foldl_cons]
      exact ih _ (fun x hx => hds x (by simp [hx]))

theorem parseDigits_encodeNat (n : Nat) :
    parseDigits ((natDigitsRev n).reverse.map (fun d => d + 48)) 0 = .ok n := by
  have hds : ∀ d ∈ (natDigitsRev n).reverse.map (fun d => d + 48), 48 ≤ d ∧ d ≤ 57 := by
    intro d hd
    simp only [List.mem_map, List.mem_reverse] at hd
    obtain ⟨d', hd', rfl⟩ := hd
    have := natDigitsRev_digits n d' hd'
    omega
  rw [parseDigits_ok _ 0 hds]
  congr 1
  rw [List.foldl_map, List.foldl_reverse]
  simp only [Nat.add_sub_cancel]
  exact natDigitsRev_foldr n

theorem intDecode_intEncode (x : Int) : intDecode (intEncode x) = .ok x := by
  by_cases hx : x < 0
  · simp only [intEncode, hx, if_true, intDecode]
    have hne : ¬ (natDigitsRev (-x).toNat).reverse.map (fun d => d + 48) = [] := by
      simp [natDigitsRev_ne_nil]
    simp only [if_true, hne, if_false]
    rw [parseDigits_encodeNat]
    have h1 : ((-x).toNat : Int) = -x := Int.toNat_of_nonneg (by omega)
    show Except.ok (-(((-x).toNat : Nat) : Int)) = Except.ok x
    rw [h1, neg_neg]
  · simp only [intEncode, hx, if_false]
    obtain ⟨d, tail, hd⟩ : ∃ d tail,
        (natDigitsRev x.toNat).reverse.map (fun d => d + 48) = d :: tail := by
      rcases h : (natDigitsRev x.toNat).reverse.map (fun d => d + 48) with _ | ⟨d, tail⟩
      · exfalso
        have := natDigitsRev_ne_nil x.toNat
        simp at h
        exact this h
      · exact ⟨d, tail, rfl⟩
    have hd45 : d ≠ 45 := by
      have hmem : d ∈ (natDigitsRev x.toNat).reverse.map (fun d => d + 48) := by
        rw [hd]
        exact List.mem_cons_self _ _
      rw [List.mem_map] at hmem
      obtain ⟨d', hmem', heq⟩ := hmem
      subst heq
      show d' + 48 ≠ 45
      omega
    rw [hd]
    simp only [intDecode, hd45, if_false]
    rw [← hd, parseDigits_encodeNat]
    show Except.ok ((x.toNat : Nat) : Int) = Except.ok x
    rw [Int.toNat_of_nonneg (by omega)]

/-! Fuel monotonicity of the unmarshal loop driver: success with some fuel
is success with any larger fuel. -/

theorem driverAux_mono {α : Type} (step : List Nat → α → Except DecodeError (α × List Nat)) :
    ∀ (f f' : Nat) (rem : List Nat) (r : α) (x : α), f ≤ f' →
    driverAux step f rem r = .ok x → driverAux step f' rem r = .ok x := by
  intro f
  induction f with
  | zero =>
      intro f' rem r x _ h
      cases rem with
      | nil =>
          simp only [driverAux] at h
          cases f' <;> simpa [driverAux] using h
      | cons a as => simp [driverAux] at h
  | succ f ih =>
      intro f' rem r x hle h
      cases rem with
      | nil =>
          simp only [driverAux] at h
          cases f' <;> simpa [driverAux] using h
      | cons a as =>
          cases f' with
          | zero => omega
          | succ f'' =>
              have hu1 : driverAux step (f + 1) (a :: as) r =
                  match step (a :: as) r with
                  | .error e => .error e
                  | .ok (r', rem') => driverAux step f rem' r' := rfl
              have hu2 : driverAux step (f'' + 1) (a :: as) r =
                  match step (a :: as) r with
                  | .error e => .error e
                  | .ok (r', rem') => driverAux step f'' rem' r' := rfl
              rw [hu1] at h
              rw [hu2]
              cases hstep : step (a :: as) r with
              | error e =>
                  rw [hstep] at h
                  exact Except.noConfusion h
              | ok pr =>
                  rw [hstep] at h
                  obtain ⟨r', rem'⟩ := pr
                  exact ih f'' rem' r' x (by omega) h

/-! Two's-complement round trips for the signed conversions. -/

theorem toSigned64_toUnsigned64 (e : Int) (h1 : -(2 ^ 63) ≤ e) (h2 : e < 2 ^ 63) :
    toSigned64 (toUnsigned64 e) = e := by
  unfold toSigned64 toUnsigned64
  have hnn : (0 : Int) ≤ e % 2 ^ 64 := Int.emod_nonneg e (by norm_num)
  have hv : ((e % 2 ^ 64).toNat : Int) = e % 2 ^ 64 := Int.toNat_of_nonneg hnn
  have hcase : e % 2 ^ 64 = if 0 ≤ e then e else e + 2 ^ 64 := by
    split <;> omega
  by_cases he : 0 ≤ e
  · have hval : (e % 2 ^ 64).toNat = e.toNat := by omega
    have hlt : e.toNat % 2 ^ 64 < 2 ^ 63 := by omega
    simp only [hval, hlt, if_true]
    omega
  · have hval : ((e % 2 ^ 64).toNat : Int) = e + 2 ^ 64 := by omega
    have hge : ¬ (e % 2 ^ 64).toNat % 2 ^ 64 < 2 ^ 63 := by omega
    simp only [hge, if_false]
    omega

theorem toSigned32_toUnsigned64 (e : Int) (h1 : -(2 ^ 31) ≤ e) (h2 : e < 2 ^ 31) :
    toSigned32 (toUnsigned64 e) = e := by
  unfold toSigned32 toUnsigned64
  have hnn : (0 : Int) ≤ e % 2 ^ 64 := Int.emod_nonneg e (by norm_num)
  have hv : ((e % 2 ^ 64).toNat : Int) = e % 2 ^ 64 := Int.toNat_of_nonneg hnn
  have hcase : e % 2 ^ 64 = if 0 ≤ e then e else e + 2 ^ 64 := by
    split <;> omega
  by_cases he : 0 ≤ e
  · have hval : ((e % 2 ^ 64).toNat : Int) = e := by omega
    have hmod : (e % 2 ^ 64).toNat % 2 ^ 32 = (e % 2 ^ 64).toNat := by omega
    have hlt : (e % 2 ^ 64).toNat % 2 ^ 32 < 2 ^ 31 := by omega
    simp only [hlt, if_true]
    omega
  · have hval : ((e % 2 ^ 64).toNat : Int) = e + 2 ^ 64 := by omega
    have hmod : ((e % 2 ^ 64).toNat % 2 ^ 32 : Int) = e + 2 ^ 32 := by omega
    have hge : ¬ (e % 2 ^ 64).toNat % 2 ^ 32 < 2 ^ 31 := by omega
    simp only [hge, if_false]
    omega

/-! Driver-unfolding helpers and per-field presence counts (the number of
loop iterations a field's encoding occupies). -/

theorem driverAux_cons {α : Type} (step : List Nat → α → Except DecodeError (α × List Nat))
    (f : Nat) (a : Nat) (as : List Nat) (r : α) :
    driverAux step (f + 1) (a :: as) r =
    match step (a :: as) r with
    | .error e => .error e
    | .ok (r', rem') => driverAux step f rem' r' := rfl

theorem driverAux_cons_ok {α : Type} (step : List Nat → α → Except DecodeError (α × List Nat))
    (f : Nat) (a : Nat) (as : List Nat) (r r' : α) (rem' : List Nat)
    (h : step (a :: as) r = .ok (r', rem')) :
    driverAux step (f + 1) (a :: as) r = driverAux step f rem' r' := by
  rw [driverAux_cons, h]

/-- Iterations contributed by an optional bytes field. -/
def presLen (s : List Nat) : Nat := if 0 < s.length then 1 else 0

/-- Iterations contributed by an optional boolean field. -/
def presBool (b : Bool) : Nat := if b then 1 else 0

/-- Iterations contributed by an optional varint integer field. -/
def presUint (v : Nat) : Nat := if v ≠ 0 then 1 else 0

/-- Iterations contributed by an optional extended-precision integer field. -/
def presOpt (v : Option Int) : Nat := match v with | none => 0 | some _ => 1

/-- Iterations contributed by the optional `overrides` field. -/
def presOptCC (v : Option ChainConfig) : Nat := match v with | none => 0 | some _ => 1

/-- Iterations contributed by the optional `limit` field. -/
def presInt (v : Int) : Nat := if v ≠ 0 then 1 else 0

/-! State: per-field step evaluations, driver lemmas, round trip. -/

theorem State.step_Key (v : List Nat) (rest : List Nat) (r : State)
    (hb : v.length < 2 ^ 63) :
    State.step (0xa :: (putUvarint v.length ++ (v ++ rest))) r =
    .ok ({ r with Key := v }, rest) := by
  unfold State.step
  rw [readVarint_single 0xa _ (by norm_num)]
  norm_num
  rw [readLenDelim_spec v rest hb]

theorem State.driver_Key (v rest : List Nat) (r : State) (f : Nat)
    (hb : v.length < 2 ^ 63) (hr : r.Key = []) :
    driverAux State.step (presLen v + f) (bytesField 0xa v ++ rest) r =
    driverAux State.step f rest { r with Key := v } := by
  by_cases hv : 0 < v.length
  · simp only [presLen, hv, if_true, bytesField]
    rw [show (1 : Nat) + f = f + 1 by omega]
    rw [List.cons_append, List.append_assoc]
    exact driverAux_cons_ok _ f _ _ _ _ _ (State.step_Key v rest r hb)
  · have hnil : v = [] := by
      cases v with
      | nil => rfl
      | cons a as => simp at hv
    subst hnil
    simp only [presLen, bytesField]
    norm_num
    have hrr : { r with Key := ([] : List Nat) } = r := by
      cases r
      simp_all
    rw [hrr]

theorem State.step_Value (v : List Nat) (rest : List Nat) (r : State)
    (hb : v.length < 2 ^ 63) :
    State.step (0x12 :: (putUvarint v.length ++ (v ++ rest))) r =
    .ok ({ r with Value := v }, rest) := by
  unfold State.step
  rw [readVarint_single 0x12 _ (by norm_num)]
  norm_num
  rw [readLenDelim_spec v rest hb]

theorem State.driver_Value (v rest : List Nat) (r : State) (f : Nat)
    (hb : v.length < 2 ^ 63) (hr : r.Value = []) :
    driverAux State.step (presLen v + f) (bytesField 0x12 v ++ rest) r =
    driverAux State.step f rest { r with Value := v } := by
  by_cases hv : 0 < v.length
  · simp only [presLen, hv, if_true, bytesField]
    rw [show (1 : Nat) + f = f + 1 by omega]
    rw [List.cons_append, List.append_assoc]
    exact driverAux_cons_ok _ f _ _ _ _ _ (State.step_Value v rest r hb)
  · have hnil : v = [] := by
      cases v with
      | nil => rfl
      | cons a as => simp at hv
    subst hnil
    simp only [presLen, bytesField]
    norm_num
    have hrr : { r with Value := ([] : List Nat) } = r := by
      cases r
      simp_all
    rw [hrr]

/-- Validity of a State value: the field bounds within which the machine
integers of the source cannot overflow. -/
def State.Valid (m : State) : Prop :=
  m.Key.length < 2 ^ 63 ∧ m.Value.length < 2 ^ 63

theorem State.unmarshal_marshal_chain_S (m : State) (hv : m.Valid) (rest : List Nat) (f : Nat) :
    driverAux State.step (presLen m.Key + (presLen m.Value + f))
      (State.marshal m ++ rest) State.zero =
    driverAux State.step f rest m := by
  obtain ⟨h1, h2⟩ := hv
  unfold State.marshal
  rw [List.append_assoc]
  rw [State.driver_Key m.Key _ State.zero _ h1 rfl]
  rw [State.driver_Value m.Value _ _ _ h2 rfl]

theorem State.roundtrip_S (m : State) (hv : m.Valid) :
    State.unmarshal (State.marshal m) = .ok m := by
  have hchain := State.unmarshal_marshal_chain_S m hv [] 0
  rw [List.append_nil] at hchain
  have hok : driverAux State.step (presLen m.Key + (presLen m.Value + 0))
      (State.marshal m) State.zero = .ok m := by
    rw [hchain]
    rfl
  unfold State.unmarshal State.unmarshalFrom
  apply driverAux_mono State.step _ _ _ _ _ _ hok
  unfold State.marshal bytesField presLen
  by_cases hk : 0 < m.Key.length <;> by_cases hval : 0 < m.Value.length <;>
    (simp [hk, hval]; try omega)

/-! AccessTuple: per-field lemmas and round trip. -/

theorem AccessTuple.step_Address_AT (v : List Nat) (rest : List Nat) (r : AccessTuple)
    (hb : v.length < 2 ^ 63) :
    AccessTuple.step (0xa :: (putUvarint v.length ++ (v ++ rest))) r =
    .ok ({ r with Address := v }, rest) := by
  unfold AccessTuple.step
  rw [readVarint_single 0xa _ (by norm_num)]
  norm_num
  rw [readLenDelim_spec v rest hb]

theorem AccessTuple.driver_Address_AT (v rest : List Nat) (r : AccessTuple) (f : Nat)
    (hb : v.length < 2 ^ 63) (hr : r.Address = []) :
    driverAux AccessTuple.step (presLen v + f) (bytesField 0xa v ++ rest) r =
    driverAux AccessTuple.step f rest { r with Address := v } := by
  by_cases hv : 0 < v.length
  · simp only [presLen, hv, if_true, bytesField]
    rw [show (1 : Nat) + f = f + 1 by omega]
    rw [List.cons_append, List.append_assoc]
    exact driverAux_cons_ok _ f _ _ _ _ _ (AccessTuple.step_Address_AT v rest r hb)
  · have hnil : v = [] := by
      cases v with
      | nil => rfl
      | cons a as => simp at hv
    subst hnil
    simp only [presLen, bytesField]
    norm_num
    have hrr : { r with Address := ([] : List Nat) } = r := by
      cases r
      simp_all
    rw [hrr]

theorem AccessTuple.step_StorageKey (v : List Nat) (rest : List Nat) (r : AccessTuple)
    (hb : v.length < 2 ^ 63) :
    AccessTuple.step (0x12 :: (putUvarint v.length ++ (v ++ rest))) r =
    .ok ({ r with StorageKeys := r.StorageKeys ++ [v] }, rest) := by
  unfold AccessTuple.step
  rw [readVarint_single 0x12 _ (by norm_num)]
  norm_num
  rw [readLenDelim_spec v rest hb]

theorem AccessTuple.driver_StorageKeys (ts : List (List Nat)) : ∀ (rest : List Nat)
    (r : AccessTuple) (f : Nat), (∀ t ∈ ts, t.length < 2 ^ 63) →
    driverAux AccessTuple.step (ts.length + f)
      ((ts.map (strElemField 0x12)).flatten ++ rest) r =
    driverAux AccessTuple.step f rest { r with StorageKeys := r.StorageKeys ++ ts } := by
  induction ts with
  | nil =>
      intro rest r f _
      simp only [List.map_nil, List.flatten_nil, List.nil_append, List.length_nil,
        Nat.zero_add]
      have hrr : { r with StorageKeys := r.StorageKeys ++ ([] : List (List Nat)) } = r := by
        cases r
        simp
      rw [hrr]
  | cons t ts ih =>
      intro rest r f hb
      have ht := hb t (by simp)
      simp only [List.map_cons, List.flatten_cons, List.length_cons]
      rw [List.append_assoc]
      have hfuel : ts.length + 1 + f = (ts.length + f) + 1 := by omega
      rw [hfuel]
      rw [show strElemField 0x12 t = 0x12 :: (putUvarint t.length ++ t) from rfl]
      rw [List.cons_append, List.append_assoc]
      rw [driverAux_cons_ok _ _ _ _ _ _ _
        (AccessTuple.step_StorageKey t _ r ht)]
      rw [ih rest _ f (fun x hx => hb x (by simp [hx]))]
      simp [List.append_assoc]

/-- Validity of an AccessTuple value. -/
def AccessTuple.Valid (m : AccessTuple) : Prop :=
  m.Address.length < 2 ^ 63 ∧ ∀ t ∈ m.StorageKeys, t.length < 2 ^ 63

theorem AccessTuple.unmarshal_marshal_chain_AT (m : AccessTuple) (hv : m.Valid)
    (rest : List Nat) (f : Nat) :
    driverAux AccessTuple.step (presLen m.Address + (m.StorageKeys.length + f))
      (AccessTuple.marshal m ++ rest) AccessTuple.zero =
    driverAux AccessTuple.step f rest m := by
  obtain ⟨h1, h2⟩ := hv
  unfold AccessTuple.marshal
  rw [List.append_assoc]
  rw [AccessTuple.driver_Address_AT m.Address _ AccessTuple.zero _ h1 rfl]
  rw [AccessTuple.driver_StorageKeys m.StorageKeys rest _ f h2]
  cases m
  rfl

theorem AccessTuple.roundtrip_AT (m : AccessTuple) (hv : m.Valid) :
    AccessTuple.unmarshal (AccessTuple.marshal m) = .ok m := by
  have hchain := AccessTuple.unmarshal_marshal_chain_AT m hv [] 0
  rw [List.append_nil] at hchain
  have hok : driverAux AccessTuple.step (presLen m.Address + (m.StorageKeys.length + 0))
      (AccessTuple.marshal m) AccessTuple.zero = .ok m := by
    rw [hchain]
    rfl
  unfold AccessTuple.unmarshal AccessTuple.unmarshalFrom
  apply driverAux_mono AccessTuple.step _ _ _ _ _ _ hok
  have hkeys : m.StorageKeys.length ≤
      ((m.StorageKeys.map (strElemField 0x12)).flatten).length := by
    induction m.StorageKeys with
    | nil => simp
    | cons t ts ih =>
        simp only [List.map_cons, List.flatten_cons, List.length_append, List.length_cons]
        have hone : 1 ≤ (strElemField 0x12 t).length := by simp [strElemField]
        omega
  have hlen : (AccessTuple.marshal m).length = (bytesField 0xa m.Address).length +
      ((m.StorageKeys.map (strElemField 0x12)).flatten).length := by
    unfold AccessTuple.marshal
    rw [List.length_append]
  have haddr : presLen m.Address ≤ (bytesField 0xa m.Address).length := by
    unfold presLen bytesField
    by_cases ha : 0 < m.Address.length <;> simp [ha]
  omega

/-! Log: per-field lemmas and round trip. -/

theorem Log.step_Address_L (v : List Nat) (rest : List Nat) (r : Log)
    (hb : v.length < 2 ^ 63) :
    Log.step (0xa :: (putUvarint v.length ++ (v ++ rest))) r =
    .ok ({ r with Address := v }, rest) := by
  unfold Log.step
  rw [readVarint_single 0xa _ (by norm_num)]
  norm_num
  rw [readLenDelim_spec v rest hb]

theorem Log.driver_Address_L (v rest : List Nat) (r : Log) (f : Nat)
    (hb : v.length < 2 ^ 63) (hr : r.Address = []) :
    driverAux Log.step (presLen v + f) (bytesField 0xa v ++ rest) r =
    driverAux Log.step f rest { r with Address := v } := by
  by_cases hv : 0 < v.length
  · simp only [presLen, hv, if_true, bytesField]
    rw [show (1 : Nat) + f = f + 1 by omega]
    rw [List.cons_append, List.append_assoc]
    exact driverAux_cons_ok _ f _ _ _ _ _ (Log.step_Address_L v rest r hb)
  · have hnil : v = [] := by
      cases v with
      | nil => rfl
      | cons a as => simp at hv
    subst hnil
    simp only [presLen, bytesField]
    norm_num
    have hrr : { r with Address := ([] : List Nat) } = r := by
      cases r
      simp_all
    rw [hrr]

theorem Log.step_Topic (v : List Nat) (rest : List Nat) (r : Log)
    (hb : v.length < 2 ^ 63) :
    Log.step (0x12 :: (putUvarint v.length ++ (v ++ rest))) r =
    .ok ({ r with Topics := r.Topics ++ [v] }, rest) := by
  unfold Log.step
  rw [readVarint_single 0x12 _ (by norm_num)]
  norm_num
  rw [readLenDelim_spec v rest hb]

theorem Log.driver_Topics (ts : List (List Nat)) : ∀ (rest : List Nat)
    (r : Log) (f : Nat), (∀ t ∈ ts, t.length < 2 ^ 63) →
    driverAux Log.step (ts.length + f)
      ((ts.map (strElemField 0x12)).flatten ++ rest) r =
    driverAux Log.step f rest { r with Topics := r.Topics ++ ts } := by
  induction ts with
  | nil =>
      intro rest r f _
      simp only [List.map_nil, List.flatten_nil, List.nil_append, List.length_nil,
        Nat.zero_add]
      have hrr : { r with Topics := r.Topics ++ ([] : List (List Nat)) } = r := by
        cases r
        simp
      rw [hrr]
  | cons t ts ih =>
      intro rest r f hb
      have ht := hb t (by simp)
      simp only [List.map_cons, List.flatten_cons, List.length_cons]
      rw [List.append_assoc]
      have hfuel : ts.length + 1 + f = (ts.length + f) + 1 := by omega
      rw [hfuel]
      rw [show strElemField 0x12 t = 0x12 :: (putUvarint t.length ++ t) from rfl]
      rw [List.cons_append, List.append_assoc]
      rw [driverAux_cons_ok _ _ _ _ _ _ _ (Log.step_Topic t _ r ht)]
      rw [ih rest _ f (fun x hx => hb x (by simp [hx]))]
      simp [List.append_assoc]

theorem Log.step_Data (v : List Nat) (rest : List Nat) (r : Log)
    (hb : v.length < 2 ^ 63) :
    Log.step (0x1a :: (putUvarint v.length ++ (v ++ rest))) r =
    .ok ({ r with Data := v }, rest) := by
  unfold Log.step
  rw [readVarint_single 0x1a _ (by norm_num)]
  norm_num
  rw [readLenDelim_spec v rest hb]

theorem Log.driver_Data (v rest : List Nat) (r : Log) (f : Nat)
    (hb : v.length < 2 ^ 63) (hr : r.Data = []) :
    driverAux Log.step (presLen v + f) (bytesField 0x1a v ++ rest) r =
    driverAux Log.step f rest { r with Data := v } := by
  by_cases hv : 0 < v.length
  · simp only [presLen, hv, if_true, bytesField]
    rw [show (1 : Nat) + f = f + 1 by omega]
    rw [List.cons_append, List.append_assoc]
    exact driverAux_cons_ok _ f _ _ _ _ _ (Log.step_Data v rest r hb)
  · have hnil : v = [] := by
      cases v with
      | nil => rfl
      | cons a as => simp at hv
    subst hnil
    simp only [presLen, bytesField]
    norm_num
    have hrr : { r with Data := ([] : List Nat) } = r := by
      cases r
      simp_all
    rw [hrr]

theorem Log.step_BlockNumber (v : Nat) (rest : List Nat) (r : Log)
    (hv64 : v < 2 ^ 64) :
    Log.step (0x20 :: (putUvarint v ++ rest)) r =
    .ok ({ r with BlockNumber := v }, rest) := by
  unfold Log.step
  rw [readVarint_single 0x20 _ (by norm_num)]
  norm_num
  rw [readVarint_putUvarint v rest hv64]

theorem Log.driver_BlockNumber (v : Nat) (rest : List Nat) (r : Log) (f : Nat)
    (hv64 : v < 2 ^ 64) (hr : r.BlockNumber = 0) :
    driverAux Log.step (presUint v + f) (uintField 0x20 v ++ rest) r =
    driverAux Log.step f rest { r with BlockNumber := v } := by
  by_cases hv : v ≠ 0
  · simp only [presUint, uintField, if_pos hv]
    rw [show (1 : Nat) + f = f + 1 by omega]
    rw [List.cons_append]
    exact driverAux_cons_ok _ f _ _ _ _ _ (Log.step_BlockNumber v rest r hv64)
  · push_neg at hv
    subst hv
    simp only [presUint, uintField]
    norm_num
    have hrr : { r with BlockNumber := 0 } = r := by
      cases r
      simp_all
    rw [hrr]

theorem Log.step_TxHash (v : List Nat) (rest : List Nat) (r : Log)
    (hb : v.length < 2 ^ 63) :
    Log.step (0x2a :: (putUvarint v.length ++ (v ++ rest))) r =
    .ok ({ r with TxHash := v }, rest) := by
  unfold Log.step
  rw [readVarint_single 0x2a _ (by norm_num)]
  norm_num
  rw [readLenDelim_spec v rest hb]

theorem Log.driver_TxHash (v rest : List Nat) (r : Log) (f : Nat)
    (hb : v.length < 2 ^ 63) (hr : r.TxHash = []) :
    driverAux Log.step (presLen v + f) (bytesField 0x2a v ++ rest) r =
    driverAux Log.step f rest { r with TxHash := v } := by
  by_cases hv : 0 < v.length
  · simp only [presLen, hv, if_true, bytesField]
    rw [show (1 : Nat) + f = f + 1 by omega]
    rw [List.cons_append, List.append_assoc]
    exact driverAux_cons_ok _ f _ _ _ _ _ (Log.step_TxHash v rest r hb)
  · have hnil : v = [] := by
      cases v with
      | nil => rfl
      | cons a as => simp at hv
    subst hnil
    simp only [presLen, bytesField]
    norm_num
    have hrr : { r with TxHash := ([] : List Nat) } = r := by
      cases r
      simp_all
    rw [hrr]

theorem Log.step_TxIndex (v : Nat) (rest : List Nat) (r : Log)
    (hv64 : v < 2 ^ 64) :
    Log.step (0x30 :: (putUvarint v ++ rest)) r =
    .ok ({ r with TxIndex := v }, rest) := by
  unfold Log.step
  rw [readVarint_single 0x30 _ (by norm_num)]
  norm_num
  rw [readVarint_putUvarint v rest hv64]

theorem Log.driver_TxIndex (v : Nat) (rest : List Nat) (r : Log) (f : Nat)
    (hv64 : v < 2 ^ 64) (hr : r.TxIndex = 0) :
    driverAux Log.step (presUint v + f) (uintField 0x30 v ++ rest) r =
    driverAux Log.step f rest { r with TxIndex := v } := by
  by_cases hv : v ≠ 0
  · simp only [presUint, uintField, if_pos hv]
    rw [show (1 : Nat) + f = f + 1 by omega]
    rw [List.cons_append]
    exact driverAux_cons_ok _ f _ _ _ _ _ (Log.step_TxIndex v rest r hv64)
  · push_neg at hv
    subst hv
    simp only [presUint, uintField]
    norm_num
    have hrr : { r with TxIndex := 0 } = r := by
      cases r
      simp_all
    rw [hrr]

theorem Log.step_BlockHash (v : List Nat) (rest : List Nat) (r : Log)
    (hb : v.length < 2 ^ 63) :
    Log.step (0x3a :: (putUvarint v.length ++ (v ++ rest))) r =
    .ok ({ r with BlockHash := v }, rest) := by
  unfold Log.step
  rw [readVarint_single 0x3a _ (by norm_num)]
  norm_num
  rw [readLenDelim_spec v rest hb]

theorem Log.driver_BlockHash (v rest : List Nat) (r : Log) (f : Nat)
    (hb : v.length < 2 ^ 63) (hr : r.BlockHash = []) :
    driverAux Log.step (presLen v + f) (bytesField 0x3a v ++ rest) r =
    driverAux Log.step f rest { r with BlockHash := v } := by
  by_cases hv : 0 < v.length
  · simp only [presLen, hv, if_true, bytesField]
    rw [show (1 : Nat) + f = f + 1 by omega]
    rw [List.cons_append, List.append_assoc]
    exact driverAux_cons_ok _ f _ _ _ _ _ (Log.step_BlockHash v rest r hb)
  · have hnil : v = [] := by
      cases v with
      | nil => rfl
      | cons a as => simp at hv
    subst hnil
    simp only [presLen, bytesField]
    norm_num
    have hrr : { r with BlockHash := ([] : List Nat) } = r := by
      cases r
      simp_all
    rw [hrr]

theorem Log.step_Index (v : Nat) (rest : List Nat) (r : Log)
    (hv64 : v < 2 ^ 64) :
    Log.step (0x40 :: (putUvarint v ++ rest)) r =
    .ok ({ r with Index := v }, rest) := by
  unfold Log.step
  rw [readVarint_single 0x40 _ (by norm_num)]
  norm_num
  rw [readVarint_putUvarint v rest hv64]

theorem Log.driver_Index (v : Nat) (rest : List Nat) (r : Log) (f : Nat)
    (hv64 : v < 2 ^ 64) (hr : r.Index = 0) :
    driverAux Log.step (presUint v + f) (uintField 0x40 v ++ rest) r =
    driverAux Log.step f rest { r with Index := v } := by
  by_cases hv : v ≠ 0
  · simp only [presUint, uintField, if_pos hv]
    rw [show (1 : Nat) + f = f + 1 by omega]
    rw [List.cons_append]
    exact driverAux_cons_ok _ f _ _ _ _ _ (Log.step_Index v rest r hv64)
  · push_neg at hv
    subst hv
    simp only [presUint, uintField]
    norm_num
    have hrr : { r with Index := 0 } = r := by
      cases r
      simp_all
    rw [hrr]

theorem Log.step_Removed (rest : List Nat) (r : Log) :
    Log.step (0x48 :: (1 :: rest)) r = .ok ({ r with Removed := true }, rest) := by
  unfold Log.step
  rw [readVarint_single 0x48 _ (by norm_num)]
  norm_num
  rw [readVarint_single 1 _ (by norm_num)]
  norm_num

theorem Log.driver_Removed (b : Bool) (rest : List Nat) (r : Log) (f : Nat)
    (hr : r.Removed = false) :
    driverAux Log.step (presBool b + f) (boolField 0x48 b ++ rest) r =
    driverAux Log.step f rest { r with Removed := b } := by
  cases b with
  | true =>
      simp only [presBool, if_true, boolField]
      rw [show (1 : Nat) + f = f + 1 by omega]
      rw [show ([0x48, 1] : List Nat) ++ rest = 0x48 :: (1 :: rest) from rfl]
      exact driverAux_cons_ok _ f _ _ _ _ _ (Log.step_Removed rest r)
  | false =>
      simp only [presBool, boolField]
      norm_num
      have hrr : { r with Removed := false } = r := by
        cases r
        simp_all
      rw [hrr]

/-- Validity of a Log value. -/
def Log.Valid (m : Log) : Prop :=
  m.Address.length < 2 ^ 63 ∧ (∀ t ∈ m.Topics, t.length < 2 ^ 63) ∧
  m.Data.length < 2 ^ 63 ∧ m.BlockNumber < 2 ^ 64 ∧
  m.TxHash.length < 2 ^ 63 ∧ m.TxIndex < 2 ^ 64 ∧
  m.BlockHash.length < 2 ^ 63 ∧ m.Index < 2 ^ 64

/-- Total driver iterations of a Log encoding. -/
def Log.iter (m : Log) : Nat :=
  presLen m.Address + (m.Topics.length + (presLen m.Data + (presUint m.BlockNumber +
    (presLen m.TxHash + (presUint m.TxIndex + (presLen m.BlockHash +
    (presUint m.Index + presBool m.Removed)))))))

theorem Log.unmarshal_marshal_chain_L (m : Log) (hv : m.Valid) (rest : List Nat) (f : Nat) :
    driverAux Log.step (Log.iter m + f) (Log.marshal m ++ rest) Log.zero =
    driverAux Log.step f rest m := by
  obtain ⟨h1, h2, h3, h4, h5, h6, h7, h8⟩ := hv
  unfold Log.iter Log.marshal
  simp only [List.append_assoc, Nat.add_assoc]
  rw [Log.driver_Address_L m.Address _ Log.zero _ h1 rfl]
  rw [Log.driver_Topics m.Topics _ _ _ h2]
  rw [Log.driver_Data m.Data _ _ _ h3 rfl]
  rw [Log.driver_BlockNumber m.BlockNumber _ _ _ h4 rfl]
  rw [Log.driver_TxHash m.TxHash _ _ _ h5 rfl]
  rw [Log.driver_TxIndex m.TxIndex _ _ _ h6 rfl]
  rw [Log.driver_BlockHash m.BlockHash _ _ _ h7 rfl]
  rw [Log.driver_Index m.Index _ _ _ h8 rfl]
  rw [Log.driver_Removed m.Removed _ _ _ rfl]
  cases m
  rfl

theorem Log.roundtrip_L (m : Log) (hv : m.Valid) :
    Log.unmarshal (Log.marshal m) = .ok m := by
  have hchain := Log.unmarshal_marshal_chain_L m hv [] 0
  rw [List.append_nil] at hchain
  have hok : driverAux Log.step (Log.iter m + 0) (Log.marshal m) Log.zero = .ok m := by
    rw [hchain]
    rfl
  unfold Log.unmarshal Log.unmarshalFrom
  apply driverAux_mono Log.step _ _ _ _ _ _ hok
  have htop : m.Topics.length ≤ ((m.Topics.map (strElemField 0x12)).flatten).length := by
    induction m.Topics with
    | nil => simp
    | cons t ts ih =>
        simp only [List.map_cons, List.flatten_cons, List.length_append, List.length_cons]
        have hone : 1 ≤ (strElemField 0x12 t).length := by simp [strElemField]
        omega
  have h1 : presLen m.Address ≤ (bytesField 0xa m.Address).length := by
    unfold presLen bytesField
    by_cases h : 0 < m.Address.length <;> simp [h]
  have h3 : presLen m.Data ≤ (bytesField 0x1a m.Data).length := by
    unfold presLen bytesField
    by_cases h : 0 < m.Data.length <;> simp [h]
  have h4 : presUint m.BlockNumber ≤ (uintField 0x20 m.BlockNumber).length := by
    unfold presUint uintField
    by_cases h : m.BlockNumber ≠ 0 <;> simp [h]
  have h5 : presLen m.TxHash ≤ (bytesField 0x2a m.TxHash).length := by
    unfold presLen bytesField
    by_cases h : 0 < m.TxHash.length <;> simp [h]
  have h6 : presUint m.TxIndex ≤ (uintField 0x30 m.TxIndex).length := by
    unfold presUint uintField
    by_cases h : m.TxIndex ≠ 0 <;> simp [h]
  have h7 : presLen m.BlockHash ≤ (bytesField 0x3a m.BlockHash).length := by
    unfold presLen bytesField
    by_cases h : 0 < m.BlockHash.length <;> simp [h]
  have h8 : presUint m.Index ≤ (uintField 0x40 m.Index).length := by
    unfold presUint uintField
    by_cases h : m.Index ≠ 0 <;> simp [h]
  have h9 : presBool m.Removed ≤ (boolField 0x48 m.Removed).length := by
    unfold presBool boolField
    by_cases h : m.Removed <;> simp [h]
  have hlen : (Log.marshal m).length = (bytesField 0xa m.Address).length +
      (((m.Topics.map (strElemField 0x12)).flatten).length +
      ((bytesField 0x1a m.Data).length + ((uintField 0x20 m.BlockNumber).length +
      ((bytesField 0x2a m.TxHash).length + ((uintField 0x30 m.TxIndex).length +
      ((bytesField 0x3a m.BlockHash).length + ((uintField 0x40 m.Index).length +
      (boolField 0x48 m.Removed).length))))))) := by
    unfold Log.marshal
    simp [List.length_append]
  unfold Log.iter
  omega

/-! TransactionLogs: per-field lemmas and round trip. -/

theorem TransactionLogs.step_Hash (v : List Nat) (rest : List Nat) (r : TransactionLogs)
    (hb : v.length < 2 ^ 63) :
    TransactionLogs.step (0xa :: (putUvarint v.length ++ (v ++ rest))) r =
    .ok ({ r with Hash := v }, rest) := by
  unfold TransactionLogs.step
  rw [readVarint_single 0xa _ (by norm_num)]
  norm_num
  rw [readLenDelim_spec v rest hb]

theorem TransactionLogs.driver_Hash (v rest : List Nat) (r : TransactionLogs) (f : Nat)
    (hb : v.length < 2 ^ 63) (hr : r.Hash = []) :
    driverAux TransactionLogs.step (presLen v + f) (bytesField 0xa v ++ rest) r =
    driverAux TransactionLogs.step f rest { r with Hash := v } := by
  by_cases hv : 0 < v.length
  · simp only [presLen, hv, if_true, bytesField]
    rw [show (1 : Nat) + f = f + 1 by omega]
    rw [List.cons_append, List.append_assoc]
    exact driverAux_cons_ok _ f _ _ _ _ _ (TransactionLogs.step_Hash v rest r hb)
  · have hnil : v = [] := by
      cases v with
      | nil => rfl
      | cons a as => simp at hv
    subst hnil
    simp only [presLen, bytesField]
    norm_num
    have hrr : { r with Hash := ([] : List Nat) } = r := by
      cases r
      simp_all
    rw [hrr]

theorem TransactionLogs.step_Log (lg : Log) (rest : List Nat) (r : TransactionLogs)
    (hlg : lg.Valid) (hlen : (Log.marshal lg).length < 2 ^ 63) :
    TransactionLogs.step
      (0x12 :: (putUvarint (Log.marshal lg).length ++ (Log.marshal lg ++ rest))) r =
    .ok ({ r with Logs := r.Logs ++ [lg] }, rest) := by
  have hdispatch : ∀ T : List Nat, TransactionLogs.step (0x12 :: T) r =
      match readLogField T with
      | .error e => .error e
      | .ok (lg', rem2) => .ok ({ r with Logs := r.Logs ++ [lg'] }, rem2) := by
    intro T
    unfold TransactionLogs.step
    rw [readVarint_single 0x12 _ (by norm_num)]
    norm_num
  rw [hdispatch, readLogField_spec (Log.marshal lg) lg rest hlen (Log.roundtrip_L lg hlg)]

theorem TransactionLogs.driver_Logs (ls : List Log) : ∀ (rest : List Nat)
    (r : TransactionLogs) (f : Nat),
    (∀ lg ∈ ls, Log.Valid lg ∧ (Log.marshal lg).length < 2 ^ 63) →
    driverAux TransactionLogs.step (ls.length + f)
      ((ls.map (fun lg => msgField 0x12 (Log.marshal lg))).flatten ++ rest) r =
    driverAux TransactionLogs.step f rest { r with Logs := r.Logs ++ ls } := by
  induction ls with
  | nil =>
      intro rest r f _
      simp only [List.map_nil, List.flatten_nil, List.nil_append, List.length_nil,
        Nat.zero_add]
      have hrr : { r with Logs := r.Logs ++ ([] : List Log) } = r := by
        cases r
        simp
      rw [hrr]
  | cons lg ls ih =>
      intro rest r f hb
      obtain ⟨hlg, hlen⟩ := hb lg (by simp)
      simp only [List.map_cons, List.flatten_cons, List.length_cons]
      rw [List.append_assoc]
      have hfuel : ls.length + 1 + f = (ls.length + f) + 1 := by omega
      rw [hfuel]
      rw [show msgField 0x12 (Log.marshal lg) =
        0x12 :: (putUvarint (Log.marshal lg).length ++ Log.marshal lg) from rfl]
      rw [List.cons_append, List.append_assoc]
      rw [driverAux_cons_ok _ _ _ _ _ _ _
        (TransactionLogs.step_Log lg _ r hlg hlen)]
      rw [ih rest _ f (fun x hx => hb x (by simp [hx]))]
      simp [List.append_assoc]

/-- Validity of a TransactionLogs value. -/
def TransactionLogs.Valid (m : TransactionLogs) : Prop :=
  m.Hash.length < 2 ^ 63 ∧
  ∀ lg ∈ m.Logs, Log.Valid lg ∧ (Log.marshal lg).length < 2 ^ 63

theorem TransactionLogs.unmarshal_marshal_chain_TL (m : TransactionLogs) (hv : m.Valid)
    (rest : List Nat) (f : Nat) :
    driverAux TransactionLogs.step (presLen m.Hash + (m.Logs.length + f))
      (TransactionLogs.marshal m ++ rest) TransactionLogs.zero =
    driverAux TransactionLogs.step f rest m := by
  obtain ⟨h1, h2⟩ := hv
  unfold TransactionLogs.marshal
  rw [List.append_assoc]
  rw [TransactionLogs.driver_Hash m.Hash _ TransactionLogs.zero _ h1 rfl]
  rw [TransactionLogs.driver_Logs m.Logs rest _ f h2]
  cases m
  rfl

theorem TransactionLogs.roundtrip_TL (m : TransactionLogs) (hv : m.Valid) :
    TransactionLogs.unmarshal (TransactionLogs.marshal m) = .ok m := by
  have hchain := TransactionLogs.unmarshal_marshal_chain_TL m hv [] 0
  rw [List.append_nil] at hchain
  have hok : driverAux TransactionLogs.step (presLen m.Hash + (m.Logs.length + 0))
      (TransactionLogs.marshal m) TransactionLogs.zero = .ok m := by
    rw [hchain]
    rfl
  unfold TransactionLogs.unmarshal TransactionLogs.unmarshalFrom
  apply driverAux_mono TransactionLogs.step _ _ _ _ _ _ hok
  have hlogs : m.Logs.length ≤
      ((m.Logs.map (fun lg => msgField 0x12 (Log.marshal lg))).flatten).length := by
    induction m.Logs with
    | nil => simp
    | cons lg ls ih =>
        simp only [List.map_cons, List.flatten_cons, List.length_append, List.length_cons]
        have hone : 1 ≤ (msgField 0x12 (Log.marshal lg)).length := by simp [msgField]
        omega
  have hlen : (TransactionLogs.marshal m).length = (bytesField 0xa m.Hash).length +
      ((m.Logs.map (fun lg => msgField 0x12 (Log.marshal lg))).flatten).length := by
    unfold TransactionLogs.marshal
    rw [List.length_append]
  have haddr : presLen m.Hash ≤ (bytesField 0xa m.Hash).length := by
    unfold presLen bytesField
    by_cases h : 0 < m.Hash.length <;> simp [h]
  omega

/-! ChainConfig: per-field lemmas and round trip. -/

/-- Validity bound for one optional extended-precision integer field. -/
def okInt : Option Int → Prop
  | none => True
  | some x => (intEncode x).length < 2 ^ 63

theorem readIntField_spec (x : Int) (rest : List Nat)
    (hx : (intEncode x).length < 2 ^ 63) :
    readIntField (putUvarint (intSize x) ++ (intEncode x ++ rest)) = .ok (x, rest) := by
  unfold readIntField
  rw [show intSize x = (intEncode x).length from rfl]
  rw [readLenDelim_spec (intEncode x) rest hx]
  show (match intDecode (intEncode x) with
        | .error e => (.error e : Except DecodeError (Int × List Nat))
        | .ok v => .ok (v, rest)) = .ok (x, rest)
  rw [intDecode_intEncode x]

theorem ChainConfig.step_HomesteadBlock (x : Int) (rest : List Nat) (r : ChainConfig)
    (hx : (intEncode x).length < 2 ^ 63) :
    ChainConfig.step (0xa :: (putUvarint (intSize x) ++ (intEncode x ++ rest))) r =
    .ok ({ r with HomesteadBlock := some x }, rest) := by
  have hdispatch : ∀ T' : List Nat, ChainConfig.step (0xa :: T') r =
      match readIntField T' with
      | .error e => .error e
      | .ok (v, rem2) => .ok ({ r with HomesteadBlock := some v }, rem2) := by
    intro T'
    unfold ChainConfig.step
    rw [readVarint_single 0xa _ (by norm_num)]
    norm_num
  rw [hdispatch, readIntField_spec x rest hx]

theorem ChainConfig.driver_HomesteadBlock (v : Option Int) (rest : List Nat) (r : ChainConfig)
    (f : Nat) (hb : okInt v) (hr : r.HomesteadBlock = none) :
    driverAux ChainConfig.step (presOpt v + f) (intOptField [0xa] v ++ rest) r =
    driverAux ChainConfig.step f rest { r with HomesteadBlock := v } := by
  cases v with
  | none =>
      simp only [presOpt, intOptField]
      norm_num
      have hrr : { r with HomesteadBlock := (none : Option Int) } = r := by
        cases r
        simp_all
      rw [hrr]
  | some x =>
      simp only [presOpt, intOptField]
      rw [show (1 : Nat) + f = f + 1 by omega]
      rw [show ([0xa] : List Nat) ++ (putUvarint (intSize x) ++ intEncode x) ++ rest =
        0xa :: (putUvarint (intSize x) ++ (intEncode x ++ rest)) by
        simp [List.append_assoc]]
      exact driverAux_cons_ok _ f _ _ _ _ _ (ChainConfig.step_HomesteadBlock x rest r hb)

theorem ChainConfig.step_DAOForkBlock (x : Int) (rest : List Nat) (r : ChainConfig)
    (hx : (intEncode x).length < 2 ^ 63) :
    ChainConfig.step (0x12 :: (putUvarint (intSize x) ++ (intEncode x ++ rest))) r =
    .ok ({ r with DAOForkBlock := some x }, rest) := by
  have hdispatch : ∀ T' : List Nat, ChainConfig.step (0x12 :: T') r =
      match readIntField T' with
      | .error e => .error e
      | .ok (v, rem2) => .ok ({ r with DAOForkBlock := some v }, rem2) := by
    intro T'
    unfold ChainConfig.step
    rw [readVarint_single 0x12 _ (by norm_num)]
    norm_num
  rw [hdispatch, readIntField_spec x rest hx]

theorem ChainConfig.driver_DAOForkBlock (v : Option Int) (rest : List Nat) (r : ChainConfig)
    (f : Nat) (hb : okInt v) (hr : r.DAOForkBlock = none) :
    driverAux ChainConfig.step (presOpt v + f) (intOptField [0x12] v ++ rest) r =
    driverAux ChainConfig.step f rest { r with DAOForkBlock := v } := by
  cases v with
  | none =>
      simp only [presOpt, intOptField]
      norm_num
      have hrr : { r with DAOForkBlock := (none : Option Int) } = r := by
        cases r
        simp_all
      rw [hrr]
  | some x =>
      simp only [presOpt, intOptField]
      rw [show (1 : Nat) + f = f + 1 by omega]
      rw [show ([0x12] : List Nat) ++ (putUvarint (intSize x) ++ intEncode x) ++ rest =
        0x12 :: (putUvarint (intSize x) ++ (intEncode x ++ rest)) by
        simp [List.append_assoc]]
      exact driverAux_cons_ok _ f _ _ _ _ _ (ChainConfig.step_DAOForkBlock x rest r hb)

theorem ChainConfig.step_EIP150Block (x : Int) (rest : List Nat) (r : ChainConfig)
    (hx : (intEncode x).length < 2 ^ 63) :
    ChainConfig.step (0x22 :: (putUvarint (intSize x) ++ (intEncode x ++ rest))) r =
    .ok ({ r with EIP150Block := some x }, rest) := by
  have hdispatch : ∀ T' : List Nat, ChainConfig.step (0x22 :: T') r =
      match readIntField T' with
      | .error e => .error e
      | .ok (v, rem2) => .ok ({ r with EIP150Block := some v }, rem2) := by
    intro T'
    unfold ChainConfig.step
    rw [readVarint_single 0x22 _ (by norm_num)]
    norm_num
  rw [hdispatch, readIntField_spec x rest hx]

theorem ChainConfig.driver_EIP150Block (v : Option Int) (rest : List Nat) (r : ChainConfig)
    (f : Nat) (hb : okInt v) (hr : r.EIP150Block = none) :
    driverAux ChainConfig.step (presOpt v + f) (intOptField [0x22] v ++ rest) r =
    driverAux ChainConfig.step f rest { r with EIP150Block := v } := by
  cases v with
  | none =>
      simp only [presOpt, intOptField]
      norm_num
      have hrr : { r with EIP150Block := (none : Option Int) } = r := by
        cases r
        simp_all
      rw [hrr]
  | some x =>
      simp only [presOpt, intOptField]
      rw [show (1 : Nat) + f = f + 1 by omega]
      rw [show ([0x22] : List Nat) ++ (putUvarint (intSize x) ++ intEncode x) ++ rest =
        0x22 :: (putUvarint (intSize x) ++ (intEncode x ++ rest)) by
        simp [List.append_assoc]]
      exact driverAux_cons_ok _ f _ _ _ _ _ (ChainConfig.step_EIP150Block x rest r hb)

theorem ChainConfig.step_EIP155Block (x : Int) (rest : List Nat) (r : ChainConfig)
    (hx : (intEncode x).length < 2 ^ 63) :
    ChainConfig.step (0x32 :: (putUvarint (intSize x) ++ (intEncode x ++ rest))) r =
    .ok ({ r with EIP155Block := some x }, rest) := by
  have hdispatch : ∀ T' : List Nat, ChainConfig.step (0x32 :: T') r =
      match readIntField T' with
      | .error e => .error e
      | .ok (v, rem2) => .ok ({ r with EIP155Block := some v }, rem2) := by
    intro T'
    unfold ChainConfig.step
    rw [readVarint_single 0x32 _ (by norm_num)]
    norm_num
  rw [hdispatch, readIntField_spec x rest hx]

theorem ChainConfig.driver_EIP155Block (v : Option Int) (rest : List Nat) (r : ChainConfig)
    (f : Nat) (hb : okInt v) (hr : r.EIP155Block = none) :
    driverAux ChainConfig.step (presOpt v + f) (intOptField [0x32] v ++ rest) r =
    driverAux ChainConfig.step f rest { r with EIP155Block := v } := by
  cases v with
  | none =>
      simp only [presOpt, intOptField]
      norm_num
      have hrr : { r with EIP155Block := (none : Option Int) } = r := by
        cases r
        simp_all
      rw [hrr]
  | some x =>
      simp only [presOpt, intOptField]
      rw [show (1 : Nat) + f = f + 1 by omega]
      rw [show ([0x32] : List Nat) ++ (putUvarint (intSize x) ++ intEncode x) ++ rest =
        0x32 :: (putUvarint (intSize x) ++ (intEncode x ++ rest)) by
        simp [List.append_assoc]]
      exact driverAux_cons_ok _ f _ _ _ _ _ (ChainConfig.step_EIP155Block x rest r hb)

theorem ChainConfig.step_EIP158Block (x : Int) (rest : List Nat) (r : ChainConfig)
    (hx : (intEncode x).length < 2 ^ 63) :
    ChainConfig.step (0x3a :: (putUvarint (intSize x) ++ (intEncode x ++ rest))) r =
    .ok ({ r with EIP158Block := some x }, rest) := by
  have hdispatch : ∀ T' : List Nat, ChainConfig.step (0x3a :: T') r =
      match readIntField T' with
      | .error e => .error e
      | .ok (v, rem2) => .ok ({ r with EIP158Block := some v }, rem2) := by
    intro T'
    unfold ChainConfig.step
    rw [readVarint_single 0x3a _ (by norm_num)]
    norm_num
  rw [hdispatch, readIntField_spec x rest hx]

theorem ChainConfig.driver_EIP158Block (v : Option Int) (rest : List Nat) (r : ChainConfig)
    (f : Nat) (hb : okInt v) (hr : r.EIP158Block = none) :
    driverAux ChainConfig.step (presOpt v + f) (intOptField [0x3a] v ++ rest) r =
    driverAux ChainConfig.step f rest { r with EIP158Block := v } := by
  cases v with
  | none =>
      simp only [presOpt, intOptField]
      norm_num
      have hrr : { r with EIP158Block := (none : Option Int) } = r := by
        cases r
        simp_all
      rw [hrr]
  | some x =>
      simp only [presOpt, intOptField]
      rw [show (1 : Nat) + f = f + 1 by omega]
      rw [show ([0x3a] : List Nat) ++ (putUvarint (intSize x) ++ intEncode x) ++ rest =
        0x3a :: (putUvarint (intSize x) ++ (intEncode x ++ rest)) by
        simp [List.append_assoc]]
      exact driverAux_cons_ok _ f _ _ _ _ _ (ChainConfig.step_EIP158Block x rest r hb)

theorem ChainConfig.step_ByzantiumBlock (x : Int) (rest : List Nat) (r : ChainConfig)
    (hx : (intEncode x).length < 2 ^ 63) :
    ChainConfig.step (0x42 :: (putUvarint (intSize x) ++ (intEncode x ++ rest))) r =
    .ok ({ r with ByzantiumBlock := some x }, rest) := by
  have hdispatch : ∀ T' : List Nat, ChainConfig.step (0x42 :: T') r =
      match readIntField T' with
      | .error e => .error e
      | .ok (v, rem2) => .ok ({ r with ByzantiumBlock := some v }, rem2) := by
    intro T'
    unfold ChainConfig.step
    rw [readVarint_single 0x42 _ (by norm_num)]
    norm_num
  rw [hdispatch, readIntField_spec x rest hx]

theorem ChainConfig.driver_ByzantiumBlock (v : Option Int) (rest : List Nat) (r : ChainConfig)
    (f : Nat) (hb : okInt v) (hr : r.ByzantiumBlock = none) :
    driverAux ChainConfig.step (presOpt v + f) (intOptField [0x42] v ++ rest) r =
    driverAux ChainConfig.step f rest { r with ByzantiumBlock := v } := by
  cases v with
  | none =>
      simp only [presOpt, intOptField]
      norm_num
      have hrr : { r with ByzantiumBlock := (none : Option Int) } = r := by
        cases r
        simp_all
      rw [hrr]
  | some x =>
      simp only [presOpt, intOptField]
      rw [show (1 : Nat) + f = f + 1 by omega]
      rw [show ([0x42] : List Nat) ++ (putUvarint (intSize x) ++ intEncode x) ++ rest =
        0x42 :: (putUvarint (intSize x) ++ (intEncode x ++ rest)) by
        simp [List.append_assoc]]
      exact driverAux_cons_ok _ f _ _ _ _ _ (ChainConfig.step_ByzantiumBlock x rest r hb)

theorem ChainConfig.step_ConstantinopleBlock (x : Int) (rest : List Nat) (r : ChainConfig)
    (hx : (intEncode x).length < 2 ^ 63) :
    ChainConfig.step (0x4a :: (putUvarint (intSize x) ++ (intEncode x ++ rest))) r =
    .ok ({ r with ConstantinopleBlock := some x }, rest) := by
  have hdispatch : ∀ T' : List Nat, ChainConfig.step (0x4a :: T') r =
      match readIntField T' with
      | .error e => .error e
      | .ok (v, rem2) => .ok ({ r with ConstantinopleBlock := some v }, rem2) := by
    intro T'
    unfold ChainConfig.step
    rw [readVarint_single 0x4a _ (by norm_num)]
    norm_num
  rw [hdispatch, readIntField_spec x rest hx]

theorem ChainConfig.driver_ConstantinopleBlock (v : Option Int) (rest : List Nat) (r : ChainConfig)
    (f : Nat) (hb : okInt v) (hr : r.ConstantinopleBlock = none) :
    driverAux ChainConfig.step (presOpt v + f) (intOptField [0x4a] v ++ rest) r =
    driverAux ChainConfig.step f rest { r with ConstantinopleBlock := v } := by
  cases v with
  | none =>
      simp only [presOpt, intOptField]
      norm_num
      have hrr : { r with ConstantinopleBlock := (none : Option Int) } = r := by
        cases r
        simp_all
      rw [hrr]
  | some x =>
      simp only [presOpt, intOptField]
      rw [show (1 : Nat) + f = f + 1 by omega]
      rw [show ([0x4a] : List Nat) ++ (putUvarint (intSize x) ++ intEncode x) ++ rest =
        0x4a :: (putUvarint (intSize x) ++ (intEncode x ++ rest)) by
        simp [List.append_assoc]]
      exact driverAux_cons_ok _ f _ _ _ _ _ (ChainConfig.step_ConstantinopleBlock x rest r hb)

theorem ChainConfig.step_PetersburgBlock (x : Int) (rest : List Nat) (r : ChainConfig)
    (hx : (intEncode x).length < 2 ^ 63) :
    ChainConfig.step (0x52 :: (putUvarint (intSize x) ++ (intEncode x ++ rest))) r =
    .ok ({ r with PetersburgBlock := some x }, rest) := by
  have hdispatch : ∀ T' : List Nat, ChainConfig.step (0x52 :: T') r =
      match readIntField T' with
      | .error e => .error e
      | .ok (v, rem2) => .ok ({ r with PetersburgBlock := some v }, rem2) := by
    intro T'
    unfold ChainConfig.step
    rw [readVarint_single 0x52 _ (by norm_num)]
    norm_num
  rw [hdispatch, readIntField_spec x rest hx]

theorem ChainConfig.driver_PetersburgBlock (v : Option Int) (rest : List Nat) (r : ChainConfig)
    (f : Nat) (hb : okInt v) (hr : r.PetersburgBlock = none) :
    driverAux ChainConfig.step (presOpt v + f) (intOptField [0x52] v ++ rest) r =
    driverAux ChainConfig.step f rest { r with PetersburgBlock := v } := by
  cases v with
  | none =>
      simp only [presOpt, intOptField]
      norm_num
      have hrr : { r with PetersburgBlock := (none : Option Int) } = r := by
        cases r
        simp_all
      rw [hrr]
  | some x =>
      simp only [presOpt, intOptField]
      rw [show (1 : Nat) + f = f + 1 by omega]
      rw [show ([0x52] : List Nat) ++ (putUvarint (intSize x) ++ intEncode x) ++ rest =
        0x52 :: (putUvarint (intSize x) ++ (intEncode x ++ rest)) by
        simp [List.append_assoc]]
      exact driverAux_cons_ok _ f _ _ _ _ _ (ChainConfig.step_PetersburgBlock x rest r hb)

theorem ChainConfig.step_IstanbulBlock (x : Int) (rest : List Nat) (r : ChainConfig)
    (hx : (intEncode x).length < 2 ^ 63) :
    ChainConfig.step (0x5a :: (putUvarint (intSize x) ++ (intEncode x ++ rest))) r =
    .ok ({ r with IstanbulBlock := some x }, rest) := by
  have hdispatch : ∀ T' : List Nat, ChainConfig.step (0x5a :: T') r =
      match readIntField T' with
      | .error e => .error e
      | .ok (v, rem2) => .ok ({ r with IstanbulBlock := some v }, rem2) := by
    intro T'
    unfold ChainConfig.step
    rw [readVarint_single 0x5a _ (by norm_num)]
    norm_num
  rw [hdispatch, readIntField_spec x rest hx]

theorem ChainConfig.driver_IstanbulBlock (v : Option Int) (rest : List Nat) (r : ChainConfig)
    (f : Nat) (hb : okInt v) (hr : r.IstanbulBlock = none) :
    driverAux ChainConfig.step (presOpt v + f) (intOptField [0x5a] v ++ rest) r =
    driverAux ChainConfig.step f rest { r with IstanbulBlock := v } := by
  cases v with
  | none =>
      simp only [presOpt, intOptField]
      norm_num
      have hrr : { r with IstanbulBlock := (none : Option Int) } = r := by
        cases r
        simp_all
      rw [hrr]
  | some x =>
      simp only [presOpt, intOptField]
      rw [show (1 : Nat) + f = f + 1 by omega]
      rw [show ([0x5a] : List Nat) ++ (putUvarint (intSize x) ++ intEncode x) ++ rest =
        0x5a :: (putUvarint (intSize x) ++ (intEncode x ++ rest)) by
        simp [List.append_assoc]]
      exact driverAux_cons_ok _ f _ _ _ _ _ (ChainConfig.step_IstanbulBlock x rest r hb)

theorem ChainConfig.step_MuirGlacierBlock (x : Int) (rest : List Nat) (r : ChainConfig)
    (hx : (intEncode x).length < 2 ^ 63) :
    ChainConfig.step (0x62 :: (putUvarint (intSize x) ++ (intEncode x ++ rest))) r =
    .ok ({ r with MuirGlacierBlock := some x }, rest) := by
  have hdispatch : ∀ T' : List Nat, ChainConfig.step (0x62 :: T') r =
      match readIntField T' with
      | .error e => .error e
      | .ok (v, rem2) => .ok ({ r with MuirGlacierBlock := some v }, rem2) := by
    intro T'
    unfold ChainConfig.step
    rw [readVarint_single 0x62 _ (by norm_num)]
    norm_num
  rw [hdispatch, readIntField_spec x rest hx]

theorem ChainConfig.driver_MuirGlacierBlock (v : Option Int) (rest : List Nat) (r : ChainConfig)
    (f : Nat) (hb : okInt v) (hr : r.MuirGlacierBlock = none) :
    driverAux ChainConfig.step (presOpt v + f) (intOptField [0x62] v ++ rest) r =
    driverAux ChainConfig.step f rest { r with MuirGlacierBlock := v } := by
  cases v with
  | none =>
      simp only [presOpt, intOptField]
      norm_num
      have hrr : { r with MuirGlacierBlock := (none : Option Int) } = r := by
        cases r
        simp_all
      rw [hrr]
  | some x =>
      simp only [presOpt, intOptField]
      rw [show (1 : Nat) + f = f + 1 by omega]
      rw [show ([0x62] : List Nat) ++ (putUvarint (intSize x) ++ intEncode x) ++ rest =
        0x62 :: (putUvarint (intSize x) ++ (intEncode x ++ rest)) by
        simp [List.append_assoc]]
      exact driverAux_cons_ok _ f _ _ _ _ _ (ChainConfig.step_MuirGlacierBlock x rest r hb)

theorem ChainConfig.step_BerlinBlock (x : Int) (rest : List Nat) (r : ChainConfig)
    (hx : (intEncode x).length < 2 ^ 63) :
    ChainConfig.step (0x6a :: (putUvarint (intSize x) ++ (intEncode x ++ rest))) r =
    .ok ({ r with BerlinBlock := some x }, rest) := by
  have hdispatch : ∀ T' : List Nat, ChainConfig.step (0x6a :: T') r =
      match readIntField T' with
      | .error e => .error e
      | .ok (v, rem2) => .ok ({ r with BerlinBlock := some v }, rem2) := by
    intro T'
    unfold ChainConfig.step
    rw [readVarint_single 0x6a _ (by norm_num)]
    norm_num
  rw [hdispatch, readIntField_spec x rest hx]

theorem ChainConfig.driver_BerlinBlock (v : Option Int) (rest : List Nat) (r : ChainConfig)
    (f : Nat) (hb : okInt v) (hr : r.BerlinBlock = none) :
    driverAux ChainConfig.step (presOpt v + f) (intOptField [0x6a] v ++ rest) r =
    driverAux ChainConfig.step f rest { r with BerlinBlock := v } := by
  cases v with
  | none =>
      simp only [presOpt, intOptField]
      norm_num
      have hrr : { r with BerlinBlock := (none : Option Int) } = r := by
        cases r
        simp_all
      rw [hrr]
  | some x =>
      simp only [presOpt, intOptField]
      rw [show (1 : Nat) + f = f + 1 by omega]
      rw [show ([0x6a] : List Nat) ++ (putUvarint (intSize x) ++ intEncode x) ++ rest =
        0x6a :: (putUvarint (intSize x) ++ (intEncode x ++ rest)) by
        simp [List.append_assoc]]
      exact driverAux_cons_ok _ f _ _ _ _ _ (ChainConfig.step_BerlinBlock x rest r hb)

theorem ChainConfig.step_LondonBlock (x : Int) (rest : List Nat) (r : ChainConfig)
    (hx : (intEncode x).length < 2 ^ 63) :
    ChainConfig.step (0x8a :: (0x1 :: (putUvarint (intSize x) ++ (intEncode x ++ rest)))) r =
    .ok ({ r with LondonBlock := some x }, rest) := by
  have hdispatch : ∀ T' : List Nat, ChainConfig.step (0x8a :: (0x1 :: T')) r =
      match readIntField T' with
      | .error e => .error e
      | .ok (v, rem2) => .ok ({ r with LondonBlock := some v }, rem2) := by
    intro T'
    unfold ChainConfig.step
    rw [readVarint_two 0x8a 0x1 T' (by norm_num) (by norm_num)]
    norm_num
  rw [hdispatch, readIntField_spec x rest hx]

theorem ChainConfig.driver_LondonBlock (v : Option Int) (rest : List Nat) (r : ChainConfig)
    (f : Nat) (hb : okInt v) (hr : r.LondonBlock = none) :
    driverAux ChainConfig.step (presOpt v + f) (intOptField [0x8a, 0x1] v ++ rest) r =
    driverAux ChainConfig.step f rest { r with LondonBlock := v } := by
  cases v with
  | none =>
      simp only [presOpt, intOptField]
      norm_num
      have hrr : { r with LondonBlock := (none : Option Int) } = r := by
        cases r
        simp_all
      rw [hrr]
  | some x =>
      simp only [presOpt, intOptField]
      rw [show (1 : Nat) + f = f + 1 by omega]
      rw [show ([0x8a, 0x1] : List Nat) ++ (putUvarint (intSize x) ++ intEncode x) ++ rest =
        0x8a :: (0x1 :: (putUvarint (intSize x) ++ (intEncode x ++ rest))) by
        simp [List.append_assoc]]
      exact driverAux_cons_ok _ f _ _ _ _ _ (ChainConfig.step_LondonBlock x rest r hb)

theorem ChainConfig.step_ArrowGlacierBlock (x : Int) (rest : List Nat) (r : ChainConfig)
    (hx : (intEncode x).length < 2 ^ 63) :
    ChainConfig.step (0x92 :: (0x1 :: (putUvarint (intSize x) ++ (intEncode x ++ rest)))) r =
    .ok ({ r with ArrowGlacierBlock := some x }, rest) := by
  have hdispatch : ∀ T' : List Nat, ChainConfig.step (0x92 :: (0x1 :: T')) r =
      match readIntField T' with
      | .error e => .error e
      | .ok (v, rem2) => .ok ({ r with ArrowGlacierBlock := some v }, rem2) := by
    intro T'
    unfold ChainConfig.step
    rw [readVarint_two 0x92 0x1 T' (by norm_num) (by norm_num)]
    norm_num
  rw [hdispatch, readIntField_spec x rest hx]

theorem ChainConfig.driver_ArrowGlacierBlock (v : Option Int) (rest : List Nat) (r : ChainConfig)
    (f : Nat) (hb : okInt v) (hr : r.ArrowGlacierBlock = none) :
    driverAux ChainConfig.step (presOpt v + f) (intOptField [0x92, 0x1] v ++ rest) r =
    driverAux ChainConfig.step f rest { r with ArrowGlacierBlock := v } := by
  cases v with
  | none =>
      simp only [presOpt, intOptField]
      norm_num
      have hrr : { r with ArrowGlacierBlock := (none : Option Int) } = r := by
        cases r
        simp_all
      rw [hrr]
  | some x =>
      simp only [presOpt, intOptField]
      rw [show (1 : Nat) + f = f + 1 by omega]
      rw [show ([0x92, 0x1] : List Nat) ++ (putUvarint (intSize x) ++ intEncode x) ++ rest =
        0x92 :: (0x1 :: (putUvarint (intSize x) ++ (intEncode x ++ rest))) by
        simp [List.append_assoc]]
      exact driverAux_cons_ok _ f _ _ _ _ _ (ChainConfig.step_ArrowGlacierBlock x rest r hb)

theorem ChainConfig.step_GrayGlacierBlock (x : Int) (rest : List Nat) (r : ChainConfig)
    (hx : (intEncode x).length < 2 ^ 63) :
    ChainConfig.step (0xa2 :: (0x1 :: (putUvarint (intSize x) ++ (intEncode x ++ rest)))) r =
    .ok ({ r with GrayGlacierBlock := some x }, rest) := by
  have hdispatch : ∀ T' : List Nat, ChainConfig.step (0xa2 :: (0x1 :: T')) r =
      match readIntField T' with
      | .error e => .error e
      | .ok (v, rem2) => .ok ({ r with GrayGlacierBlock := some v }, rem2) := by
    intro T'
    unfold ChainConfig.step
    rw [readVarint_two 0xa2 0x1 T' (by norm_num) (by norm_num)]
    norm_num
  rw [hdispatch, readIntField_spec x rest hx]

theorem ChainConfig.driver_GrayGlacierBlock (v : Option Int) (rest : List Nat) (r : ChainConfig)
    (f : Nat) (hb : okInt v) (hr : r.GrayGlacierBlock = none) :
    driverAux ChainConfig.step (presOpt v + f) (intOptField [0xa2, 0x1] v ++ rest) r =
    driverAux ChainConfig.step f rest { r with GrayGlacierBlock := v } := by
  cases v with
  | none =>
      simp only [presOpt, intOptField]
      norm_num
      have hrr : { r with GrayGlacierBlock := (none : Option Int) } = r := by
        cases r
        simp_all
      rw [hrr]
  | some x =>
      simp only [presOpt, intOptField]
      rw [show (1 : Nat) + f = f + 1 by omega]
      rw [show ([0xa2, 0x1] : List Nat) ++ (putUvarint (intSize x) ++ intEncode x) ++ rest =
        0xa2 :: (0x1 :: (putUvarint (intSize x) ++ (intEncode x ++ rest))) by
        simp [List.append_assoc]]
      exact driverAux_cons_ok _ f _ _ _ _ _ (ChainConfig.step_GrayGlacierBlock x rest r hb)

theorem ChainConfig.step_MergeNetsplitBlock (x : Int) (rest : List Nat) (r : ChainConfig)
    (hx : (intEncode x).length < 2 ^ 63) :
    ChainConfig.step (0xaa :: (0x1 :: (putUvarint (intSize x) ++ (intEncode x ++ rest)))) r =
    .ok ({ r with MergeNetsplitBlock := some x }, rest) := by
  have hdispatch : ∀ T' : List Nat, ChainConfig.step (0xaa :: (0x1 :: T')) r =
      match readIntField T' with
      | .error e => .error e
      | .ok (v, rem2) => .ok ({ r with MergeNetsplitBlock := some v }, rem2) := by
    intro T'
    unfold ChainConfig.step
    rw [readVarint_two 0xaa 0x1 T' (by norm_num) (by norm_num)]
    norm_num
  rw [hdispatch, readIntField_spec x rest hx]

theorem ChainConfig.driver_MergeNetsplitBlock (v : Option Int) (rest : List Nat) (r : ChainConfig)
    (f : Nat) (hb : okInt v) (hr : r.MergeNetsplitBlock = none) :
    driverAux ChainConfig.step (presOpt v + f) (intOptField [0xaa, 0x1] v ++ rest) r =
    driverAux ChainConfig.step f rest { r with MergeNetsplitBlock := v } := by
  cases v with
  | none =>
      simp only [presOpt, intOptField]
      norm_num
      have hrr : { r with MergeNetsplitBlock := (none : Option Int) } = r := by
        cases r
        simp_all
      rw [hrr]
  | some x =>
      simp only [presOpt, intOptField]
      rw [show (1 : Nat) + f = f + 1 by omega]
      rw [show ([0xaa, 0x1] : List Nat) ++ (putUvarint (intSize x) ++ intEncode x) ++ rest =
        0xaa :: (0x1 :: (putUvarint (intSize x) ++ (intEncode x ++ rest))) by
        simp [List.append_assoc]]
      exact driverAux_cons_ok _ f _ _ _ _ _ (ChainConfig.step_MergeNetsplitBlock x rest r hb)

theorem ChainConfig.step_ShanghaiBlock (x : Int) (rest : List Nat) (r : ChainConfig)
    (hx : (intEncode x).length < 2 ^ 63) :
    ChainConfig.step (0xb2 :: (0x1 :: (putUvarint (intSize x) ++ (intEncode x ++ rest)))) r =
    .ok ({ r with ShanghaiBlock := some x }, rest) := by
  have hdispatch : ∀ T' : List Nat, ChainConfig.step (0xb2 :: (0x1 :: T')) r =
      match readIntField T' with
      | .error e => .error e
      | .ok (v, rem2) => .ok ({ r with ShanghaiBlock := some v }, rem2) := by
    intro T'
    unfold ChainConfig.step
    rw [readVarint_two 0xb2 0x1 T' (by norm_num) (by norm_num)]
    norm_num
  rw [hdispatch, readIntField_spec x rest hx]

theorem ChainConfig.driver_ShanghaiBlock (v : Option Int) (rest : List Nat) (r : ChainConfig)
    (f : Nat) (hb : okInt v) (hr : r.ShanghaiBlock = none) :
    driverAux ChainConfig.step (presOpt v + f) (intOptField [0xb2, 0x1] v ++ rest) r =
    driverAux ChainConfig.step f rest { r with ShanghaiBlock := v } := by
  cases v with
  | none =>
      simp only [presOpt, intOptField]
      norm_num
      have hrr : { r with ShanghaiBlock := (none : Option Int) } = r := by
        cases r
        simp_all
      rw [hrr]
  | some x =>
      simp only [presOpt, intOptField]
      rw [show (1 : Nat) + f = f + 1 by omega]
      rw [show ([0xb2, 0x1] : List Nat) ++ (putUvarint (intSize x) ++ intEncode x) ++ rest =
        0xb2 :: (0x1 :: (putUvarint (intSize x) ++ (intEncode x ++ rest))) by
        simp [List.append_assoc]]
      exact driverAux_cons_ok _ f _ _ _ _ _ (ChainConfig.step_ShanghaiBlock x rest r hb)

theorem ChainConfig.step_CancunBlock (x : Int) (rest : List Nat) (r : ChainConfig)
    (hx : (intEncode x).length < 2 ^ 63) :
    ChainConfig.step (0xba :: (0x1 :: (putUvarint (intSize x) ++ (intEncode x ++ rest)))) r =
    .ok ({ r with CancunBlock := some x }, rest) := by
  have hdispatch : ∀ T' : List Nat, ChainConfig.step (0xba :: (0x1 :: T')) r =
      match readIntField T' with
      | .error e => .error e
      | .ok (v, rem2) => .ok ({ r with CancunBlock := some v }, rem2) := by
    intro T'
    unfold ChainConfig.step
    rw [readVarint_two 0xba 0x1 T' (by norm_num) (by norm_num)]
    norm_num
  rw [hdispatch, readIntField_spec x rest hx]

theorem ChainConfig.driver_CancunBlock (v : Option Int) (rest : List Nat) (r : ChainConfig)
    (f : Nat) (hb : okInt v) (hr : r.CancunBlock = none) :
    driverAux ChainConfig.step (presOpt v + f) (intOptField [0xba, 0x1] v ++ rest) r =
    driverAux ChainConfig.step f rest { r with CancunBlock := v } := by
  cases v with
  | none =>
      simp only [presOpt, intOptField]
      norm_num
      have hrr : { r with CancunBlock := (none : Option Int) } = r := by
        cases r
        simp_all
      rw [hrr]
  | some x =>
      simp only [presOpt, intOptField]
      rw [show (1 : Nat) + f = f + 1 by omega]
      rw [show ([0xba, 0x1] : List Nat) ++ (putUvarint (intSize x) ++ intEncode x) ++ rest =
        0xba :: (0x1 :: (putUvarint (intSize x) ++ (intEncode x ++ rest))) by
        simp [List.append_assoc]]
      exact driverAux_cons_ok _ f _ _ _ _ _ (ChainConfig.step_CancunBlock x rest r hb)

theorem ChainConfig.step_DAOForkSupport (rest : List Nat) (r : ChainConfig) :
    ChainConfig.step (0x18 :: (1 :: rest)) r =
    .ok ({ r with DAOForkSupport := true }, rest) := by
  unfold ChainConfig.step
  rw [readVarint_single 0x18 _ (by norm_num)]
  norm_num
  rw [readVarint_single 1 _ (by norm_num)]
  norm_num

theorem ChainConfig.driver_DAOForkSupport (b : Bool) (rest : List Nat) (r : ChainConfig)
    (f : Nat) (hr : r.DAOForkSupport = false) :
    driverAux ChainConfig.step (presBool b + f) (boolField 0x18 b ++ rest) r =
    driverAux ChainConfig.step f rest { r with DAOForkSupport := b } := by
  cases b with
  | true =>
      simp only [presBool, if_true, boolField]
      rw [show (1 : Nat) + f = f + 1 by omega]
      rw [show ([0x18, 1] : List Nat) ++ rest = 0x18 :: (1 :: rest) from rfl]
      exact driverAux_cons_ok _ f _ _ _ _ _ (ChainConfig.step_DAOForkSupport rest r)
  | false =>
      simp only [presBool, boolField]
      norm_num
      have hrr : { r with DAOForkSupport := false } = r := by
        cases r
        simp_all
      rw [hrr]

theorem ChainConfig.step_EIP150Hash (v : List Nat) (rest : List Nat) (r : ChainConfig)
    (hb : v.length < 2 ^ 63) :
    ChainConfig.step (0x2a :: (putUvarint v.length ++ (v ++ rest))) r =
    .ok ({ r with EIP150Hash := v }, rest) := by
  unfold ChainConfig.step
  rw [readVarint_single 0x2a _ (by norm_num)]
  norm_num
  rw [readLenDelim_spec v rest hb]

theorem ChainConfig.driver_EIP150Hash (v rest : List Nat) (r : ChainConfig) (f : Nat)
    (hb : v.length < 2 ^ 63) (hr : r.EIP150Hash = []) :
    driverAux ChainConfig.step (presLen v + f) (bytesField 0x2a v ++ rest) r =
    driverAux ChainConfig.step f rest { r with EIP150Hash := v } := by
  by_cases hv : 0 < v.length
  · simp only [presLen, hv, if_true, bytesField]
    rw [show (1 : Nat) + f = f + 1 by omega]
    rw [List.cons_append, List.append_assoc]
    exact driverAux_cons_ok _ f _ _ _ _ _ (ChainConfig.step_EIP150Hash v rest r hb)
  · have hnil : v = [] := by
      cases v with
      | nil => rfl
      | cons a as => simp at hv
    subst hnil
    simp only [presLen, bytesField]
    norm_num
    have hrr : { r with EIP150Hash := ([] : List Nat) } = r := by
      cases r
      simp_all
    rw [hrr]

/-- Validity of a ChainConfig value. -/
def ChainConfig.Valid (m : ChainConfig) : Prop :=
  okInt m.HomesteadBlock ∧
  okInt m.DAOForkBlock ∧
  okInt m.EIP150Block ∧
  m.EIP150Hash.length < 2 ^ 63 ∧
  okInt m.EIP155Block ∧
  okInt m.EIP158Block ∧
  okInt m.ByzantiumBlock ∧
  okInt m.ConstantinopleBlock ∧
  okInt m.PetersburgBlock ∧
  okInt m.IstanbulBlock ∧
  okInt m.MuirGlacierBlock ∧
  okInt m.BerlinBlock ∧
  okInt m.LondonBlock ∧
  okInt m.ArrowGlacierBlock ∧
  okInt m.GrayGlacierBlock ∧
  okInt m.MergeNetsplitBlock ∧
  okInt m.ShanghaiBlock ∧
  okInt m.CancunBlock

/-- Total driver iterations of a ChainConfig encoding. -/
def ChainConfig.iter (m : ChainConfig) : Nat :=
  presOpt m.HomesteadBlock + (presOpt m.DAOForkBlock + (presBool m.DAOForkSupport + (presOpt m.EIP150Block + (presLen m.EIP150Hash + (presOpt m.EIP155Block + (presOpt m.EIP158Block + (presOpt m.ByzantiumBlock + (presOpt m.ConstantinopleBlock + (presOpt m.PetersburgBlock + (presOpt m.IstanbulBlock + (presOpt m.MuirGlacierBlock + (presOpt m.BerlinBlock + (presOpt m.LondonBlock + (presOpt m.ArrowGlacierBlock + (presOpt m.GrayGlacierBlock + (presOpt m.MergeNetsplitBlock + (presOpt m.ShanghaiBlock + (presOpt m.CancunBlock))))))))))))))))))

theorem ChainConfig.unmarshal_marshal_chain_CC (m : ChainConfig) (hv : m.Valid)
    (rest : List Nat) (f : Nat) :
    driverAux ChainConfig.step (ChainConfig.iter m + f)
      (ChainConfig.marshal m ++ rest) ChainConfig.zero =
    driverAux ChainConfig.step f rest m := by
  obtain ⟨h1, h2, h3, h4, h5, h6, h7, h8, h9, h10, h11, h12, h13, h14, h15, h16, h17, h18⟩ := hv
  unfold ChainConfig.iter ChainConfig.marshal
  simp only [List.append_assoc, Nat.add_assoc]
  rw [ChainConfig.driver_HomesteadBlock m.HomesteadBlock _ _ _ h1 rfl]
  rw [ChainConfig.driver_DAOForkBlock m.DAOForkBlock _ _ _ h2 rfl]
  rw [ChainConfig.driver_DAOForkSupport m.DAOForkSupport _ _ _ rfl]
  rw [ChainConfig.driver_EIP150Block m.EIP150Block _ _ _ h3 rfl]
  rw [ChainConfig.driver_EIP150Hash m.EIP150Hash _ _ _ h4 rfl]
  rw [ChainConfig.driver_EIP155Block m.EIP155Block _ _ _ h5 rfl]
  rw [ChainConfig.driver_EIP158Block m.EIP158Block _ _ _ h6 rfl]
  rw [ChainConfig.driver_ByzantiumBlock m.ByzantiumBlock _ _ _ h7 rfl]
  rw [ChainConfig.driver_ConstantinopleBlock m.ConstantinopleBlock _ _ _ h8 rfl]
  rw [ChainConfig.driver_PetersburgBlock m.PetersburgBlock _ _ _ h9 rfl]
  rw [ChainConfig.driver_IstanbulBlock m.IstanbulBlock _ _ _ h10 rfl]
  rw [ChainConfig.driver_MuirGlacierBlock m.MuirGlacierBlock _ _ _ h11 rfl]
  rw [ChainConfig.driver_BerlinBlock m.BerlinBlock _ _ _ h12 rfl]
  rw [ChainConfig.driver_LondonBlock m.LondonBlock _ _ _ h13 rfl]
  rw [ChainConfig.driver_ArrowGlacierBlock m.ArrowGlacierBlock _ _ _ h14 rfl]
  rw [ChainConfig.driver_GrayGlacierBlock m.GrayGlacierBlock _ _ _ h15 rfl]
  rw [ChainConfig.driver_MergeNetsplitBlock m.MergeNetsplitBlock _ _ _ h16 rfl]
  rw [ChainConfig.driver_ShanghaiBlock m.ShanghaiBlock _ _ _ h17 rfl]
  rw [ChainConfig.driver_CancunBlock m.CancunBlock _ _ _ h18 rfl]

theorem ChainConfig.roundtrip_CC (m : ChainConfig) (hv : m.Valid) :
    ChainConfig.unmarshal (ChainConfig.marshal m) = .ok m := by
  have hchain := ChainConfig.unmarshal_marshal_chain_CC m hv [] 0
  rw [List.append_nil] at hchain
  have hok : driverAux ChainConfig.step (ChainConfig.iter m + 0)
      (ChainConfig.marshal m) ChainConfig.zero = .ok m := by
    rw [hchain]
    rfl
  unfold ChainConfig.unmarshal ChainConfig.unmarshalFrom
  apply driverAux_mono ChainConfig.step _ _ _ _ _ _ hok
  have hb1 : presOpt m.HomesteadBlock ≤ (intOptField [0xa] m.HomesteadBlock).length := by
    unfold presOpt intOptField
    cases m.HomesteadBlock <;> simp
  have hb2 : presOpt m.DAOForkBlock ≤ (intOptField [0x12] m.DAOForkBlock).length := by
    unfold presOpt intOptField
    cases m.DAOForkBlock <;> simp
  have hb3 : presBool m.DAOForkSupport ≤ (boolField 0x18 m.DAOForkSupport).length := by
    unfold presBool boolField
    by_cases h : m.DAOForkSupport <;> simp [h]
  have hb4 : presOpt m.EIP150Block ≤ (intOptField [0x22] m.EIP150Block).length := by
    unfold presOpt intOptField
    cases m.EIP150Block <;> simp
  have hb5 : presLen m.EIP150Hash ≤ (bytesField 0x2a m.EIP150Hash).length := by
    unfold presLen bytesField
    by_cases h : 0 < m.EIP150Hash.length <;> simp [h]
  have hb6 : presOpt m.EIP155Block ≤ (intOptField [0x32] m.EIP155Block).length := by
    unfold presOpt intOptField
    cases m.EIP155Block <;> simp
  have hb7 : presOpt m.EIP158Block ≤ (intOptField [0x3a] m.EIP158Block).length := by
    unfold presOpt intOptField
    cases m.EIP158Block <;> simp
  have hb8 : presOpt m.ByzantiumBlock ≤ (intOptField [0x42] m.ByzantiumBlock).length := by
    unfold presOpt intOptField
    cases m.ByzantiumBlock <;> simp
  have hb9 : presOpt m.ConstantinopleBlock ≤ (intOptField [0x4a] m.ConstantinopleBlock).length := by
    unfold presOpt intOptField
    cases m.ConstantinopleBlock <;> simp
  have hb10 : presOpt m.PetersburgBlock ≤ (intOptField [0x52] m.PetersburgBlock).length := by
    unfold presOpt intOptField
    cases m.PetersburgBlock <;> simp
  have hb11 : presOpt m.IstanbulBlock ≤ (intOptField [0x5a] m.IstanbulBlock).length := by
    unfold presOpt intOptField
    cases m.IstanbulBlock <;> simp
  have hb12 : presOpt m.MuirGlacierBlock ≤ (intOptField [0x62] m.MuirGlacierBlock).length := by
    unfold presOpt intOptField
    cases m.MuirGlacierBlock <;> simp
  have hb13 : presOpt m.BerlinBlock ≤ (intOptField [0x6a] m.BerlinBlock).length := by
    unfold presOpt intOptField
    cases m.BerlinBlock <;> simp
  have hb14 : presOpt m.LondonBlock ≤ (intOptField [0x8a, 0x1] m.LondonBlock).length := by
    unfold presOpt intOptField
    cases m.LondonBlock <;> simp
  have hb15 : presOpt m.ArrowGlacierBlock ≤ (intOptField [0x92, 0x1] m.ArrowGlacierBlock).length := by
    unfold presOpt intOptField
    cases m.ArrowGlacierBlock <;> simp
  have hb16 : presOpt m.GrayGlacierBlock ≤ (intOptField [0xa2, 0x1] m.GrayGlacierBlock).length := by
    unfold presOpt intOptField
    cases m.GrayGlacierBlock <;> simp
  have hb17 : presOpt m.MergeNetsplitBlock ≤ (intOptField [0xaa, 0x1] m.MergeNetsplitBlock).length := by
    unfold presOpt intOptField
    cases m.MergeNetsplitBlock <;> simp
  have hb18 : presOpt m.ShanghaiBlock ≤ (intOptField [0xb2, 0x1] m.ShanghaiBlock).length := by
    unfold presOpt intOptField
    cases m.ShanghaiBlock <;> simp
  have hb19 : presOpt m.CancunBlock ≤ (intOptField [0xba, 0x1] m.CancunBlock).length := by
    unfold presOpt intOptField
    cases m.CancunBlock <;> simp
  have hlen : (ChainConfig.marshal m).length =
      (intOptField [0xa] m.HomesteadBlock).length +
      (intOptField [0x12] m.DAOForkBlock).length +
      (boolField 0x18 m.DAOForkSupport).length +
      (intOptField [0x22] m.EIP150Block).length +
      (bytesField 0x2a m.EIP150Hash).length +
      (intOptField [0x32] m.EIP155Block).length +
      (intOptField [0x3a] m.EIP158Block).length +
      (intOptField [0x42] m.ByzantiumBlock).length +
      (intOptField [0x4a] m.ConstantinopleBlock).length +
      (intOptField [0x52] m.PetersburgBlock).length +
      (intOptField [0x5a] m.IstanbulBlock).length +
      (intOptField [0x62] m.MuirGlacierBlock).length +
      (intOptField [0x6a] m.BerlinBlock).length +
      (intOptField [0x8a, 0x1] m.LondonBlock).length +
      (intOptField [0x92, 0x1] m.ArrowGlacierBlock).length +
      (intOptField [0xa2, 0x1] m.GrayGlacierBlock).length +
      (intOptField [0xaa, 0x1] m.MergeNetsplitBlock).length +
      (intOptField [0xb2, 0x1] m.ShanghaiBlock).length +
      (intOptField [0xba, 0x1] m.CancunBlock).length := by
    unfold ChainConfig.marshal
    simp only [List.length_append]
    try omega
  unfold ChainConfig.iter
  omega

/-! Params: packed-field loop specification, per-field lemmas, round trip. -/

theorem toUnsigned64_lt (e : Int) : toUnsigned64 e < 2 ^ 64 := by
  unfold toUnsigned64
  have h1 : e % (2 ^ 64 : Int) < 2 ^ 64 := Int.emod_lt_of_pos e (by norm_num)
  omega

theorem eipsPayload_cons (e : Int) (es : List Int) :
    eipsPayload (e :: es) = putUvarint (toUnsigned64 e) ++ eipsPayload es := by
  simp [eipsPayload]

theorem packedLoop_spec (eips : List Int) : ∀ (rest : List Nat) (acc : List Int) (f : Nat),
    (∀ e ∈ eips, -(2 ^ 63) ≤ e ∧ e < 2 ^ 63) → (eipsPayload eips).length ≤ f →
    packedLoopAux f (eipsPayload eips).length (eipsPayload eips ++ rest) acc =
      .ok (acc ++ eips, rest) := by
  induction eips with
  | nil =>
      intro rest acc f _ _
      show packedLoopAux f 0 ([] ++ rest) acc = .ok (acc ++ [], rest)
      cases f <;> simp [packedLoopAux]
  | cons e es ih =>
      intro rest acc f hb hf
      have hu : toUnsigned64 e < 2 ^ 64 := toUnsigned64_lt e
      have hL1 : 1 ≤ (putUvarint (toUnsigned64 e)).length :=
        List.length_pos.mpr (putUvarint_ne_nil _)
      rw [eipsPayload_cons] at hf ⊢
      rw [List.length_append] at hf ⊢
      obtain ⟨k, hk⟩ : ∃ k, (putUvarint (toUnsigned64 e)).length +
          (eipsPayload es).length = k + 1 :=
        ⟨(putUvarint (toUnsigned64 e)).length + (eipsPayload es).length - 1, by omega⟩
      obtain ⟨g, hg⟩ : ∃ g, f = g + 1 := ⟨f - 1, by omega⟩
      rw [hk, hg, List.append_assoc]
      show packedLoopAux (g + 1) (k + 1) _ acc = _
      rw [show packedLoopAux (g + 1) (k + 1)
          (putUvarint (toUnsigned64 e) ++ (eipsPayload es ++ rest)) acc =
          match readVarint (putUvarint (toUnsigned64 e) ++ (eipsPayload es ++ rest)) with
          | .error e => .error e
          | .ok (v, rem') =>
              packedLoopAux g ((k + 1) -
                ((putUvarint (toUnsigned64 e) ++ (eipsPayload es ++ rest)).length -
                  rem'.length)) rem' (acc ++ [toSigned64 v]) from rfl]
      rw [readVarint_putUvarint _ _ hu]
      show packedLoopAux g ((k + 1) -
          ((putUvarint (toUnsigned64 e) ++ (eipsPayload es ++ rest)).length -
            (eipsPayload es ++ rest).length)) (eipsPayload es ++ rest)
          (acc ++ [toSigned64 (toUnsigned64 e)]) = _
      have hlen2 : (k + 1) -
          ((putUvarint (toUnsigned64 e) ++ (eipsPayload es ++ rest)).length -
            (eipsPayload es ++ rest).length) = (eipsPayload es).length := by
        rw [List.length_append]
        omega
      rw [hlen2]
      obtain ⟨he1, he2⟩ := hb e (by simp)
      rw [toSigned64_toUnsigned64 e he1 he2]
      rw [ih rest (acc ++ [e]) g (fun x hx => hb x (by simp [hx])) (by omega)]
      simp

theorem Params.step_EvmDenom (v : List Nat) (rest : List Nat) (r : Params)
    (hb : v.length < 2 ^ 63) :
    Params.step (0xa :: (putUvarint v.length ++ (v ++ rest))) r =
    .ok ({ r with EvmDenom := v }, rest) := by
  unfold Params.step
  rw [readVarint_single 0xa _ (by norm_num)]
  norm_num
  rw [readLenDelim_spec v rest hb]

theorem Params.driver_EvmDenom (v rest : List Nat) (r : Params) (f : Nat)
    (hb : v.length < 2 ^ 63) (hr : r.EvmDenom = []) :
    driverAux Params.step (presLen v + f) (bytesField 0xa v ++ rest) r =
    driverAux Params.step f rest { r with EvmDenom := v } := by
  by_cases hv : 0 < v.length
  · simp only [presLen, hv, if_true, bytesField]
    rw [show (1 : Nat) + f = f + 1 by omega]
    rw [List.cons_append, List.append_assoc]
    exact driverAux_cons_ok _ f _ _ _ _ _ (Params.step_EvmDenom v rest r hb)
  · have hnil : v = [] := by
      cases v with
      | nil => rfl
      | cons a as => simp at hv
    subst hnil
    simp only [presLen, bytesField]
    norm_num
    have hrr : { r with EvmDenom := ([] : List Nat) } = r := by
      cases r
      simp_all
    rw [hrr]

theorem Params.step_EnableCreate (rest : List Nat) (r : Params) :
    Params.step (0x10 :: (1 :: rest)) r =
    .ok ({ r with EnableCreate := true }, rest) := by
  unfold Params.step
  rw [readVarint_single 0x10 _ (by norm_num)]
  norm_num
  rw [readVarint_single 1 _ (by norm_num)]
  norm_num

theorem Params.driver_EnableCreate (b : Bool) (rest : List Nat) (r : Params) (f : Nat)
    (hr : r.EnableCreate = false) :
    driverAux Params.step (presBool b + f) (boolField 0x10 b ++ rest) r =
    driverAux Params.step f rest { r with EnableCreate := b } := by
  cases b with
  | true =>
      simp only [presBool, if_true, boolField]
      rw [show (1 : Nat) + f = f + 1 by omega]
      rw [show ([0x10, 1] : List Nat) ++ rest = 0x10 :: (1 :: rest) from rfl]
      exact driverAux_cons_ok _ f _ _ _ _ _ (Params.step_EnableCreate rest r)
  | false =>
      simp only [presBool, boolField]
      norm_num
      have hrr : { r with EnableCreate := false } = r := by
        cases r
        simp_all
      rw [hrr]

theorem Params.step_EnableCall (rest : List Nat) (r : Params) :
    Params.step (0x18 :: (1 :: rest)) r =
    .ok ({ r with EnableCall := true }, rest) := by
  unfold Params.step
  rw [readVarint_single 0x18 _ (by norm_num)]
  norm_num
  rw [readVarint_single 1 _ (by norm_num)]
  norm_num

theorem Params.driver_EnableCall (b : Bool) (rest : List Nat) (r : Params) (f : Nat)
    (hr : r.EnableCall = false) :
    driverAux Params.step (presBool b + f) (boolField 0x18 b ++ rest) r =
    driverAux Params.step f rest { r with EnableCall := b } := by
  cases b with
  | true =>
      simp only [presBool, if_true, boolField]
      rw [show (1 : Nat) + f = f + 1 by omega]
      rw [show ([0x18, 1] : List Nat) ++ rest = 0x18 :: (1 :: rest) from rfl]
      exact driverAux_cons_ok _ f _ _ _ _ _ (Params.step_EnableCall rest r)
  | false =>
      simp only [presBool, boolField]
      norm_num
      have hrr : { r with EnableCall := false } = r := by
        cases r
        simp_all
      rw [hrr]

theorem Params.step_ExtraEIPs (eips : List Int) (rest : List Nat) (r : Params)
    (hb : ∀ e ∈ eips, -(2 ^ 63) ≤ e ∧ e < 2 ^ 63)
    (hlen : (eipsPayload eips).length < 2 ^ 63) :
    Params.step (0x22 :: (putUvarint (eipsPayload eips).length ++
      (eipsPayload eips ++ rest))) r =
    .ok ({ r with ExtraEIPs := r.ExtraEIPs ++ eips }, rest) := by
  have hdispatch : ∀ T : List Nat, Params.step (0x22 :: T) r =
      match readVarint T with
      | .error e => .error e
      | .ok (packedLen, rem2) =>
          if 2 ^ 63 ≤ packedLen then .error .invalidLength
          else if rem2.length < packedLen then .error .unexpectedEOF
          else
            match packedLoop packedLen rem2 r.ExtraEIPs with
            | .error e => .error e
            | .ok (eips', rem3) => .ok ({ r with ExtraEIPs := eips' }, rem3) := by
    intro T
    unfold Params.step
    rw [readVarint_single 0x22 _ (by norm_num)]
    norm_num
  rw [hdispatch, readVarint_putUvarint _ _ (by omega)]
  show (if 2 ^ 63 ≤ (eipsPayload eips).length then
          (.error .invalidLength : Except DecodeError (Params × List Nat))
        else if (eipsPayload eips ++ rest).length < (eipsPayload eips).length then
          .error .unexpectedEOF
        else
          match packedLoop (eipsPayload eips).length (eipsPayload eips ++ rest)
              r.ExtraEIPs with
          | .error e => .error e
          | .ok (eips', rem3) => .ok ({ r with ExtraEIPs := eips' }, rem3)) = _
  rw [if_neg (by omega)]
  rw [if_neg (by rw [List.length_append]; omega)]
  rw [show packedLoop (eipsPayload eips).length (eipsPayload eips ++ rest) r.ExtraEIPs =
    .ok (r.ExtraEIPs ++ eips, rest) from
    packedLoop_spec eips rest r.ExtraEIPs _ hb (le_refl _)]

/-- Iterations contributed by the `extra_eips` field. -/
def presEips (l : List Int) : Nat := if 0 < l.length then 1 else 0

theorem Params.driver_ExtraEIPs (eips : List Int) (rest : List Nat) (r : Params) (f : Nat)
    (hb : ∀ e ∈ eips, -(2 ^ 63) ≤ e ∧ e < 2 ^ 63)
    (hlen : (eipsPayload eips).length < 2 ^ 63) (hr : r.ExtraEIPs = []) :
    driverAux Params.step (presEips eips + f)
      ((if 0 < eips.length then
        0x22 :: (putUvarint (eipsPayload eips).length ++ eipsPayload eips)
      else []) ++ rest) r =
    driverAux Params.step f rest { r with ExtraEIPs := eips } := by
  by_cases hv : 0 < eips.length
  · simp only [presEips, hv, if_true]
    rw [show (1 : Nat) + f = f + 1 by omega]
    rw [List.cons_append, List.append_assoc]
    rw [driverAux_cons_ok _ f _ _ _ _ _ (Params.step_ExtraEIPs eips rest r hb hlen)]
    rw [hr]
    rfl
  · have hnil : eips = [] := by
      cases eips with
      | nil => rfl
      | cons a as => simp at hv
    subst hnil
    simp only [presEips]
    norm_num
    have hrr : { r with ExtraEIPs := ([] : List Int) } = r := by
      cases r
      simp_all
    rw [hrr]

theorem Params.step_ChainConfigField (cc : EvmPb.ChainConfig) (rest : List Nat) (r : Params)
    (hcc : cc.Valid) (hlen : (ChainConfig.marshal cc).length < 2 ^ 63)
    (hr : r.ChainConfig = ChainConfig.zero) :
    Params.step (0x2a :: (putUvarint (ChainConfig.marshal cc).length ++
      (ChainConfig.marshal cc ++ rest))) r =
    .ok ({ r with ChainConfig := cc }, rest) := by
  have hdispatch : ∀ T : List Nat, Params.step (0x2a :: T) r =
      match readCCField r.ChainConfig T with
      | .error e => .error e
      | .ok (cc', rem2) => .ok ({ r with ChainConfig := cc' }, rem2) := by
    intro T
    unfold Params.step
    rw [readVarint_single 0x2a _ (by norm_num)]
    norm_num
  rw [hdispatch, hr]
  rw [readCCField_spec ChainConfig.zero cc (ChainConfig.marshal cc) rest hlen
    (ChainConfig.roundtrip_CC cc hcc)]

theorem Params.driver_ChainConfigField (cc : EvmPb.ChainConfig) (rest : List Nat) (r : Params)
    (f : Nat) (hcc : cc.Valid) (hlen : (ChainConfig.marshal cc).length < 2 ^ 63)
    (hr : r.ChainConfig = ChainConfig.zero) :
    driverAux Params.step (1 + f) (msgField 0x2a (ChainConfig.marshal cc) ++ rest) r =
    driverAux Params.step f rest { r with ChainConfig := cc } := by
  rw [show (1 : Nat) + f = f + 1 by omega]
  unfold msgField
  rw [List.cons_append, List.append_assoc]
  exact driverAux_cons_ok _ f _ _ _ _ _
    (Params.step_ChainConfigField cc rest r hcc hlen hr)

theorem Params.step_AllowUnprotectedTxs (rest : List Nat) (r : Params) :
    Params.step (0x30 :: (1 :: rest)) r =
    .ok ({ r with AllowUnprotectedTxs := true }, rest) := by
  unfold Params.step
  rw [readVarint_single 0x30 _ (by norm_num)]
  norm_num
  rw [readVarint_single 1 _ (by norm_num)]
  norm_num

theorem Params.driver_AllowUnprotectedTxs (b : Bool) (rest : List Nat) (r : Params)
    (f : Nat) (hr : r.AllowUnprotectedTxs = false) :
    driverAux Params.step (presBool b + f) (boolField 0x30 b ++ rest) r =
    driverAux Params.step f rest { r with AllowUnprotectedTxs := b } := by
  cases b with
  | true =>
      simp only [presBool, if_true, boolField]
      rw [show (1 : Nat) + f = f + 1 by omega]
      rw [show ([0x30, 1] : List Nat) ++ rest = 0x30 :: (1 :: rest) from rfl]
      exact driverAux_cons_ok _ f _ _ _ _ _ (Params.step_AllowUnprotectedTxs rest r)
  | false =>
      simp only [presBool, boolField]
      norm_num
      have hrr : { r with AllowUnprotectedTxs := false } = r := by
        cases r
        simp_all
      rw [hrr]

/-- Validity of a Params value. -/
def Params.Valid (m : Params) : Prop :=
  m.EvmDenom.length < 2 ^ 63 ∧
  (∀ e ∈ m.ExtraEIPs, -(2 ^ 63) ≤ e ∧ e < 2 ^ 63) ∧
  (eipsPayload m.ExtraEIPs).length < 2 ^ 63 ∧
  m.ChainConfig.Valid ∧
  (ChainConfig.marshal m.ChainConfig).length < 2 ^ 63

/-- Total driver iterations of a Params encoding. -/
def Params.iter (m : Params) : Nat :=
  presLen m.EvmDenom + (presBool m.EnableCreate + (presBool m.EnableCall +
    (presEips m.ExtraEIPs + (1 + presBool m.AllowUnprotectedTxs))))

theorem Params.unmarshal_marshal_chain_P (m : Params) (hv : m.Valid)
    (rest : List Nat) (f : Nat) :
    driverAux Params.step (Params.iter m + f) (Params.marshal m ++ rest) Params.zero =
    driverAux Params.step f rest m := by
  obtain ⟨h1, h2, h3, h4, h5⟩ := hv
  unfold Params.iter Params.marshal
  simp only [List.append_assoc, Nat.add_assoc]
  rw [Params.driver_EvmDenom m.EvmDenom _ Params.zero _ h1 rfl]
  rw [Params.driver_EnableCreate m.EnableCreate _ _ _ rfl]
  rw [Params.driver_EnableCall m.EnableCall _ _ _ rfl]
  rw [Params.driver_ExtraEIPs m.ExtraEIPs _ _ _ h2 h3 rfl]
  rw [Params.driver_ChainConfigField m.ChainConfig _ _ _ h4 h5 rfl]
  rw [Params.driver_AllowUnprotectedTxs m.AllowUnprotectedTxs _ _ _ rfl]

theorem Params.roundtrip_P (m : Params) (hv : m.Valid) :
    Params.unmarshal (Params.marshal m) = .ok m := by
  have hchain := Params.unmarshal_marshal_chain_P m hv [] 0
  rw [List.append_nil] at hchain
  have hok : driverAux Params.step (Params.iter m + 0) (Params.marshal m) Params.zero =
      .ok m := by
    rw [hchain]
    rfl
  unfold Params.unmarshal Params.unmarshalFrom
  apply driverAux_mono Params.step _ _ _ _ _ _ hok
  have hb1 : presLen m.EvmDenom ≤ (bytesField 0xa m.EvmDenom).length := by
    unfold presLen bytesField
    by_cases h : 0 < m.EvmDenom.length <;> simp [h]
  have hb2 : presBool m.EnableCreate ≤ (boolField 0x10 m.EnableCreate).length := by
    unfold presBool boolField
    by_cases h : m.EnableCreate <;> simp [h]
  have hb3 : presBool m.EnableCall ≤ (boolField 0x18 m.EnableCall).length := by
    unfold presBool boolField
    by_cases h : m.EnableCall <;> simp [h]
  have hb4 : presEips m.ExtraEIPs ≤
      (if 0 < m.ExtraEIPs.length then
        0x22 :: (putUvarint (eipsPayload m.ExtraEIPs).length ++ eipsPayload m.ExtraEIPs)
      else []).length := by
    unfold presEips
    by_cases h : 0 < m.ExtraEIPs.length <;> simp [h]
  have hb5 : 1 ≤ (msgField 0x2a (ChainConfig.marshal m.ChainConfig)).length := by
    simp [msgField]
  have hb6 : presBool m.AllowUnprotectedTxs ≤
      (boolField 0x30 m.AllowUnprotectedTxs).length := by
    unfold presBool boolField
    by_cases h : m.AllowUnprotectedTxs <;> simp [h]
  have hlen : (Params.marshal m).length =
      (bytesField 0xa m.EvmDenom).length +
      ((boolField 0x10 m.EnableCreate).length +
      ((boolField 0x18 m.EnableCall).length +
      ((if 0 < m.ExtraEIPs.length then
        0x22 :: (putUvarint (eipsPayload m.ExtraEIPs).length ++ eipsPayload m.ExtraEIPs)
      else []).length +
      ((msgField 0x2a (ChainConfig.marshal m.ChainConfig)).length +
      (boolField 0x30 m.AllowUnprotectedTxs).length)))) := by
    unfold Params.marshal
    simp only [List.length_append]
    try omega
  unfold Params.iter
  omega

/-! TxResult: per-field lemmas and round trip. -/

theorem TxResult.step_ContractAddress (v : List Nat) (rest : List Nat) (r : TxResult)
    (hb : v.length < 2 ^ 63) :
    TxResult.step (0xa :: (putUvarint v.length ++ (v ++ rest))) r =
    .ok ({ r with ContractAddress := v }, rest) := by
  unfold TxResult.step
  rw [readVarint_single 0xa _ (by norm_num)]
  norm_num
  rw [readLenDelim_spec v rest hb]

theorem TxResult.driver_ContractAddress (v rest : List Nat) (r : TxResult) (f : Nat)
    (hb : v.length < 2 ^ 63) (hr : r.ContractAddress = []) :
    driverAux TxResult.step (presLen v + f) (bytesField 0xa v ++ rest) r =
    driverAux TxResult.step f rest { r with ContractAddress := v } := by
  by_cases hv : 0 < v.length
  · simp only [presLen, hv, if_true, bytesField]
    rw [show (1 : Nat) + f = f + 1 by omega]
    rw [List.cons_append, List.append_assoc]
    exact driverAux_cons_ok _ f _ _ _ _ _ (TxResult.step_ContractAddress v rest r hb)
  · have hnil : v = [] := by
      cases v with
      | nil => rfl
      | cons a as => simp at hv
    subst hnil
    simp only [presLen, bytesField]
    norm_num
    have hrr : { r with ContractAddress := ([] : List Nat) } = r := by
      cases r
      simp_all
    rw [hrr]

theorem TxResult.step_Bloom (v : List Nat) (rest : List Nat) (r : TxResult)
    (hb : v.length < 2 ^ 63) :
    TxResult.step (0x12 :: (putUvarint v.length ++ (v ++ rest))) r =
    .ok ({ r with Bloom := v }, rest) := by
  unfold TxResult.step
  rw [readVarint_single 0x12 _ (by norm_num)]
  norm_num
  rw [readLenDelim_spec v rest hb]

theorem TxResult.driver_Bloom (v rest : List Nat) (r : TxResult) (f : Nat)
    (hb : v.length < 2 ^ 63) (hr : r.Bloom = []) :
    driverAux TxResult.step (presLen v + f) (bytesField 0x12 v ++ rest) r =
    driverAux TxResult.step f rest { r with Bloom := v } := by
  by_cases hv : 0 < v.length
  · simp only [presLen, hv, if_true, bytesField]
    rw [show (1 : Nat) + f = f + 1 by omega]
    rw [List.cons_append, List.append_assoc]
    exact driverAux_cons_ok _ f _ _ _ _ _ (TxResult.step_Bloom v rest r hb)
  · have hnil : v = [] := by
      cases v with
      | nil => rfl
      | cons a as => simp at hv
    subst hnil
    simp only [presLen, bytesField]
    norm_num
    have hrr : { r with Bloom := ([] : List Nat) } = r := by
      cases r
      simp_all
    rw [hrr]

theorem TxResult.step_TxLogsField (tl : TransactionLogs) (rest : List Nat) (r : TxResult)
    (htl : tl.Valid) (hlen : (TransactionLogs.marshal tl).length < 2 ^ 63)
    (hr : r.TxLogs = TransactionLogs.zero) :
    TxResult.step (0x1a :: (putUvarint (TransactionLogs.marshal tl).length ++
      (TransactionLogs.marshal tl ++ rest))) r =
    .ok ({ r with TxLogs := tl }, rest) := by
  have hdispatch : ∀ T : List Nat, TxResult.step (0x1a :: T) r =
      match readTxLogsField r.TxLogs T with
      | .error e => .error e
      | .ok (tl', rem2) => .ok ({ r with TxLogs := tl' }, rem2) := by
    intro T
    unfold TxResult.step
    rw [readVarint_single 0x1a _ (by norm_num)]
    norm_num
  rw [hdispatch, hr]
  rw [readTxLogsField_spec TransactionLogs.zero tl (TransactionLogs.marshal tl) rest hlen
    (TransactionLogs.roundtrip_TL tl htl)]

theorem TxResult.driver_TxLogsField (tl : TransactionLogs) (rest : List Nat) (r : TxResult)
    (f : Nat) (htl : tl.Valid) (hlen : (TransactionLogs.marshal tl).length < 2 ^ 63)
    (hr : r.TxLogs = TransactionLogs.zero) :
    driverAux TxResult.step (1 + f)
      (msgField 0x1a (TransactionLogs.marshal tl) ++ rest) r =
    driverAux TxResult.step f rest { r with TxLogs := tl } := by
  rw [show (1 : Nat) + f = f + 1 by omega]
  unfold msgField
  rw [List.cons_append, List.append_assoc]
  exact driverAux_cons_ok _ f _ _ _ _ _
    (TxResult.step_TxLogsField tl rest r htl hlen hr)

theorem TxResult.step_Ret (v : List Nat) (rest : List Nat) (r : TxResult)
    (hb : v.length < 2 ^ 63) :
    TxResult.step (0x22 :: (putUvarint v.length ++ (v ++ rest))) r =
    .ok ({ r with Ret := v }, rest) := by
  unfold TxResult.step
  rw [readVarint_single 0x22 _ (by norm_num)]
  norm_num
  rw [readLenDelim_spec v rest hb]

theorem TxResult.driver_Ret (v rest : List Nat) (r : TxResult) (f : Nat)
    (hb : v.length < 2 ^ 63) (hr : r.Ret = []) :
    driverAux TxResult.step (presLen v + f) (bytesField 0x22 v ++ rest) r =
    driverAux TxResult.step f rest { r with Ret := v } := by
  by_cases hv : 0 < v.length
  · simp only [presLen, hv, if_true, bytesField]
    rw [show (1 : Nat) + f = f + 1 by omega]
    rw [List.cons_append, List.append_assoc]
    exact driverAux_cons_ok _ f _ _ _ _ _ (TxResult.step_Ret v rest r hb)
  · have hnil : v = [] := by
      cases v with
      | nil => rfl
      | cons a as => simp at hv
    subst hnil
    simp only [presLen, bytesField]
    norm_num
    have hrr : { r with Ret := ([] : List Nat) } = r := by
      cases r
      simp_all
    rw [hrr]

theorem TxResult.step_Reverted (rest : List Nat) (r : TxResult) :
    TxResult.step (0x28 :: (1 :: rest)) r =
    .ok ({ r with Reverted := true }, rest) := by
  unfold TxResult.step
  rw [readVarint_single 0x28 _ (by norm_num)]
  norm_num
  rw [readVarint_single 1 _ (by norm_num)]
  norm_num

theorem TxResult.driver_Reverted (b : Bool) (rest : List Nat) (r : TxResult) (f : Nat)
    (hr : r.Reverted = false) :
    driverAux TxResult.step (presBool b + f) (boolField 0x28 b ++ rest) r =
    driverAux TxResult.step f rest { r with Reverted := b } := by
  cases b with
  | true =>
      simp only [presBool, if_true, boolField]
      rw [show (1 : Nat) + f = f + 1 by omega]
      rw [show ([0x28, 1] : List Nat) ++ rest = 0x28 :: (1 :: rest) from rfl]
      exact driverAux_cons_ok _ f _ _ _ _ _ (TxResult.step_Reverted rest r)
  | false =>
      simp only [presBool, boolField]
      norm_num
      have hrr : { r with Reverted := false } = r := by
        cases r
        simp_all
      rw [hrr]

theorem TxResult.step_GasUsed (v : Nat) (rest : List Nat) (r : TxResult)
    (hv64 : v < 2 ^ 64) :
    TxResult.step (0x30 :: (putUvarint v ++ rest)) r =
    .ok ({ r with GasUsed := v }, rest) := by
  unfold TxResult.step
  rw [readVarint_single 0x30 _ (by norm_num)]
  norm_num
  rw [readVarint_putUvarint v rest hv64]

theorem TxResult.driver_GasUsed (v : Nat) (rest : List Nat) (r : TxResult) (f : Nat)
    (hv64 : v < 2 ^ 64) (hr : r.GasUsed = 0) :
    driverAux TxResult.step (presUint v + f) (uintField 0x30 v ++ rest) r =
    driverAux TxResult.step f rest { r with GasUsed := v } := by
  by_cases hv : v ≠ 0
  · simp only [presUint, uintField, if_pos hv]
    rw [show (1 : Nat) + f = f + 1 by omega]
    rw [List.cons_append]
    exact driverAux_cons_ok _ f _ _ _ _ _ (TxResult.step_GasUsed v rest r hv64)
  · push_neg at hv
    subst hv
    simp only [presUint, uintField]
    norm_num
    have hrr : { r with GasUsed := 0 } = r := by
      cases r
      simp_all
    rw [hrr]

/-- Validity of a TxResult value. -/
def TxResult.Valid (m : TxResult) : Prop :=
  m.ContractAddress.length < 2 ^ 63 ∧ m.Bloom.length < 2 ^ 63 ∧
  m.TxLogs.Valid ∧ (TransactionLogs.marshal m.TxLogs).length < 2 ^ 63 ∧
  m.Ret.length < 2 ^ 63 ∧ m.GasUsed < 2 ^ 64

/-- Total driver iterations of a TxResult encoding. -/
def TxResult.iter (m : TxResult) : Nat :=
  presLen m.ContractAddress + (presLen m.Bloom + (1 + (presLen m.Ret +
    (presBool m.Reverted + presUint m.GasUsed))))

theorem TxResult.unmarshal_marshal_chain_TX (m : TxResult) (hv : m.Valid)
    (rest : List Nat) (f : Nat) :
    driverAux TxResult.step (TxResult.iter m + f) (TxResult.marshal m ++ rest)
      TxResult.zero =
    driverAux TxResult.step f rest m := by
  obtain ⟨h1, h2, h3, h4, h5, h6⟩ := hv
  unfold TxResult.iter TxResult.marshal
  simp only [List.append_assoc, Nat.add_assoc]
  rw [TxResult.driver_ContractAddress m.ContractAddress _ TxResult.zero _ h1 rfl]
  rw [TxResult.driver_Bloom m.Bloom _ _ _ h2 rfl]
  rw [TxResult.driver_TxLogsField m.TxLogs _ _ _ h3 h4 rfl]
  rw [TxResult.driver_Ret m.Ret _ _ _ h5 rfl]
  rw [TxResult.driver_Reverted m.Reverted _ _ _ rfl]
  rw [TxResult.driver_GasUsed m.GasUsed _ _ _ h6 rfl]

theorem TxResult.roundtrip_TX (m : TxResult) (hv : m.Valid) :
    TxResult.unmarshal (TxResult.marshal m) = .ok m := by
  have hchain := TxResult.unmarshal_marshal_chain_TX m hv [] 0
  rw [List.append_nil] at hchain
  have hok : driverAux TxResult.step (TxResult.iter m + 0) (TxResult.marshal m)
      TxResult.zero = .ok m := by
    rw [hchain]
    rfl
  unfold TxResult.unmarshal TxResult.unmarshalFrom
  apply driverAux_mono TxResult.step _ _ _ _ _ _ hok
  have hb1 : presLen m.ContractAddress ≤ (bytesField 0xa m.ContractAddress).length := by
    unfold presLen bytesField
    by_cases h : 0 < m.ContractAddress.length <;> simp [h]
  have hb2 : presLen m.Bloom ≤ (bytesField 0x12 m.Bloom).length := by
    unfold presLen bytesField
    by_cases h : 0 < m.Bloom.length <;> simp [h]
  have hb3 : 1 ≤ (msgField 0x1a (TransactionLogs.marshal m.TxLogs)).length := by
    simp [msgField]
  have hb4 : presLen m.Ret ≤ (bytesField 0x22 m.Ret).length := by
    unfold presLen bytesField
    by_cases h : 0 < m.Ret.length <;> simp [h]
  have hb5 : presBool m.Reverted ≤ (boolField 0x28 m.Reverted).length := by
    unfold presBool boolField
    by_cases h : m.Reverted <;> simp [h]
  have hb6 : presUint m.GasUsed ≤ (uintField 0x30 m.GasUsed).length := by
    unfold presUint uintField
    by_cases h : m.GasUsed ≠ 0 <;> simp [h]
  have hlen : (TxResult.marshal m).length =
      (bytesField 0xa m.ContractAddress).length +
      ((bytesField 0x12 m.Bloom).length +
      ((msgField 0x1a (TransactionLogs.marshal m.TxLogs)).length +
      ((bytesField 0x22 m.Ret).length +
      ((boolField 0x28 m.Reverted).length +
      (uintField 0x30 m.GasUsed).length)))) := by
    unfold TxResult.marshal
    simp only [List.length_append]
    try omega
  unfold TxResult.iter
  omega

/-! TraceConfig: per-field lemmas and round trip. -/

/-- The `limit` marshal chunk as a named function (definitionally the
inline conditional in `TraceConfig.marshal`). -/
def limitField (x : Int) : List Nat :=
  if x ≠ 0 then 0x48 :: putUvarint (toUnsigned64 x) else []

/-- The `overrides` marshal chunk as a named function (definitionally the
inline match in `TraceConfig.marshal`). -/
def ccOptField (o : Option ChainConfig) : List Nat :=
  match o with
  | none => []
  | some cc => msgField 0x52 (ChainConfig.marshal cc)

theorem TraceConfig.step_Tracer (v : List Nat) (rest : List Nat) (r : TraceConfig)
    (hb : v.length < 2 ^ 63) :
    TraceConfig.step (0xa :: (putUvarint v.length ++ (v ++ rest))) r =
    .ok ({ r with Tracer := v }, rest) := by
  unfold TraceConfig.step
  rw [readVarint_single 0xa _ (by norm_num)]
  norm_num
  rw [readLenDelim_spec v rest hb]

theorem TraceConfig.driver_Tracer (v rest : List Nat) (r : TraceConfig) (f : Nat)
    (hb : v.length < 2 ^ 63) (hr : r.Tracer = []) :
    driverAux TraceConfig.step (presLen v + f) (bytesField 0xa v ++ rest) r =
    driverAux TraceConfig.step f rest { r with Tracer := v } := by
  by_cases hv : 0 < v.length
  · simp only [presLen, hv, if_true, bytesField]
    rw [show (1 : Nat) + f = f + 1 by omega]
    rw [List.cons_append, List.append_assoc]
    exact driverAux_cons_ok _ f _ _ _ _ _ (TraceConfig.step_Tracer v rest r hb)
  · have hnil : v = [] := by
      cases v with
      | nil => rfl
      | cons a as => simp at hv
    subst hnil
    simp only [presLen, bytesField]
    norm_num
    have hrr : { r with Tracer := ([] : List Nat) } = r := by
      cases r
      simp_all
    rw [hrr]

theorem TraceConfig.step_Timeout (v : List Nat) (rest : List Nat) (r : TraceConfig)
    (hb : v.length < 2 ^ 63) :
    TraceConfig.step (0x12 :: (putUvarint v.length ++ (v ++ rest))) r =
    .ok ({ r with Timeout := v }, rest) := by
  unfold TraceConfig.step
  rw [readVarint_single 0x12 _ (by norm_num)]
  norm_num
  rw [readLenDelim_spec v rest hb]

theorem TraceConfig.driver_Timeout (v rest : List Nat) (r : TraceConfig) (f : Nat)
    (hb : v.length < 2 ^ 63) (hr : r.Timeout = []) :
    driverAux TraceConfig.step (presLen v + f) (bytesField 0x12 v ++ rest) r =
    driverAux TraceConfig.step f rest { r with Timeout := v } := by
  by_cases hv : 0 < v.length
  · simp only [presLen, hv, if_true, bytesField]
    rw [show (1 : Nat) + f = f + 1 by omega]
    rw [List.cons_append, List.append_assoc]
    exact driverAux_cons_ok _ f _ _ _ _ _ (TraceConfig.step_Timeout v rest r hb)
  · have hnil : v = [] := by
      cases v with
      | nil => rfl
      | cons a as => simp at hv
    subst hnil
    simp only [presLen, bytesField]
    norm_num
    have hrr : { r with Timeout := ([] : List Nat) } = r := by
      cases r
      simp_all
    rw [hrr]

theorem TraceConfig.step_Reexec (v : Nat) (rest : List Nat) (r : TraceConfig)
    (hv64 : v < 2 ^ 64) :
    TraceConfig.step (0x18 :: (putUvarint v ++ rest)) r =
    .ok ({ r with Reexec := v }, rest) := by
  unfold TraceConfig.step
  rw [readVarint_single 0x18 _ (by norm_num)]
  norm_num
  rw [readVarint_putUvarint v rest hv64]

theorem TraceConfig.driver_Reexec (v : Nat) (rest : List Nat) (r : TraceConfig) (f : Nat)
    (hv64 : v < 2 ^ 64) (hr : r.Reexec = 0) :
    driverAux TraceConfig.step (presUint v + f) (uintField 0x18 v ++ rest) r =
    driverAux TraceConfig.step f rest { r with Reexec := v } := by
  by_cases hv : v ≠ 0
  · simp only [presUint, uintField, if_pos hv]
    rw [show (1 : Nat) + f = f + 1 by omega]
    rw [List.cons_append]
    exact driverAux_cons_ok _ f _ _ _ _ _ (TraceConfig.step_Reexec v rest r hv64)
  · push_neg at hv
    subst hv
    simp only [presUint, uintField]
    norm_num
    have hrr : { r with Reexec := 0 } = r := by
      cases r
      simp_all
    rw [hrr]

theorem TraceConfig.step_DisableStack (rest : List Nat) (r : TraceConfig) :
    TraceConfig.step (0x28 :: (1 :: rest)) r =
    .ok ({ r with DisableStack := true }, rest) := by
  unfold TraceConfig.step
  rw [readVarint_single 0x28 _ (by norm_num)]
  norm_num
  rw [readVarint_single 1 _ (by norm_num)]
  norm_num

theorem TraceConfig.driver_DisableStack (b : Bool) (rest : List Nat) (r : TraceConfig)
    (f : Nat) (hr : r.DisableStack = false) :
    driverAux TraceConfig.step (presBool b + f) (boolField 0x28 b ++ rest) r =
    driverAux TraceConfig.step f rest { r with DisableStack := b } := by
  cases b with
  | true =>
      simp only [presBool, if_true, boolField]
      rw [show (1 : Nat) + f = f + 1 by omega]
      rw [show ([0x28, 1] : List Nat) ++ rest = 0x28 :: (1 :: rest) from rfl]
      exact driverAux_cons_ok _ f _ _ _ _ _ (TraceConfig.step_DisableStack rest r)
  | false =>
      simp only [presBool, boolField]
      norm_num
      have hrr : { r with DisableStack := false } = r := by
        cases r
        simp_all
      rw [hrr]

theorem TraceConfig.step_DisableStorage (rest : List Nat) (r : TraceConfig) :
    TraceConfig.step (0x30 :: (1 :: rest)) r =
    .ok ({ r with DisableStorage := true }, rest) := by
  unfold TraceConfig.step
  rw [readVarint_single 0x30 _ (by norm_num)]
  norm_num
  rw [readVarint_single 1 _ (by norm_num)]
  norm_num

theorem TraceConfig.driver_DisableStorage (b : Bool) (rest : List Nat) (r : TraceConfig)
    (f : Nat) (hr : r.DisableStorage = false) :
    driverAux TraceConfig.step (presBool b + f) (boolField 0x30 b ++ rest) r =
    driverAux TraceConfig.step f rest { r with DisableStorage := b } := by
  cases b with
  | true =>
      simp only [presBool, if_true, boolField]
      rw [show (1 : Nat) + f = f + 1 by omega]
      rw [show ([0x30, 1] : List Nat) ++ rest = 0x30 :: (1 :: rest) from rfl]
      exact driverAux_cons_ok _ f _ _ _ _ _ (TraceConfig.step_DisableStorage rest r)
  | false =>
      simp only [presBool, boolField]
      norm_num
      have hrr : { r with DisableStorage := false } = r := by
        cases r
        simp_all
      rw [hrr]

theorem TraceConfig.step_Debug (rest : List Nat) (r : TraceConfig) :
    TraceConfig.step (0x40 :: (1 :: rest)) r =
    .ok ({ r with Debug := true }, rest) := by
  unfold TraceConfig.step
  rw [readVarint_single 0x40 _ (by norm_num)]
  norm_num
  rw [readVarint_single 1 _ (by norm_num)]
  norm_num

theorem TraceConfig.driver_Debug (b : Bool) (rest : List Nat) (r : TraceConfig)
    (f : Nat) (hr : r.Debug = false) :
    driverAux TraceConfig.step (presBool b + f) (boolField 0x40 b ++ rest) r =
    driverAux TraceConfig.step f rest { r with Debug := b } := by
  cases b with
  | true =>
      simp only [presBool, if_true, boolField]
      rw [show (1 : Nat) + f = f + 1 by omega]
      rw [show ([0x40, 1] : List Nat) ++ rest = 0x40 :: (1 :: rest) from rfl]
      exact driverAux_cons_ok _ f _ _ _ _ _ (TraceConfig.step_Debug rest r)
  | false =>
      simp only [presBool, boolField]
      norm_num
      have hrr : { r with Debug := false } = r := by
        cases r
        simp_all
      rw [hrr]

theorem TraceConfig.step_Limit (v : Nat) (rest : List Nat) (r : TraceConfig)
    (hv64 : v < 2 ^ 64) :
    TraceConfig.step (0x48 :: (putUvarint v ++ rest)) r =
    .ok ({ r with Limit := toSigned32 v }, rest) := by
  unfold TraceConfig.step
  rw [readVarint_single 0x48 _ (by norm_num)]
  norm_num
  rw [readVarint_putUvarint v rest hv64]

theorem TraceConfig.driver_Limit (x : Int) (rest : List Nat) (r : TraceConfig) (f : Nat)
    (h1 : -(2 ^ 31) ≤ x) (h2 : x < 2 ^ 31) (hr : r.Limit = 0) :
    driverAux TraceConfig.step (presInt x + f) (limitField x ++ rest) r =
    driverAux TraceConfig.step f rest { r with Limit := x } := by
  by_cases hx : x ≠ 0
  · simp only [presInt, limitField, if_pos hx]
    rw [show (1 : Nat) + f = f + 1 by omega]
    rw [List.cons_append]
    have hstep := TraceConfig.step_Limit (toUnsigned64 x) rest r (toUnsigned64_lt x)
    rw [toSigned32_toUnsigned64 x h1 h2] at hstep
    exact driverAux_cons_ok _ f _ _ _ _ _ hstep
  · push_neg at hx
    subst hx
    simp only [presInt, limitField]
    norm_num
    have hrr : { r with Limit := (0 : Int) } = r := by
      cases r
      simp_all
    rw [hrr]

theorem TraceConfig.step_Overrides (cc : EvmPb.ChainConfig) (rest : List Nat)
    (r : TraceConfig) (hcc : cc.Valid) (hlen : (ChainConfig.marshal cc).length < 2 ^ 63)
    (hr : r.Overrides = none) :
    TraceConfig.step (0x52 :: (putUvarint (ChainConfig.marshal cc).length ++
      (ChainConfig.marshal cc ++ rest))) r =
    .ok ({ r with Overrides := some cc }, rest) := by
  have hdispatch : ∀ T : List Nat, TraceConfig.step (0x52 :: T) r =
      match readCCField
          (match r.Overrides with
           | none => ChainConfig.zero
           | some cc => cc) T with
      | .error e => .error e
      | .ok (cc', rem2) => .ok ({ r with Overrides := some cc' }, rem2) := by
    intro T
    unfold TraceConfig.step
    rw [readVarint_single 0x52 _ (by norm_num)]
    norm_num
  have hbase : (match r.Overrides with
      | none => ChainConfig.zero
      | some cc => cc) = ChainConfig.zero := by
    rw [hr]
  rw [hdispatch, hbase]
  rw [readCCField_spec ChainConfig.zero cc (ChainConfig.marshal cc) rest hlen
    (ChainConfig.roundtrip_CC cc hcc)]

theorem TraceConfig.driver_Overrides (o : Option EvmPb.ChainConfig) (rest : List Nat)
    (r : TraceConfig) (f : Nat)
    (hcc : ∀ cc, o = some cc → cc.Valid ∧ (ChainConfig.marshal cc).length < 2 ^ 63)
    (hr : r.Overrides = none) :
    driverAux TraceConfig.step (presOptCC o + f) (ccOptField o ++ rest) r =
    driverAux TraceConfig.step f rest { r with Overrides := o } := by
  cases o with
  | none =>
      simp only [presOptCC, ccOptField]
      norm_num
      have hrr : { r with Overrides := (none : Option EvmPb.ChainConfig) } = r := by
        cases r
        simp_all
      rw [hrr]
  | some cc =>
      obtain ⟨hv, hl⟩ := hcc cc rfl
      simp only [presOptCC, ccOptField]
      rw [show (1 : Nat) + f = f + 1 by omega]
      unfold msgField
      rw [List.cons_append, List.append_assoc]
      exact driverAux_cons_ok _ f _ _ _ _ _
        (TraceConfig.step_Overrides cc rest r hv hl hr)

theorem TraceConfig.step_EnableMemory (rest : List Nat) (r : TraceConfig) :
    TraceConfig.step (0x58 :: (1 :: rest)) r =
    .ok ({ r with EnableMemory := true }, rest) := by
  unfold TraceConfig.step
  rw [readVarint_single 0x58 _ (by norm_num)]
  norm_num
  rw [readVarint_single 1 _ (by norm_num)]
  norm_num

theorem TraceConfig.driver_EnableMemory (b : Bool) (rest : List Nat) (r : TraceConfig)
    (f : Nat) (hr : r.EnableMemory = false) :
    driverAux TraceConfig.step (presBool b + f) (boolField 0x58 b ++ rest) r =
    driverAux TraceConfig.step f rest { r with EnableMemory := b } := by
  cases b with
  | true =>
      simp only [presBool, if_true, boolField]
      rw [show (1 : Nat) + f = f + 1 by omega]
      rw [show ([0x58, 1] : List Nat) ++ rest = 0x58 :: (1 :: rest) from rfl]
      exact driverAux_cons_ok _ f _ _ _ _ _ (TraceConfig.step_EnableMemory rest r)
  | false =>
      simp only [presBool, boolField]
      norm_num
      have hrr : { r with EnableMemory := false } = r := by
        cases r
        simp_all
      rw [hrr]

theorem TraceConfig.step_EnableReturnData (rest : List Nat) (r : TraceConfig) :
    TraceConfig.step (0x60 :: (1 :: rest)) r =
    .ok ({ r with EnableReturnData := true }, rest) := by
  unfold TraceConfig.step
  rw [readVarint_single 0x60 _ (by norm_num)]
  norm_num
  rw [readVarint_single 1 _ (by norm_num)]
  norm_num

theorem TraceConfig.driver_EnableReturnData (b : Bool) (rest : List Nat) (r : TraceConfig)
    (f : Nat) (hr : r.EnableReturnData = false) :
    driverAux TraceConfig.step (presBool b + f) (boolField 0x60 b ++ rest) r =
    driverAux TraceConfig.step f rest { r with EnableReturnData := b } := by
  cases b with
  | true =>
      simp only [presBool, if_true, boolField]
      rw [show (1 : Nat) + f = f + 1 by omega]
      rw [show ([0x60, 1] : List Nat) ++ rest = 0x60 :: (1 :: rest) from rfl]
      exact driverAux_cons_ok _ f _ _ _ _ _ (TraceConfig.step_EnableReturnData rest r)
  | false =>
      simp only [presBool, boolField]
      norm_num
      have hrr : { r with EnableReturnData := false } = r := by
        cases r
        simp_all
      rw [hrr]

theorem TraceConfig.step_TracerJsonConfig (v : List Nat) (rest : List Nat)
    (r : TraceConfig) (hb : v.length < 2 ^ 63) :
    TraceConfig.step (0x6a :: (putUvarint v.length ++ (v ++ rest))) r =
    .ok ({ r with TracerJsonConfig := v }, rest) := by
  unfold TraceConfig.step
  rw [readVarint_single 0x6a _ (by norm_num)]
  norm_num
  rw [readLenDelim_spec v rest hb]

theorem TraceConfig.driver_TracerJsonConfig (v rest : List Nat) (r : TraceConfig) (f : Nat)
    (hb : v.length < 2 ^ 63) (hr : r.TracerJsonConfig = []) :
    driverAux TraceConfig.step (presLen v + f) (bytesField 0x6a v ++ rest) r =
    driverAux TraceConfig.step f rest { r with TracerJsonConfig := v } := by
  by_cases hv : 0 < v.length
  · simp only [presLen, hv, if_true, bytesField]
    rw [show (1 : Nat) + f = f + 1 by omega]
    rw [List.cons_append, List.append_assoc]
    exact driverAux_cons_ok _ f _ _ _ _ _ (TraceConfig.step_TracerJsonConfig v rest r hb)
  · have hnil : v = [] := by
      cases v with
      | nil => rfl
      | cons a as => simp at hv
    subst hnil
    simp only [presLen, bytesField]
    norm_num
    have hrr : { r with TracerJsonConfig := ([] : List Nat) } = r := by
      cases r
      simp_all
    rw [hrr]

/-- Validity of a TraceConfig value. -/
def TraceConfig.Valid (m : TraceConfig) : Prop :=
  m.Tracer.length < 2 ^ 63 ∧ m.Timeout.length < 2 ^ 63 ∧ m.Reexec < 2 ^ 64 ∧
  -(2 ^ 31) ≤ m.Limit ∧ m.Limit < 2 ^ 31 ∧
  (∀ cc, m.Overrides = some cc →
    cc.Valid ∧ (ChainConfig.marshal cc).length < 2 ^ 63) ∧
  m.TracerJsonConfig.length < 2 ^ 63

/-- Total driver iterations of a TraceConfig encoding. -/
def TraceConfig.iter (m : TraceConfig) : Nat :=
  presLen m.Tracer + (presLen m.Timeout + (presUint m.Reexec +
    (presBool m.DisableStack + (presBool m.DisableStorage + (presBool m.Debug +
    (presInt m.Limit + (presOptCC m.Overrides + (presBool m.EnableMemory +
    (presBool m.EnableReturnData + presLen m.TracerJsonConfig)))))))))

theorem TraceConfig.unmarshal_marshal_chain_TC (m : TraceConfig) (hv : m.Valid)
    (rest : List Nat) (f : Nat) :
    driverAux TraceConfig.step (TraceConfig.iter m + f) (TraceConfig.marshal m ++ rest)
      TraceConfig.zero =
    driverAux TraceConfig.step f rest m := by
  obtain ⟨h1, h2, h3, h4, h5, h6, h7⟩ := hv
  unfold TraceConfig.iter TraceConfig.marshal
  rw [show (if m.Limit ≠ 0 then 0x48 :: putUvarint (toUnsigned64 m.Limit) else []) =
    limitField m.Limit from rfl]
  rw [show (match m.Overrides with
      | none => []
      | some cc => msgField 0x52 (ChainConfig.marshal cc)) = ccOptField m.Overrides from
    rfl]
  simp only [List.append_assoc, Nat.add_assoc]
  rw [TraceConfig.driver_Tracer m.Tracer _ TraceConfig.zero _ h1 rfl]
  rw [TraceConfig.driver_Timeout m.Timeout _ _ _ h2 rfl]
  rw [TraceConfig.driver_Reexec m.Reexec _ _ _ h3 rfl]
  rw [TraceConfig.driver_DisableStack m.DisableStack _ _ _ rfl]
  rw [TraceConfig.driver_DisableStorage m.DisableStorage _ _ _ rfl]
  rw [TraceConfig.driver_Debug m.Debug _ _ _ rfl]
  rw [TraceConfig.driver_Limit m.Limit _ _ _ h4 h5 rfl]
  rw [TraceConfig.driver_Overrides m.Overrides _ _ _ h6 rfl]
  rw [TraceConfig.driver_EnableMemory m.EnableMemory _ _ _ rfl]
  rw [TraceConfig.driver_EnableReturnData m.EnableReturnData _ _ _ rfl]
  rw [TraceConfig.driver_TracerJsonConfig m.TracerJsonConfig _ _ _ h7 rfl]

theorem TraceConfig.roundtrip_TC (m : TraceConfig) (hv : m.Valid) :
    TraceConfig.unmarshal (TraceConfig.marshal m) = .ok m := by
  have hchain := TraceConfig.unmarshal_marshal_chain_TC m hv [] 0
  rw [List.append_nil] at hchain
  have hok : driverAux TraceConfig.step (TraceConfig.iter m + 0) (TraceConfig.marshal m)
      TraceConfig.zero = .ok m := by
    rw [hchain]
    rfl
  unfold TraceConfig.unmarshal TraceConfig.unmarshalFrom
  apply driverAux_mono TraceConfig.step _ _ _ _ _ _ hok
  have hb1 : presLen m.Tracer ≤ (bytesField 0xa m.Tracer).length := by
    unfold presLen bytesField
    by_cases h : 0 < m.Tracer.length <;> simp [h]
  have hb2 : presLen m.Timeout ≤ (bytesField 0x12 m.Timeout).length := by
    unfold presLen bytesField
    by_cases h : 0 < m.Timeout.length <;> simp [h]
  have hb3 : presUint m.Reexec ≤ (uintField 0x18 m.Reexec).length := by
    unfold presUint uintField
    by_cases h : m.Reexec ≠ 0 <;> simp [h]
  have hb4 : presBool m.DisableStack ≤ (boolField 0x28 m.DisableStack).length := by
    unfold presBool boolField
    by_cases h : m.DisableStack <;> simp [h]
  have hb5 : presBool m.DisableStorage ≤ (boolField 0x30 m.DisableStorage).length := by
    unfold presBool boolField
    by_cases h : m.DisableStorage <;> simp [h]
  have hb6 : presBool m.Debug ≤ (boolField 0x40 m.Debug).length := by
    unfold presBool boolField
    by_cases h : m.Debug <;> simp [h]
  have hb7 : presInt m.Limit ≤ (limitField m.Limit).length := by
    unfold presInt limitField
    by_cases h : m.Limit ≠ 0 <;> simp [h]
  have hb8 : presOptCC m.Overrides ≤ (ccOptField m.Overrides).length := by
    cases ho : m.Overrides <;> simp [presOptCC, ccOptField, msgField]
  have hb9 : presBool m.EnableMemory ≤ (boolField 0x58 m.EnableMemory).length := by
    unfold presBool boolField
    by_cases h : m.EnableMemory <;> simp [h]
  have hb10 : presBool m.EnableReturnData ≤ (boolField 0x60 m.EnableReturnData).length := by
    unfold presBool boolField
    by_cases h : m.EnableReturnData <;> simp [h]
  have hb11 : presLen m.TracerJsonConfig ≤ (bytesField 0x6a m.TracerJsonConfig).length := by
    unfold presLen bytesField
    by_cases h : 0 < m.TracerJsonConfig.length <;> simp [h]
  have hlen : (TraceConfig.marshal m).length =
      (bytesField 0xa m.Tracer).length +
      ((bytesField 0x12 m.Timeout).length +
      ((uintField 0x18 m.Reexec).length +
      ((boolField 0x28 m.DisableStack).length +
      ((boolField 0x30 m.DisableStorage).length +
      ((boolField 0x40 m.Debug).length +
      ((limitField m.Limit).length +
      ((ccOptField m.Overrides).length +
      ((boolField 0x58 m.EnableMemory).length +
      ((boolField 0x60 m.EnableReturnData).length +
      (bytesField 0x6a m.TracerJsonConfig).length))))))))) := by
    unfold TraceConfig.marshal
    rw [show (if m.Limit ≠ 0 then 0x48 :: putUvarint (toUnsigned64 m.Limit) else []) =
      limitField m.Limit from rfl]
    rw [show (match m.Overrides with
        | none => []
        | some cc => msgField 0x52 (ChainConfig.marshal cc)) = ccOptField m.Overrides from
      rfl]
    simp only [List.length_append]
    try omega
  unfold TraceConfig.iter
  omega

/-! Marshalled length equals `Size()` for every message type. -/

theorem bytesField_length (tag : Nat) (s : List Nat) :
    (bytesField tag s).length = bytesFieldSize s := by
  unfold bytesField bytesFieldSize
  by_cases h : 0 < s.length
  · simp [h, putUvarint_length]
    omega
  · simp [h]

theorem boolField_length (tag : Nat) (b : Bool) :
    (boolField tag b).length = boolFieldSize b := by
  cases b <;> rfl

theorem uintField_length (tag : Nat) (v : Nat) :
    (uintField tag v).length = uintFieldSize v := by
  unfold uintField uintFieldSize
  by_cases h : v ≠ 0
  · simp [h, putUvarint_length]
    try omega
  · simp [h]

theorem intOptField_length (tagBytes : List Nat) (v : Option Int) :
    (intOptField tagBytes v).length = intOptFieldSize tagBytes.length v := by
  cases v with
  | none => rfl
  | some x =>
      simp only [intOptField, intOptFieldSize, List.length_append, putUvarint_length]
      rw [show intSize x = (intEncode x).length from rfl]
      omega

theorem msgField_length (tag : Nat) (p : List Nat) :
    (msgField tag p).length = 1 + p.length + sovEvm p.length := by
  simp [msgField, putUvarint_length]
  omega

theorem strElemField_length (tag : Nat) (s : List Nat) :
    (strElemField tag s).length = 1 + s.length + sovEvm s.length := by
  simp [strElemField, putUvarint_length]
  omega

theorem strElems_length (tag : Nat) (l : List (List Nat)) :
    ((l.map (strElemField tag)).flatten).length =
    (l.map (fun s => 1 + s.length + sovEvm s.length)).sum := by
  induction l with
  | nil => rfl
  | cons s ss ih =>
      simp only [List.map_cons, List.flatten_cons, List.length_append, ih,
        List.sum_cons, strElemField_length]

theorem State.size_eq_S (m : State) : (State.marshal m).length = State.size m := by
  unfold State.marshal State.size
  simp only [List.length_append, bytesField_length]

theorem AccessTuple.size_eq_AT (m : AccessTuple) :
    (AccessTuple.marshal m).length = AccessTuple.size m := by
  unfold AccessTuple.marshal AccessTuple.size
  simp only [List.length_append, bytesField_length, strElems_length]

theorem Log.size_eq_L (m : Log) : (Log.marshal m).length = Log.size m := by
  unfold Log.marshal Log.size
  simp only [List.length_append, bytesField_length, uintField_length, boolField_length,
    strElems_length]
  try omega

theorem logElems_length (l : List Log) :
    ((l.map (fun lg => msgField 0x12 (Log.marshal lg))).flatten).length =
    (l.map (fun lg => 1 + Log.size lg + sovEvm (Log.size lg))).sum := by
  induction l with
  | nil => rfl
  | cons lg ls ih =>
      simp only [List.map_cons, List.flatten_cons, List.length_append, ih,
        List.sum_cons, msgField_length, Log.size_eq_L]

theorem TransactionLogs.size_eq_TL (m : TransactionLogs) :
    (TransactionLogs.marshal m).length = TransactionLogs.size m := by
  unfold TransactionLogs.marshal TransactionLogs.size
  simp only [List.length_append, bytesField_length, logElems_length]

theorem ChainConfig.size_eq_CC (m : ChainConfig) :
    (ChainConfig.marshal m).length = ChainConfig.size m := by
  unfold ChainConfig.marshal ChainConfig.size
  simp only [List.length_append, bytesField_length, boolField_length, intOptField_length,
    List.length_cons, List.length_nil]
  try norm_num

theorem eipsPayload_length (l : List Int) :
    (eipsPayload l).length = (l.map (fun e => sovEvm (toUnsigned64 e))).sum := by
  induction l with
  | nil => rfl
  | cons e es ih =>
      rw [eipsPayload_cons]
      simp only [List.length_append, List.map_cons, List.sum_cons, ih, putUvarint_length]

theorem Params.size_eq_P (m : Params) : (Params.marshal m).length = Params.size m := by
  unfold Params.marshal Params.size
  simp only [List.length_append, bytesField_length, boolField_length, msgField_length,
    ChainConfig.size_eq_CC]
  by_cases h : 0 < m.ExtraEIPs.length
  · simp only [h, if_true, List.length_cons, List.length_append, putUvarint_length,
      eipsPayload_length]
    try omega
  · simp only [h, if_false, List.length_nil]
    try omega

theorem TxResult.size_eq_TX (m : TxResult) : (TxResult.marshal m).length = TxResult.size m := by
  unfold TxResult.marshal TxResult.size
  simp only [List.length_append, bytesField_length, boolField_length, uintField_length,
    msgField_length, TransactionLogs.size_eq_TL]
  try omega

theorem limitField_length (x : Int) :
    (limitField x).length = if x ≠ 0 then 1 + sovEvm (toUnsigned64 x) else 0 := by
  unfold limitField
  by_cases h : x = 0
  · subst h
    norm_num
  · rw [if_pos h, if_pos h]
    simp [putUvarint_length]
    try omega

theorem ccOptField_length (o : Option ChainConfig) :
    (ccOptField o).length =
    (match o with
     | none => 0
     | some cc => 1 + ChainConfig.size cc + sovEvm (ChainConfig.size cc)) := by
  cases o with
  | none => rfl
  | some cc =>
      show (msgField 0x52 (ChainConfig.marshal cc)).length = _
      rw [msgField_length, ChainConfig.size_eq_CC]

theorem TraceConfig.size_eq_TC (m : TraceConfig) :
    (TraceConfig.marshal m).length = TraceConfig.size m := by
  unfold TraceConfig.marshal TraceConfig.size
  rw [show (if m.Limit ≠ 0 then 0x48 :: putUvarint (toUnsigned64 m.Limit) else []) =
    limitField m.Limit from rfl]
  rw [show (match m.Overrides with
      | none => []
      | some cc => msgField 0x52 (ChainConfig.marshal cc)) = ccOptField m.Overrides from
    rfl]
  simp only [List.length_append, bytesField_length, boolField_length, uintField_length,
    limitField_length, ccOptField_length]
  try omega

/-! Exact characterisation of the varint reader's three outcomes. -/

theorem readVarintAux_nil (shift acc : Nat) :
    readVarintAux [] shift acc =
    if 64 ≤ shift then .error .intOverflow else .error .unexpectedEOF := by
  unfold readVarintAux
  by_cases h : 64 ≤ shift <;> simp [h]

theorem readVarintAux_cons (b : Nat) (bs : List Nat) (shift acc : Nat) :
    readVarintAux (b :: bs) shift acc =
    if 64 ≤ shift then .error .intOverflow
    else if b < 128 then .ok ((acc + b % 128 * 2 ^ shift) % 2 ^ 64, bs)
    else readVarintAux bs (shift + 7) ((acc + b % 128 * 2 ^ shift) % 2 ^ 64) := by
  conv_lhs => unfold readVarintAux

theorem readVarintAux_eof_iff : ∀ (c : List Nat) (j acc : Nat), j ≤ 10 →
    (readVarintAux c (7 * j) acc = .error .unexpectedEOF ↔
      (∀ b ∈ c, 128 ≤ b) ∧ c.length < 10 - j)
  | [], j, acc, hj => by
      rw [readVarintAux_nil]
      by_cases h64 : 64 ≤ 7 * j
      · rw [if_pos h64]
        simp
        omega
      · rw [if_neg h64]
        simp
        omega
  | b :: bs, j, acc, hj => by
      rw [readVarintAux_cons]
      by_cases h64 : 64 ≤ 7 * j
      · rw [if_pos h64]
        constructor
        · intro h
          exact absurd h (by simp)
        · rintro ⟨-, hlen⟩
          simp only [List.length_cons] at hlen
          omega
      · rw [if_neg h64]
        by_cases hb : b < 128
        · rw [if_pos hb]
          constructor
          · intro h
            exact Except.noConfusion h
          · rintro ⟨hc, -⟩
            exact absurd (hc b (by simp)) (by omega)
        · rw [if_neg hb, show 7 * j + 7 = 7 * (j + 1) by ring,
            readVarintAux_eof_iff bs (j + 1) _ (by omega)]
          simp only [List.mem_cons, List.length_cons]
          constructor
          · rintro ⟨hc, hlen⟩
            refine ⟨?_, by omega⟩
            rintro x (rfl | hx)
            · omega
            · exact hc x hx
          · rintro ⟨hc, hlen⟩
            exact ⟨fun x hx => hc x (Or.inr hx), by omega⟩

theorem readVarintAux_overflow_iff : ∀ (c : List Nat) (j acc : Nat), j ≤ 10 →
    (readVarintAux c (7 * j) acc = .error .intOverflow ↔
      10 - j ≤ c.length ∧ ∀ i, i < 10 - j → 128 ≤ c.getD i 0)
  | [], j, acc, hj => by
      rw [readVarintAux_nil]
      by_cases h64 : 64 ≤ 7 * j
      · rw [if_pos h64]
        simp only [List.length_nil]
        constructor
        · intro _
          exact ⟨by omega, fun i hi => absurd hi (by omega)⟩
        · intro _
          trivial
      · rw [if_neg h64]
        constructor
        · intro h
          exact absurd h (by simp)
        · rintro ⟨hlen, -⟩
          simp only [List.length_nil] at hlen
          omega
  | b :: bs, j, acc, hj => by
      rw [readVarintAux_cons]
      by_cases h64 : 64 ≤ 7 * j
      · rw [if_pos h64]
        simp only [List.length_cons]
        constructor
        · intro _
          exact ⟨by omega, fun i hi => absurd hi (by omega)⟩
        · intro _
          trivial
      · rw [if_neg h64]
        by_cases hb : b < 128
        · rw [if_pos hb]
          constructor
          · intro h
            exact Except.noConfusion h
          · rintro ⟨-, hall⟩
            have h0 := hall 0 (by omega)
            simp only [List.getD_cons_zero] at h0
            omega
        · rw [if_neg hb, show 7 * j + 7 = 7 * (j + 1) by ring,
            readVarintAux_overflow_iff bs (j + 1) _ (by omega)]
          simp only [List.length_cons]
          constructor
          · rintro ⟨hlen, hall⟩
            refine ⟨by omega, ?_⟩
            intro i hi
            cases i with
            | zero => simpa using hb
            | succ k =>
                rw [List.getD_cons_succ]
                exact hall k (by omega)
          · rintro ⟨hlen, hall⟩
            refine ⟨by omega, ?_⟩
            intro i hi
            have := hall (i + 1) (by omega)
            rwa [List.getD_cons_succ] at this

theorem readVarintAux_ok_exists : ∀ (c : List Nat) (b : Nat) (t : List Nat) (j acc : Nat),
    (∀ x ∈ c, 128 ≤ x) → c.length + j ≤ 9 → b < 128 →
    ∃ v, readVarintAux (c ++ b :: t) (7 * j) acc = .ok (v, t)
  | [], b, t, j, acc, _, hlen, hb => by
      rw [List.nil_append, readVarintAux_cons, if_neg (by omega), if_pos hb]
      exact ⟨_, rfl⟩
  | x :: xs, b, t, j, acc, hc, hlen, hb => by
      rw [List.cons_append, readVarintAux_cons, if_neg (by omega),
        if_neg (by have := hc x (by simp); omega),
        show 7 * j + 7 = 7 * (j + 1) by ring]
      exact readVarintAux_ok_exists xs b t (j + 1) _
        (fun y hy => hc y (by simp [hy]))
        (by simp only [List.length_cons] at hlen; omega) hb

theorem readVarint_overflow_iff (rem : List Nat) :
    readVarint rem = .error .intOverflow ↔
    10 ≤ rem.length ∧ ∀ i, i < 10 → 128 ≤ rem.getD i 0 := by
  have h := readVarintAux_overflow_iff rem 0 0 (by omega)
  simpa [readVarint] using h

theorem readVarint_eof_iff (rem : List Nat) :
    readVarint rem = .error .unexpectedEOF ↔
    (∀ b ∈ rem, 128 ≤ b) ∧ rem.length < 10 := by
  have h := readVarintAux_eof_iff rem 0 0 (by omega)
  simpa [readVarint] using h

theorem readVarint_ok_exists (c : List Nat) (b : Nat) (t : List Nat)
    (hc : ∀ x ∈ c, 128 ≤ x) (hlen : c.length ≤ 9) (hb : b < 128) :
    ∃ v, readVarint (c ++ b :: t) = .ok (v, t) := by
  have h := readVarintAux_ok_exists c b t 0 0 hc (by omega) hb
  simpa [readVarint] using h

/-! Truncated buffers: mid-varint and mid-payload failures. -/

theorem driverAux_error {α : Type} (step : List Nat → α → Except DecodeError (α × List Nat))
    (f : Nat) (a : Nat) (as : List Nat) (r : α) (e : DecodeError)
    (h : step (a :: as) r = .error e) :
    driverAux step (f + 1) (a :: as) r = .error e := by
  rw [driverAux_cons, h]

theorem readLenDelim_trunc_varint (c : List Nat) (hc : ∀ b ∈ c, 128 ≤ b)
    (hlen : c.length ≤ 9) : readLenDelim c = .error .unexpectedEOF := by
  unfold readLenDelim
  rw [(readVarint_eof_iff c).mpr ⟨hc, by omega⟩]

theorem readLenDelim_trunc_payload (n : Nat) (t : List Nat) (hn : n < 2 ^ 63)
    (ht : t.length < n) : readLenDelim (putUvarint n ++ t) = .error .unexpectedEOF := by
  unfold readLenDelim
  rw [readVarint_putUvarint n t (by omega)]
  show (if 2 ^ 63 ≤ n then (.error .invalidLength : Except DecodeError (List Nat × List Nat))
        else if t.length < n then .error .unexpectedEOF
        else .ok (t.take n, t.drop n)) = .error .unexpectedEOF
  rw [if_neg (by omega), if_pos ht]

/-! Per-field presence counts never exceed the emitted chunk lengths. -/

theorem presLen_le (tag : Nat) (s : List Nat) : presLen s ≤ (bytesField tag s).length := by
  unfold presLen bytesField
  by_cases h : 0 < s.length <;> simp [h]

theorem presBool_le (tag : Nat) (b : Bool) : presBool b ≤ (boolField tag b).length := by
  unfold presBool boolField
  by_cases h : b <;> simp [h]

theorem presUint_le (tag : Nat) (v : Nat) : presUint v ≤ (uintField tag v).length := by
  unfold presUint uintField
  by_cases h : v ≠ 0 <;> simp [h]

theorem presOpt_le (t : Nat) (ts : List Nat) (v : Option Int) :
    presOpt v ≤ (intOptField (t :: ts) v).length := by
  unfold presOpt intOptField
  cases v <;> simp

theorem presOptCC_le (o : Option ChainConfig) : presOptCC o ≤ (ccOptField o).length := by
  cases o <;> simp [presOptCC, ccOptField, msgField]

theorem presInt_le (x : Int) : presInt x ≤ (limitField x).length := by
  unfold presInt limitField
  by_cases h : x ≠ 0 <;> simp [h]

theorem presEips_le (l : List Int) : presEips l ≤
    (if 0 < l.length then
      0x22 :: (putUvarint (eipsPayload l).length ++ eipsPayload l)
    else []).length := by
  unfold presEips
  by_cases h : 0 < l.length <;> simp [h]

theorem strElems_ge (tag : Nat) (l : List (List Nat)) :
    l.length ≤ ((l.map (strElemField tag)).flatten).length := by
  induction l with
  | nil => simp
  | cons s ss ih =>
      simp only [List.map_cons, List.flatten_cons, List.length_append, List.length_cons]
      have hone : 1 ≤ (strElemField tag s).length := by simp [strElemField]
      omega

theorem logElems_ge (l : List Log) :
    l.length ≤ ((l.map (fun lg => msgField 0x12 (Log.marshal lg))).flatten).length := by
  induction l with
  | nil => simp
  | cons lg ls ih =>
      simp only [List.map_cons, List.flatten_cons, List.length_append, List.length_cons]
      have hone : 1 ≤ (msgField 0x12 (Log.marshal lg)).length := by simp [msgField]
      omega

theorem State.pres_le_S (m : State) :
    presLen m.Key + presLen m.Value ≤ (State.marshal m).length := by
  have h1 := presLen_le 0xa m.Key
  have h2 := presLen_le 0x12 m.Value
  unfold State.marshal
  simp only [List.length_append]
  omega

theorem AccessTuple.pres_le_AT (m : AccessTuple) :
    presLen m.Address + m.StorageKeys.length ≤ (AccessTuple.marshal m).length := by
  have h1 := presLen_le 0xa m.Address
  have h2 := strElems_ge 0x12 m.StorageKeys
  unfold AccessTuple.marshal
  simp only [List.length_append]
  omega

theorem TransactionLogs.pres_le_TL (m : TransactionLogs) :
    presLen m.Hash + m.Logs.length ≤ (TransactionLogs.marshal m).length := by
  have h1 := presLen_le 0xa m.Hash
  have h2 := logElems_ge m.Logs
  unfold TransactionLogs.marshal
  simp only [List.length_append]
  omega

theorem Log.iter_le_L (m : Log) : Log.iter m ≤ (Log.marshal m).length := by
  have h1 := presLen_le 0xa m.Address
  have h2 := strElems_ge 0x12 m.Topics
  have h3 := presLen_le 0x1a m.Data
  have h4 := presUint_le 0x20 m.BlockNumber
  have h5 := presLen_le 0x2a m.TxHash
  have h6 := presUint_le 0x30 m.TxIndex
  have h7 := presLen_le 0x3a m.BlockHash
  have h8 := presUint_le 0x40 m.Index
  have h9 := presBool_le 0x48 m.Removed
  unfold Log.iter Log.marshal
  simp only [List.length_append]
  omega

theorem ChainConfig.iter_le_CC (m : ChainConfig) :
    ChainConfig.iter m ≤ (ChainConfig.marshal m).length := by
  have h1 := presOpt_le 0xa [] m.HomesteadBlock
  have h2 := presOpt_le 0x12 [] m.DAOForkBlock
  have h3 := presBool_le 0x18 m.DAOForkSupport
  have h4 := presOpt_le 0x22 [] m.EIP150Block
  have h5 := presLen_le 0x2a m.EIP150Hash
  have h6 := presOpt_le 0x32 [] m.EIP155Block
  have h7 := presOpt_le 0x3a [] m.EIP158Block
  have h8 := presOpt_le 0x42 [] m.ByzantiumBlock
  have h9 := presOpt_le 0x4a [] m.ConstantinopleBlock
  have h10 := presOpt_le 0x52 [] m.PetersburgBlock
  have h11 := presOpt_le 0x5a [] m.IstanbulBlock
  have h12 := presOpt_le 0x62 [] m.MuirGlacierBlock
  have h13 := presOpt_le 0x6a [] m.BerlinBlock
  have h14 := presOpt_le 0x8a [0x1] m.LondonBlock
  have h15 := presOpt_le 0x92 [0x1] m.ArrowGlacierBlock
  have h16 := presOpt_le 0xa2 [0x1] m.GrayGlacierBlock
  have h17 := presOpt_le 0xaa [0x1] m.MergeNetsplitBlock
  have h18 := presOpt_le 0xb2 [0x1] m.ShanghaiBlock
  have h19 := presOpt_le 0xba [0x1] m.CancunBlock
  unfold ChainConfig.iter ChainConfig.marshal
  simp only [List.length_append]
  omega

theorem Params.iter_le_P (m : Params) : Params.iter m ≤ (Params.marshal m).length := by
  have h1 := presLen_le 0xa m.EvmDenom
  have h2 := presBool_le 0x10 m.EnableCreate
  have h3 := presBool_le 0x18 m.EnableCall
  have h4 := presEips_le m.ExtraEIPs
  have h5 : 1 ≤ (msgField 0x2a (ChainConfig.marshal m.ChainConfig)).length := by
    simp [msgField]
  have h6 := presBool_le 0x30 m.AllowUnprotectedTxs
  unfold Params.iter Params.marshal
  simp only [List.length_append]
  omega

theorem TxResult.iter_le_TX (m : TxResult) : TxResult.iter m ≤ (TxResult.marshal m).length := by
  have h1 := presLen_le 0xa m.ContractAddress
  have h2 := presLen_le 0x12 m.Bloom
  have h3 : 1 ≤ (msgField 0x1a (TransactionLogs.marshal m.TxLogs)).length := by
    simp [msgField]
  have h4 := presLen_le 0x22 m.Ret
  have h5 := presBool_le 0x28 m.Reverted
  have h6 := presUint_le 0x30 m.GasUsed
  unfold TxResult.iter TxResult.marshal
  simp only [List.length_append]
  omega

theorem TraceConfig.iter_le_TC (m : TraceConfig) :
    TraceConfig.iter m ≤ (TraceConfig.marshal m).length := by
  have h1 := presLen_le 0xa m.Tracer
  have h2 := presLen_le 0x12 m.Timeout
  have h3 := presUint_le 0x18 m.Reexec
  have h4 := presBool_le 0x28 m.DisableStack
  have h5 := presBool_le 0x30 m.DisableStorage
  have h6 := presBool_le 0x40 m.Debug
  have h7 := presInt_le m.Limit
  have h8 := presOptCC_le m.Overrides
  have h9 := presBool_le 0x58 m.EnableMemory
  have h10 := presBool_le 0x60 m.EnableReturnData
  have h11 := presLen_le 0x6a m.TracerJsonConfig
  unfold TraceConfig.iter TraceConfig.marshal
  rw [show (if m.Limit ≠ 0 then 0x48 :: putUvarint (toUnsigned64 m.Limit) else []) =
    limitField m.Limit from rfl]
  rw [show (match m.Overrides with
      | none => []
      | some cc => msgField 0x52 (ChainConfig.marshal cc)) = ccOptField m.Overrides from
    rfl]
  simp only [List.length_append]
  omega

/-! The recognised length-delimited field with tag 0xa propagates a
truncation error from its payload reader, for every record type. -/

theorem State.step_trunc_S (rem : List Nat) (r : State)
    (h : readLenDelim rem = .error .unexpectedEOF) :
    State.step (0xa :: rem) r = .error .unexpectedEOF := by
  unfold State.step
  rw [readVarint_single 0xa _ (by norm_num)]
  norm_num
  rw [h]

theorem AccessTuple.step_trunc_AT (rem : List Nat) (r : AccessTuple)
    (h : readLenDelim rem = .error .unexpectedEOF) :
    AccessTuple.step (0xa :: rem) r = .error .unexpectedEOF := by
  unfold AccessTuple.step
  rw [readVarint_single 0xa _ (by norm_num)]
  norm_num
  rw [h]

theorem Log.step_trunc_L (rem : List Nat) (r : Log)
    (h : readLenDelim rem = .error .unexpectedEOF) :
    Log.step (0xa :: rem) r = .error .unexpectedEOF := by
  unfold Log.step
  rw [readVarint_single 0xa _ (by norm_num)]
  norm_num
  rw [h]

theorem TransactionLogs.step_trunc_TL (rem : List Nat) (r : TransactionLogs)
    (h : readLenDelim rem = .error .unexpectedEOF) :
    TransactionLogs.step (0xa :: rem) r = .error .unexpectedEOF := by
  unfold TransactionLogs.step
  rw [readVarint_single 0xa _ (by norm_num)]
  norm_num
  rw [h]

theorem ChainConfig.step_trunc_CC (rem : List Nat) (r : ChainConfig)
    (h : readLenDelim rem = .error .unexpectedEOF) :
    ChainConfig.step (0xa :: rem) r = .error .unexpectedEOF := by
  have hif : readIntField rem = .error .unexpectedEOF := by
    unfold readIntField
    rw [h]
  unfold ChainConfig.step
  rw [readVarint_single 0xa _ (by norm_num)]
  norm_num
  rw [hif]

theorem Params.step_trunc_P (rem : List Nat) (r : Params)
    (h : readLenDelim rem = .error .unexpectedEOF) :
    Params.step (0xa :: rem) r = .error .unexpectedEOF := by
  unfold Params.step
  rw [readVarint_single 0xa _ (by norm_num)]
  norm_num
  rw [h]

theorem TxResult.step_trunc_TX (rem : List Nat) (r : TxResult)
    (h : readLenDelim rem = .error .unexpectedEOF) :
    TxResult.step (0xa :: rem) r = .error .unexpectedEOF := by
  unfold TxResult.step
  rw [readVarint_single 0xa _ (by norm_num)]
  norm_num
  rw [h]

theorem TraceConfig.step_trunc_TC (rem : List Nat) (r : TraceConfig)
    (h : readLenDelim rem = .error .unexpectedEOF) :
    TraceConfig.step (0xa :: rem) r = .error .unexpectedEOF := by
  unfold TraceConfig.step
  rw [readVarint_single 0xa _ (by norm_num)]
  norm_num
  rw [h]

/-! Decoding a valid encoding followed by a truncated field fails with
io.ErrUnexpectedEOF, for every record type. -/

theorem State.unmarshal_trunc_S (m : State) (hv : m.Valid) (rem : List Nat)
    (h : readLenDelim rem = .error .unexpectedEOF) :
    State.unmarshal (State.marshal m ++ (0xa :: rem)) = .error .unexpectedEOF := by
  unfold State.unmarshal State.unmarshalFrom
  have hle := State.pres_le_S m
  have hfuel : (State.marshal m ++ (0xa :: rem)).length =
      presLen m.Key + (presLen m.Value +
        (((State.marshal m).length - (presLen m.Key + presLen m.Value) + rem.length) + 1)) := by
    simp only [List.length_append, List.length_cons]
    omega
  rw [hfuel, State.unmarshal_marshal_chain_S m hv (0xa :: rem) _]
  exact driverAux_error _ _ _ _ _ _ (State.step_trunc_S rem m h)

theorem AccessTuple.unmarshal_trunc_AT (m : AccessTuple) (hv : m.Valid) (rem : List Nat)
    (h : readLenDelim rem = .error .unexpectedEOF) :
    AccessTuple.unmarshal (AccessTuple.marshal m ++ (0xa :: rem)) = .error .unexpectedEOF := by
  unfold AccessTuple.unmarshal AccessTuple.unmarshalFrom
  have hle := AccessTuple.pres_le_AT m
  have hfuel : (AccessTuple.marshal m ++ (0xa :: rem)).length =
      presLen m.Address + (m.StorageKeys.length +
        (((AccessTuple.marshal m).length - (presLen m.Address + m.StorageKeys.length)
          + rem.length) + 1)) := by
    simp only [List.length_append, List.length_cons]
    omega
  rw [hfuel, AccessTuple.unmarshal_marshal_chain_AT m hv (0xa :: rem) _]
  exact driverAux_error _ _ _ _ _ _ (AccessTuple.step_trunc_AT rem m h)

theorem TransactionLogs.unmarshal_trunc_TL (m : TransactionLogs) (hv : m.Valid)
    (rem : List Nat) (h : readLenDelim rem = .error .unexpectedEOF) :
    TransactionLogs.unmarshal (TransactionLogs.marshal m ++ (0xa :: rem)) =
    .error .unexpectedEOF := by
  unfold TransactionLogs.unmarshal TransactionLogs.unmarshalFrom
  have hle := TransactionLogs.pres_le_TL m
  have hfuel : (TransactionLogs.marshal m ++ (0xa :: rem)).length =
      presLen m.Hash + (m.Logs.length +
        (((TransactionLogs.marshal m).length - (presLen m.Hash + m.Logs.length)
          + rem.length) + 1)) := by
    simp only [List.length_append, List.length_cons]
    omega
  rw [hfuel, TransactionLogs.unmarshal_marshal_chain_TL m hv (0xa :: rem) _]
  exact driverAux_error _ _ _ _ _ _ (TransactionLogs.step_trunc_TL rem m h)

theorem Log.unmarshal_trunc_L (m : Log) (hv : m.Valid) (rem : List Nat)
    (h : readLenDelim rem = .error .unexpectedEOF) :
    Log.unmarshal (Log.marshal m ++ (0xa :: rem)) = .error .unexpectedEOF := by
  unfold Log.unmarshal Log.unmarshalFrom
  have hle := Log.iter_le_L m
  have hfuel : (Log.marshal m ++ (0xa :: rem)).length =
      Log.iter m + (((Log.marshal m).length - Log.iter m + rem.length) + 1) := by
    simp only [List.length_append, List.length_cons]
    omega
  rw [hfuel, Log.unmarshal_marshal_chain_L m hv (0xa :: rem) _]
  exact driverAux_error _ _ _ _ _ _ (Log.step_trunc_L rem m h)

theorem ChainConfig.unmarshal_trunc_CC (m : ChainConfig) (hv : m.Valid) (rem : List Nat)
    (h : readLenDelim rem = .error .unexpectedEOF) :
    ChainConfig.unmarshal (ChainConfig.marshal m ++ (0xa :: rem)) = .error .unexpectedEOF := by
  unfold ChainConfig.unmarshal ChainConfig.unmarshalFrom
  have hle := ChainConfig.iter_le_CC m
  have hfuel : (ChainConfig.marshal m ++ (0xa :: rem)).length =
      ChainConfig.iter m +
        (((ChainConfig.marshal m).length - ChainConfig.iter m + rem.length) + 1) := by
    simp only [List.length_append, List.length_cons]
    omega
  rw [hfuel, ChainConfig.unmarshal_marshal_chain_CC m hv (0xa :: rem) _]
  exact driverAux_error _ _ _ _ _ _ (ChainConfig.step_trunc_CC rem m h)

theorem Params.unmarshal_trunc_P (m : Params) (hv : m.Valid) (rem : List Nat)
    (h : readLenDelim rem = .error .unexpectedEOF) :
    Params.unmarshal (Params.marshal m ++ (0xa :: rem)) = .error .unexpectedEOF := by
  unfold Params.unmarshal Params.unmarshalFrom
  have hle := Params.iter_le_P m
  have hfuel : (Params.marshal m ++ (0xa :: rem)).length =
      Params.iter m + (((Params.marshal m).length - Params.iter m + rem.length) + 1) := by
    simp only [List.length_append, List.length_cons]
    omega
  rw [hfuel, Params.unmarshal_marshal_chain_P m hv (0xa :: rem) _]
  exact driverAux_error _ _ _ _ _ _ (Params.step_trunc_P rem m h)

theorem TxResult.unmarshal_trunc_TX (m : TxResult) (hv : m.Valid) (rem : List Nat)
    (h : readLenDelim rem = .error .unexpectedEOF) :
    TxResult.unmarshal (TxResult.marshal m ++ (0xa :: rem)) = .error .unexpectedEOF := by
  unfold TxResult.unmarshal TxResult.unmarshalFrom
  have hle := TxResult.iter_le_TX m
  have hfuel : (TxResult.marshal m ++ (0xa :: rem)).length =
      TxResult.iter m + (((TxResult.marshal m).length - TxResult.iter m + rem.length) + 1) := by
    simp only [List.length_append, List.length_cons]
    omega
  rw [hfuel, TxResult.unmarshal_marshal_chain_TX m hv (0xa :: rem) _]
  exact driverAux_error _ _ _ _ _ _ (TxResult.step_trunc_TX rem m h)

theorem TraceConfig.unmarshal_trunc_TC (m : TraceConfig) (hv : m.Valid) (rem : List Nat)
    (h : readLenDelim rem = .error .unexpectedEOF) :
    TraceConfig.unmarshal (TraceConfig.marshal m ++ (0xa :: rem)) = .error .unexpectedEOF := by
  unfold TraceConfig.unmarshal TraceConfig.unmarshalFrom
  have hle := TraceConfig.iter_le_TC m
  have hfuel : (TraceConfig.marshal m ++ (0xa :: rem)).length =
      TraceConfig.iter m +
        (((TraceConfig.marshal m).length - TraceConfig.iter m + rem.length) + 1) := by
    simp only [List.length_append, List.length_cons]
    omega
  rw [hfuel, TraceConfig.unmarshal_marshal_chain_TC m hv (0xa :: rem) _]
  exact driverAux_error _ _ _ _ _ _ (TraceConfig.step_trunc_TC rem m h)

/-! Concrete example records used by the claim witnesses. -/

theorem okInt_some (x : Int) (h : (intEncode x).length < 2 ^ 63) : okInt (some x) := h

theorem okInt_none : okInt none := trivial

/-- The spec's concrete State scenario: key "0xabc", value "0x01" as bytes. -/
def stC5 : State := ⟨[48, 120, 97, 98, 99], [48, 120, 48, 49]⟩

theorem stC5_valid : stC5.Valid := ⟨by decide, by decide⟩

def atEx : AccessTuple := { AccessTuple.zero with Address := [1, 2], StorageKeys := [[3], [4, 5]] }

theorem atEx_valid : atEx.Valid := ⟨by decide, by decide⟩

def lgEx1 : Log := { Log.zero with Address := [1], Topics := [[2], [3]], BlockNumber := 5 }

def lgEx2 : Log := { Log.zero with Data := [6], TxIndex := 7, Removed := true }

def lgEx3 : Log := { Log.zero with BlockHash := [8], Index := 9 }

theorem lgEx1_valid : lgEx1.Valid :=
  ⟨by decide, by decide, by decide, by decide, by decide, by decide, by decide, by decide⟩

theorem lgEx2_valid : lgEx2.Valid :=
  ⟨by decide, by decide, by decide, by decide, by decide, by decide, by decide, by decide⟩

theorem lgEx3_valid : lgEx3.Valid :=
  ⟨by decide, by decide, by decide, by decide, by decide, by decide, by decide, by decide⟩

/-- A TransactionLogs value holding three distinct Log entries. -/
def tl3 : TransactionLogs := ⟨[9], [lgEx1, lgEx2, lgEx3]⟩

theorem tl3_valid : tl3.Valid :=
  ⟨by decide,
   List.forall_mem_cons.mpr ⟨⟨lgEx1_valid, by decide⟩,
     List.forall_mem_cons.mpr ⟨⟨lgEx2_valid, by decide⟩,
       List.forall_mem_cons.mpr ⟨⟨lgEx3_valid, by decide⟩,
         List.forall_mem_nil _⟩⟩⟩⟩

theorem ccZero_valid : ChainConfig.zero.Valid :=
  ⟨okInt_none, okInt_none, okInt_none, by decide, okInt_none, okInt_none, okInt_none,
   okInt_none, okInt_none, okInt_none, okInt_none, okInt_none, okInt_none, okInt_none,
   okInt_none, okInt_none, okInt_none, okInt_none⟩

/-- A ChainConfig whose homestead field is present with value zero. -/
def ccHZ : ChainConfig := { ChainConfig.zero with HomesteadBlock := some 0 }

theorem ccHZ_valid : ccHZ.Valid :=
  ⟨okInt_some 0 (by decide), okInt_none, okInt_none, by decide, okInt_none, okInt_none,
   okInt_none, okInt_none, okInt_none, okInt_none, okInt_none, okInt_none, okInt_none,
   okInt_none, okInt_none, okInt_none, okInt_none, okInt_none⟩

/-- The spec's packed-repeated scenario: extra_eips 1, 2 and 1559. -/
def pC4 : Params := { Params.zero with ExtraEIPs := [1, 2, 1559] }

theorem pC4_valid : pC4.Valid :=
  ⟨by decide, by decide, by decide, ccZero_valid, by decide⟩

def txEx : TxResult :=
  { TxResult.zero with
      ContractAddress := [1]
      TxLogs := tl3
      Reverted := true
      GasUsed := 21000 }

theorem txEx_valid : txEx.Valid :=
  ⟨by decide, by decide, tl3_valid, by decide, by decide, by decide⟩

def tcEx : TraceConfig :=
  { TraceConfig.zero with
      Tracer := [1]
      Reexec := 2
      DisableStack := true
      Limit := -3
      Overrides := some ccHZ
      TracerJsonConfig := [7] }

theorem tcEx_valid : tcEx.Valid := by
  refine ⟨by decide, by decide, by decide, by decide, by decide, ?_, by decide⟩
  intro cc h
  have h2 : some ccHZ = some cc := h
  cases Option.some.inj h2
  exact ⟨ccHZ_valid, by decide⟩

/-! The `postIndex < 0` overflow guard.  `readLenDelim` above drops the
source's check (evm.pb.go lines 2853-2855 and the corresponding lines of
every other length-delimited arm), so it is faithful only while the
absolute end offset stays below `2 ^ 63`.  The cursor-carrying
definitions here keep the guard exactly as the source computes it; they
exhibit the input class on which the guard fires. -/

/-- Length-delimited read carrying `c`, the absolute index of the length
varint's first byte: after the varint the cursor is
`c + (rem.length - rem1.length)`, and `postIndex` is that plus the
announced length.  A negative `intStringLen` (accumulator at or above
`2 ^ 63`) and a negative `postIndex` (the int64 sum of two nonnegative
int64s wraps negative exactly when it reaches `2 ^ 63`) fail with
ErrInvalidLengthEvm, an overrun of the buffer end with
io.ErrUnexpectedEOF, in source order. -/
def readLenDelimAt (c : Nat) (rem : List Nat) : Except DecodeError (List Nat × List Nat) :=
  match readVarint rem with
  | .error e => .error e
  | .ok (len, rem1) =>
      if 2 ^ 63 ≤ len then .error .invalidLength
      else if 2 ^ 63 ≤ c + (rem.length - rem1.length) + len then .error .invalidLength
      else if rem1.length < len then .error .unexpectedEOF
      else .ok (rem1.take len, rem1.drop len)

/-- `State.step` carrying `c`, the absolute index of the field's tag, and
using the guarded length-delimited read; apart from the kept
`postIndex < 0` guard it is `State.step`. -/
def State.stepAt (c : Nat) (dAtA : List Nat) (m : State) :
    Except DecodeError (State × List Nat) :=
  match readVarint dAtA with
  | .error e => .error e
  | .ok (wire, rem) =>
      let fieldNum := wire / 8 % 2 ^ 32
      let wireType := wire % 8
      if wireType = 4 then .error .endGroupForNonGroup
      else if fieldNum = 0 ∨ 2 ^ 31 ≤ fieldNum then .error .illegalTag
      else if fieldNum = 1 then
        if wireType ≠ 2 then .error .wrongWireType
        else
          match readLenDelimAt (c + (dAtA.length - rem.length)) rem with
          | .error e => .error e
          | .ok (payload, rem2) => .ok ({ m with Key := payload }, rem2)
      else if fieldNum = 2 then
        if wireType ≠ 2 then .error .wrongWireType
        else
          match readLenDelimAt (c + (dAtA.length - rem.length)) rem with
          | .error e => .error e
          | .ok (payload, rem2) => .ok ({ m with Value := payload }, rem2)
      else
        match skipField dAtA with
        | .error e => .error e
        | .ok rem' => .ok (m, rem')

/-- The `Unmarshal` driver threading the absolute cursor alongside the
remaining suffix. -/
def driverAuxAt {α : Type}
    (step : Nat → List Nat → α → Except DecodeError (α × List Nat)) :
    Nat → Nat → List Nat → α → Except DecodeError α
  | _, _, [], r => .ok r
  | 0, _, _ :: _, _ => .error .unexpectedEOF
  | fuel + 1, c, rem@(_ :: _), r =>
      match step c rem r with
      | .error e => .error e
      | .ok (r', rem') => driverAuxAt step fuel (c + (rem.length - rem'.length)) rem' r'

/-- `State.Unmarshal` with the `postIndex < 0` guard kept. -/
def State.unmarshalAt (dAtA : List Nat) : Except DecodeError State :=
  driverAuxAt State.stepAt dAtA.length 0 dAtA State.zero

/-! The ten claims. -/

/-- C1: for every record type in the catalogue and every valid record
value x, decoding the bytes produced by encoding x yields x back; in
particular a TransactionLogs value keeps its Logs entries in order through
a round trip. -/
theorem claim_C1 :
    (∀ m : Params, m.Valid → Params.unmarshal (Params.marshal m) = .ok m) ∧
    (∀ m : ChainConfig, m.Valid → ChainConfig.unmarshal (ChainConfig.marshal m) = .ok m) ∧
    (∀ m : State, m.Valid → State.unmarshal (State.marshal m) = .ok m) ∧
    (∀ m : TransactionLogs, m.Valid →
      TransactionLogs.unmarshal (TransactionLogs.marshal m) = .ok m) ∧
    (∀ m : Log, m.Valid → Log.unmarshal (Log.marshal m) = .ok m) ∧
    (∀ m : TxResult, m.Valid → TxResult.unmarshal (TxResult.marshal m) = .ok m) ∧
    (∀ m : AccessTuple, m.Valid → AccessTuple.unmarshal (AccessTuple.marshal m) = .ok m) ∧
    (∀ m : TraceConfig, m.Valid → TraceConfig.unmarshal (TraceConfig.marshal m) = .ok m) ∧
    (∀ m : TransactionLogs, m.Valid → ∀ r,
      TransactionLogs.unmarshal (TransactionLogs.marshal m) = .ok r → r.Logs = m.Logs) := by
  refine ⟨Params.roundtrip_P, ChainConfig.roundtrip_CC, State.roundtrip_S,
    TransactionLogs.roundtrip_TL, Log.roundtrip_L, TxResult.roundtrip_TX, AccessTuple.roundtrip_AT,
    TraceConfig.roundtrip_TC, ?_⟩
  intro m hv r hr
  rw [TransactionLogs.roundtrip_TL m hv] at hr
  have h := Except.ok.inj hr
  rw [← h]

/-- Witness for C1: each round trip at a concrete valid record, including
a TransactionLogs with three Log entries. -/
theorem claim_C1_witness :
    Params.unmarshal (Params.marshal pC4) = .ok pC4 ∧
    ChainConfig.unmarshal (ChainConfig.marshal ccHZ) = .ok ccHZ ∧
    State.unmarshal (State.marshal stC5) = .ok stC5 ∧
    TransactionLogs.unmarshal (TransactionLogs.marshal tl3) = .ok tl3 ∧
    Log.unmarshal (Log.marshal lgEx1) = .ok lgEx1 ∧
    TxResult.unmarshal (TxResult.marshal txEx) = .ok txEx ∧
    AccessTuple.unmarshal (AccessTuple.marshal atEx) = .ok atEx ∧
    TraceConfig.unmarshal (TraceConfig.marshal tcEx) = .ok tcEx ∧
    tl3.Logs = tl3.Logs :=
  ⟨claim_C1.1 pC4 pC4_valid,
   claim_C1.2.1 ccHZ ccHZ_valid,
   claim_C1.2.2.1 stC5 stC5_valid,
   claim_C1.2.2.2.1 tl3 tl3_valid,
   claim_C1.2.2.2.2.1 lgEx1 lgEx1_valid,
   claim_C1.2.2.2.2.2.1 txEx txEx_valid,
   claim_C1.2.2.2.2.2.2.1 atEx atEx_valid,
   claim_C1.2.2.2.2.2.2.2.1 tcEx tcEx_valid,
   claim_C1.2.2.2.2.2.2.2.2 tl3 tl3_valid tl3
     (TransactionLogs.roundtrip_TL tl3 tl3_valid)⟩

/-- C2: for every record type and every record value x, the length of the
byte buffer returned by Marshal equals exactly the value returned by
Size on x. -/
theorem claim_C2 :
    (∀ m : Params, (Params.marshal m).length = Params.size m) ∧
    (∀ m : ChainConfig, (ChainConfig.marshal m).length = ChainConfig.size m) ∧
    (∀ m : State, (State.marshal m).length = State.size m) ∧
    (∀ m : TransactionLogs, (TransactionLogs.marshal m).length = TransactionLogs.size m) ∧
    (∀ m : Log, (Log.marshal m).length = Log.size m) ∧
    (∀ m : TxResult, (TxResult.marshal m).length = TxResult.size m) ∧
    (∀ m : AccessTuple, (AccessTuple.marshal m).length = AccessTuple.size m) ∧
    (∀ m : TraceConfig, (TraceConfig.marshal m).length = TraceConfig.size m) :=
  ⟨Params.size_eq_P, ChainConfig.size_eq_CC, State.size_eq_S, TransactionLogs.size_eq_TL,
   Log.size_eq_L, TxResult.size_eq_TX, AccessTuple.size_eq_AT, TraceConfig.size_eq_TC⟩

/-- C3: an optional extended-precision integer field of ChainConfig that is
present with value zero survives a round trip as present-with-zero; a field
that was never set emits no bytes at all and decodes back to absent; and a
full round trip preserves every field exactly, so presence never collapses
to absence. -/
theorem claim_C3 :
    (∀ cc : ChainConfig, cc.Valid → cc.HomesteadBlock = some 0 →
      ∃ r, ChainConfig.unmarshal (ChainConfig.marshal cc) = .ok r ∧
        r.HomesteadBlock = some 0) ∧
    (∀ cc : ChainConfig, cc.Valid → cc.HomesteadBlock = none →
      intOptField [0xa] cc.HomesteadBlock = [] ∧
      ∃ r, ChainConfig.unmarshal (ChainConfig.marshal cc) = .ok r ∧
        r.HomesteadBlock = none) ∧
    (∀ cc : ChainConfig, cc.Valid →
      ∃ r, ChainConfig.unmarshal (ChainConfig.marshal cc) = .ok r ∧ r = cc) := by
  refine ⟨?_, ?_, ?_⟩
  · intro cc hv h
    exact ⟨cc, ChainConfig.roundtrip_CC cc hv, h⟩
  · intro cc hv h
    refine ⟨by rw [h]; rfl, cc, ChainConfig.roundtrip_CC cc hv, h⟩
  · intro cc hv
    exact ⟨cc, ChainConfig.roundtrip_CC cc hv, rfl⟩

/-- Witness for C3: a ChainConfig with homestead present-with-zero and the
all-absent zero ChainConfig. -/
theorem claim_C3_witness :
    (∃ r, ChainConfig.unmarshal (ChainConfig.marshal ccHZ) = .ok r ∧
      r.HomesteadBlock = some 0) ∧
    (intOptField [0xa] ChainConfig.zero.HomesteadBlock = [] ∧
     ∃ r, ChainConfig.unmarshal (ChainConfig.marshal ChainConfig.zero) = .ok r ∧
       r.HomesteadBlock = none) :=
  ⟨claim_C3.1 ccHZ ccHZ_valid rfl,
   claim_C3.2.1 ChainConfig.zero ccZero_valid rfl⟩

/-- C4: the extra_eips decoder accepts both the packed encoding that
Marshal produces for the list 1, 2, 1559 and a hand-built unpacked
encoding (tag 0x20 per element), and both decode to the same list in
stream order. -/
theorem claim_C4 :
    pC4.ExtraEIPs = [1, 2, 1559] ∧
    Params.unmarshal (Params.marshal pC4) = .ok pC4 ∧
    Params.unmarshal [0x20, 1, 0x20, 2, 0x20, 0x97, 0x0c] = .ok pC4 := by
  decide

/-- C5 (amended): State with key "0xabc" (five bytes) and value "0x01"
(four bytes) encodes to tag 0x0a, length varint 5, the key bytes, tag
0x12, length varint 4, the value bytes, and that exact sequence decodes
back to the original value.  The original claim's length varint of 4 for
the five-byte key is wrong. -/
theorem claim_C5 :
    State.marshal stC5 = [0x0a, 5, 48, 120, 97, 98, 99, 0x12, 4, 48, 120, 48, 49] ∧
    State.unmarshal [0x0a, 5, 48, 120, 97, 98, 99, 0x12, 4, 48, 120, 48, 49] = .ok stC5 := by
  decide

/-- Counterexample to C5 as stated: the encoder does not produce a length
varint of 4 for the five-byte key, and the byte sequence the claim
describes does not decode back to the original value. -/
theorem claim_C5_counterexample :
    State.marshal stC5 ≠ [0x0a, 4, 48, 120, 97, 98, 99, 0x12, 4, 48, 120, 48, 49] ∧
    State.unmarshal [0x0a, 4, 48, 120, 97, 98, 99, 0x12, 4, 48, 120, 48, 49] ≠ .ok stC5 := by
  decide

/-- C6: a stream holding one recognised field and one field with the
unknown field number 15 decodes successfully, drops the unknown field and
keeps the recognised one, for every supported wire kind of the unknown
field (varint, fixed64, length-delimited, fixed32, balanced legacy group
markers), with the unknown field before or after the recognised one, and
for every record type; re-encoding the decoded record emits only the
recognised field. -/
theorem claim_C6 :
    (State.unmarshal ([0x0a, 1, 65] ++ [0x78, 5]) = .ok { State.zero with Key := [65] }) ∧
    (State.unmarshal ([0x78, 5] ++ [0x0a, 1, 65]) = .ok { State.zero with Key := [65] }) ∧
    (State.unmarshal ([0x0a, 1, 65] ++ [0x79, 1, 2, 3, 4, 5, 6, 7, 8]) =
      .ok { State.zero with Key := [65] }) ∧
    (State.unmarshal ([0x79, 1, 2, 3, 4, 5, 6, 7, 8] ++ [0x0a, 1, 65]) =
      .ok { State.zero with Key := [65] }) ∧
    (State.unmarshal ([0x0a, 1, 65] ++ [0x7a, 3, 9, 9, 9]) =
      .ok { State.zero with Key := [65] }) ∧
    (State.unmarshal ([0x7a, 3, 9, 9, 9] ++ [0x0a, 1, 65]) =
      .ok { State.zero with Key := [65] }) ∧
    (State.unmarshal ([0x0a, 1, 65] ++ [0x7d, 1, 2, 3, 4]) =
      .ok { State.zero with Key := [65] }) ∧
    (State.unmarshal ([0x7d, 1, 2, 3, 4] ++ [0x0a, 1, 65]) =
      .ok { State.zero with Key := [65] }) ∧
    (State.unmarshal ([0x0a, 1, 65] ++ [0x7b, 0x08, 7, 0x7c]) =
      .ok { State.zero with Key := [65] }) ∧
    (State.unmarshal ([0x7b, 0x08, 7, 0x7c] ++ [0x0a, 1, 65]) =
      .ok { State.zero with Key := [65] }) ∧
    (AccessTuple.unmarshal ([0x0a, 1, 65] ++ [0x78, 5]) =
      .ok { AccessTuple.zero with Address := [65] }) ∧
    (Log.unmarshal ([0x0a, 1, 65] ++ [0x78, 5]) = .ok { Log.zero with Address := [65] }) ∧
    (TransactionLogs.unmarshal ([0x0a, 1, 65] ++ [0x78, 5]) =
      .ok { TransactionLogs.zero with Hash := [65] }) ∧
    (ChainConfig.unmarshal ([0x18, 1] ++ [0x78, 5]) =
      .ok { ChainConfig.zero with DAOForkSupport := true }) ∧
    (Params.unmarshal ([0x10, 1] ++ [0x78, 5]) =
      .ok { Params.zero with EnableCreate := true }) ∧
    (TxResult.unmarshal ([0x30, 42] ++ [0x78, 5]) =
      .ok { TxResult.zero with GasUsed := 42 }) ∧
    (TraceConfig.unmarshal ([0x18, 2] ++ [0x78, 5]) =
      .ok { TraceConfig.zero with Reexec := 2 }) ∧
    State.marshal { State.zero with Key := [65] } = [0x0a, 1, 65] := by
  decide

/-- C7 (amended): for every record type, a buffer that ends mid-varint (a
recognised tag followed by up to nine continuation bytes and no
terminator) fails with io.ErrUnexpectedEOF, and so does a buffer whose
length varint announces more bytes than remain, provided the announced
end offset (the field's absolute offset plus the announced length) stays
below `2 ^ 63`; when that offset reaches `2 ^ 63` the source's
`postIndex < 0` guard fires first and the decoder fails with
ErrInvalidLengthEvm instead, shown here on the guarded decoder.  The
decoder is total, so it never panics, and an error result carries no
partially populated record. -/
theorem claim_C7 :
    ((∀ m : State, m.Valid → ∀ c : List Nat, (∀ b ∈ c, 128 ≤ b) → c.length ≤ 9 →
        State.unmarshal (State.marshal m ++ (0xa :: c)) = .error .unexpectedEOF) ∧
     (∀ m : State, m.Valid → ∀ (n : Nat) (t : List Nat), n < 2 ^ 63 → t.length < n →
        (State.marshal m).length + 1 + (putUvarint n).length + n < 2 ^ 63 →
        State.unmarshal (State.marshal m ++ (0xa :: (putUvarint n ++ t))) =
          .error .unexpectedEOF)) ∧
    ((∀ m : AccessTuple, m.Valid → ∀ c : List Nat, (∀ b ∈ c, 128 ≤ b) → c.length ≤ 9 →
        AccessTuple.unmarshal (AccessTuple.marshal m ++ (0xa :: c)) =
          .error .unexpectedEOF) ∧
     (∀ m : AccessTuple, m.Valid → ∀ (n : Nat) (t : List Nat), n < 2 ^ 63 → t.length < n →
        (AccessTuple.marshal m).length + 1 + (putUvarint n).length + n < 2 ^ 63 →
        AccessTuple.unmarshal (AccessTuple.marshal m ++ (0xa :: (putUvarint n ++ t))) =
          .error .unexpectedEOF)) ∧
    ((∀ m : Log, m.Valid → ∀ c : List Nat, (∀ b ∈ c, 128 ≤ b) → c.length ≤ 9 →
        Log.unmarshal (Log.marshal m ++ (0xa :: c)) = .error .unexpectedEOF) ∧
     (∀ m : Log, m.Valid → ∀ (n : Nat) (t : List Nat), n < 2 ^ 63 → t.length < n →
        (Log.marshal m).length + 1 + (putUvarint n).length + n < 2 ^ 63 →
        Log.unmarshal (Log.marshal m ++ (0xa :: (putUvarint n ++ t))) =
          .error .unexpectedEOF)) ∧
    ((∀ m : TransactionLogs, m.Valid → ∀ c : List Nat, (∀ b ∈ c, 128 ≤ b) → c.length ≤ 9 →
        TransactionLogs.unmarshal (TransactionLogs.marshal m ++ (0xa :: c)) =
          .error .unexpectedEOF) ∧
     (∀ m : TransactionLogs, m.Valid → ∀ (n : Nat) (t : List Nat), n < 2 ^ 63 →
        t.length < n →
        (TransactionLogs.marshal m).length + 1 + (putUvarint n).length + n < 2 ^ 63 →
        TransactionLogs.unmarshal (TransactionLogs.marshal m ++ (0xa :: (putUvarint n ++ t))) =
          .error .unexpectedEOF)) ∧
    ((∀ m : ChainConfig, m.Valid → ∀ c : List Nat, (∀ b ∈ c, 128 ≤ b) → c.length ≤ 9 →
        ChainConfig.unmarshal (ChainConfig.marshal m ++ (0xa :: c)) =
          .error .unexpectedEOF) ∧
     (∀ m : ChainConfig, m.Valid → ∀ (n : Nat) (t : List Nat), n < 2 ^ 63 → t.length < n →
        (ChainConfig.marshal m).length + 1 + (putUvarint n).length + n < 2 ^ 63 →
        ChainConfig.unmarshal (ChainConfig.marshal m ++ (0xa :: (putUvarint n ++ t))) =
          .error .unexpectedEOF)) ∧
    ((∀ m : Params, m.Valid → ∀ c : List Nat, (∀ b ∈ c, 128 ≤ b) → c.length ≤ 9 →
        Params.unmarshal (Params.marshal m ++ (0xa :: c)) = .error .unexpectedEOF) ∧
     (∀ m : Params, m.Valid → ∀ (n : Nat) (t : List Nat), n < 2 ^ 63 → t.length < n →
        (Params.marshal m).length + 1 + (putUvarint n).length + n < 2 ^ 63 →
        Params.unmarshal (Params.marshal m ++ (0xa :: (putUvarint n ++ t))) =
          .error .unexpectedEOF)) ∧
    ((∀ m : TxResult, m.Valid → ∀ c : List Nat, (∀ b ∈ c, 128 ≤ b) → c.length ≤ 9 →
        TxResult.unmarshal (TxResult.marshal m ++ (0xa :: c)) = .error .unexpectedEOF) ∧
     (∀ m : TxResult, m.Valid → ∀ (n : Nat) (t : List Nat), n < 2 ^ 63 → t.length < n →
        (TxResult.marshal m).length + 1 + (putUvarint n).length + n < 2 ^ 63 →
        TxResult.unmarshal (TxResult.marshal m ++ (0xa :: (putUvarint n ++ t))) =
          .error .unexpectedEOF)) ∧
    ((∀ m : TraceConfig, m.Valid → ∀ c : List Nat, (∀ b ∈ c, 128 ≤ b) → c.length ≤ 9 →
        TraceConfig.unmarshal (TraceConfig.marshal m ++ (0xa :: c)) =
          .error .unexpectedEOF) ∧
     (∀ m : TraceConfig, m.Valid → ∀ (n : Nat) (t : List Nat), n < 2 ^ 63 → t.length < n →
        (TraceConfig.marshal m).length + 1 + (putUvarint n).length + n < 2 ^ 63 →
        TraceConfig.unmarshal (TraceConfig.marshal m ++ (0xa :: (putUvarint n ++ t))) =
          .error .unexpectedEOF)) ∧
    (readVarint [255, 255, 255, 255, 255, 255, 255, 255, 127] = .ok (2 ^ 63 - 1, []) ∧
     State.unmarshalAt (0xa :: [255, 255, 255, 255, 255, 255, 255, 255, 127]) =
       .error .invalidLength) :=
  ⟨⟨fun m hv c hc hl => State.unmarshal_trunc_S m hv c (readLenDelim_trunc_varint c hc hl),
    fun m hv n t hn ht _ =>
      State.unmarshal_trunc_S m hv _ (readLenDelim_trunc_payload n t hn ht)⟩,
   ⟨fun m hv c hc hl =>
      AccessTuple.unmarshal_trunc_AT m hv c (readLenDelim_trunc_varint c hc hl),
    fun m hv n t hn ht _ =>
      AccessTuple.unmarshal_trunc_AT m hv _ (readLenDelim_trunc_payload n t hn ht)⟩,
   ⟨fun m hv c hc hl => Log.unmarshal_trunc_L m hv c (readLenDelim_trunc_varint c hc hl),
    fun m hv n t hn ht _ =>
      Log.unmarshal_trunc_L m hv _ (readLenDelim_trunc_payload n t hn ht)⟩,
   ⟨fun m hv c hc hl =>
      TransactionLogs.unmarshal_trunc_TL m hv c (readLenDelim_trunc_varint c hc hl),
    fun m hv n t hn ht _ =>
      TransactionLogs.unmarshal_trunc_TL m hv _ (readLenDelim_trunc_payload n t hn ht)⟩,
   ⟨fun m hv c hc hl =>
      ChainConfig.unmarshal_trunc_CC m hv c (readLenDelim_trunc_varint c hc hl),
    fun m hv n t hn ht _ =>
      ChainConfig.unmarshal_trunc_CC m hv _ (readLenDelim_trunc_payload n t hn ht)⟩,
   ⟨fun m hv c hc hl => Params.unmarshal_trunc_P m hv c (readLenDelim_trunc_varint c hc hl),
    fun m hv n t hn ht _ =>
      Params.unmarshal_trunc_P m hv _ (readLenDelim_trunc_payload n t hn ht)⟩,
   ⟨fun m hv c hc hl => TxResult.unmarshal_trunc_TX m hv c (readLenDelim_trunc_varint c hc hl),
    fun m hv n t hn ht _ =>
      TxResult.unmarshal_trunc_TX m hv _ (readLenDelim_trunc_payload n t hn ht)⟩,
   ⟨fun m hv c hc hl =>
      TraceConfig.unmarshal_trunc_TC m hv c (readLenDelim_trunc_varint c hc hl),
    fun m hv n t hn ht _ =>
      TraceConfig.unmarshal_trunc_TC m hv _ (readLenDelim_trunc_payload n t hn ht)⟩,
   ⟨by decide, by decide⟩⟩

/-- Counterexample to C7 as stated: the buffer holding tag 0x0a and a
length varint announcing `2 ^ 63 - 1` bytes is truncated
mid-length-delimited-payload, yet the decoder with the source's
`postIndex < 0` guard kept (evm.pb.go lines 2853-2855) returns
ErrInvalidLengthEvm, not io.ErrUnexpectedEOF as the claim requires. -/
theorem claim_C7_counterexample :
    readVarint [255, 255, 255, 255, 255, 255, 255, 255, 127] = .ok (2 ^ 63 - 1, []) ∧
    State.unmarshalAt (0xa :: [255, 255, 255, 255, 255, 255, 255, 255, 127]) =
      .error .invalidLength ∧
    State.unmarshalAt (0xa :: [255, 255, 255, 255, 255, 255, 255, 255, 127]) ≠
      .error .unexpectedEOF := by
  decide

/-- Witness for C7: a State encoding followed by a tag and one dangling
continuation byte, and by a length varint announcing five bytes with only
two present. -/
theorem claim_C7_witness :
    State.unmarshal (State.marshal stC5 ++ (0xa :: [0x80])) = .error .unexpectedEOF ∧
    State.unmarshal (State.marshal stC5 ++ (0xa :: (putUvarint 5 ++ [1, 2]))) =
      .error .unexpectedEOF :=
  ⟨claim_C7.1.1 stC5 stC5_valid [0x80] (by decide) (by decide),
   claim_C7.1.2 stC5 stC5_valid 5 [1, 2] (by decide) (by decide) (by decide)⟩

/-- C8: the varint reader fails with the integer-overflow error exactly
when its first ten bytes all carry the continuation bit, fails with
io.ErrUnexpectedEOF exactly when every byte carries the continuation bit
and fewer than ten bytes remain, and succeeds on at most nine continuation
bytes followed by a terminating byte with the high bit clear. -/
theorem claim_C8 :
    (∀ rem : List Nat, readVarint rem = .error .intOverflow ↔
      10 ≤ rem.length ∧ ∀ i, i < 10 → 128 ≤ rem.getD i 0) ∧
    (∀ rem : List Nat, readVarint rem = .error .unexpectedEOF ↔
      (∀ b ∈ rem, 128 ≤ b) ∧ rem.length < 10) ∧
    (∀ (c : List Nat) (b : Nat) (t : List Nat), (∀ x ∈ c, 128 ≤ x) → c.length ≤ 9 →
      b < 128 → ∃ v, readVarint (c ++ b :: t) = .ok (v, t)) :=
  ⟨readVarint_overflow_iff, readVarint_eof_iff, readVarint_ok_exists⟩

/-- Witness for C8: ten continuation bytes overflow, three hit the end of
the buffer, and one continuation byte plus a terminator decodes. -/
theorem claim_C8_witness :
    readVarint [128, 128, 128, 128, 128, 128, 128, 128, 128, 128] = .error .intOverflow ∧
    readVarint [128, 128, 128] = .error .unexpectedEOF ∧
    ∃ v, readVarint ([128] ++ 23 :: [7]) = .ok (v, [7]) :=
  ⟨(claim_C8.1 [128, 128, 128, 128, 128, 128, 128, 128, 128, 128]).mpr
     ⟨by decide, by decide⟩,
   (claim_C8.2.1 [128, 128, 128]).mpr ⟨by decide, by decide⟩,
   claim_C8.2.2 [128] 23 [7] (by decide) (by decide) (by decide)⟩

/-- C9: the Params encoder and size computation treat chain_config as
non-optional: every encoding contains the tag-0x2a chunk for the embedded
ChainConfig, that chunk is never empty and starts with byte 0x2a, the
zero Params encodes to exactly that chunk and nothing else, the size
always includes the chunk's tag-plus-length contribution, and — by
contrast — boolean, string and integer fields holding their default value
emit no bytes and contribute no size. -/
theorem claim_C9 :
    (∀ m : Params, ∃ pre post,
      Params.marshal m = pre ++ msgField 0x2a (ChainConfig.marshal m.ChainConfig) ++ post) ∧
    (∀ payload : List Nat,
      (msgField 0x2a payload).head? = some 0x2a ∧ msgField 0x2a payload ≠ []) ∧
    Params.marshal Params.zero = [0x2a, 0] ∧
    (∀ m : Params,
      1 + ChainConfig.size m.ChainConfig + sovEvm (ChainConfig.size m.ChainConfig) ≤
        Params.size m) ∧
    (∀ tag : Nat, boolField tag false = [] ∧ bytesField tag [] = [] ∧ uintField tag 0 = []) ∧
    boolFieldSize false = 0 ∧ bytesFieldSize [] = 0 ∧ uintFieldSize 0 = 0 := by
  refine ⟨?_, ?_, by decide, ?_, ?_, by decide, by decide, by decide⟩
  · intro m
    exact ⟨bytesField 0xa m.EvmDenom ++ boolField 0x10 m.EnableCreate ++
      boolField 0x18 m.EnableCall ++
      (if 0 < m.ExtraEIPs.length then
        0x22 :: (putUvarint (eipsPayload m.ExtraEIPs).length ++ eipsPayload m.ExtraEIPs)
      else []), boolField 0x30 m.AllowUnprotectedTxs, rfl⟩
  · intro payload
    exact ⟨rfl, by simp [msgField]⟩
  · intro m
    unfold Params.size
    omega
  · intro tag
    exact ⟨rfl, rfl, rfl⟩

/-- C10: for every record type, a tag with field number 0 is rejected with
the illegal-tag error rather than skipped as unknown, and a top-level tag
with the legacy group-end wire kind 4 is rejected with the
end-group-for-non-group error. -/
theorem claim_C10 :
    (∀ rest : List Nat, State.unmarshal (0x00 :: rest) = .error .illegalTag) ∧
    (∀ rest : List Nat, AccessTuple.unmarshal (0x00 :: rest) = .error .illegalTag) ∧
    (∀ rest : List Nat, Log.unmarshal (0x00 :: rest) = .error .illegalTag) ∧
    (∀ rest : List Nat, TransactionLogs.unmarshal (0x00 :: rest) = .error .illegalTag) ∧
    (∀ rest : List Nat, ChainConfig.unmarshal (0x00 :: rest) = .error .illegalTag) ∧
    (∀ rest : List Nat, Params.unmarshal (0x00 :: rest) = .error .illegalTag) ∧
    (∀ rest : List Nat, TxResult.unmarshal (0x00 :: rest) = .error .illegalTag) ∧
    (∀ rest : List Nat, TraceConfig.unmarshal (0x00 :: rest) = .error .illegalTag) ∧
    (∀ rest : List Nat, State.unmarshal (0x0c :: rest) = .error .endGroupForNonGroup) ∧
    (∀ rest : List Nat, AccessTuple.unmarshal (0x0c :: rest) =
      .error .endGroupForNonGroup) ∧
    (∀ rest : List Nat, Log.unmarshal (0x0c :: rest) = .error .endGroupForNonGroup) ∧
    (∀ rest : List Nat, TransactionLogs.unmarshal (0x0c :: rest) =
      .error .endGroupForNonGroup) ∧
    (∀ rest : List Nat, ChainConfig.unmarshal (0x0c :: rest) =
      .error .endGroupForNonGroup) ∧
    (∀ rest : List Nat, Params.unmarshal (0x0c :: rest) = .error .endGroupForNonGroup) ∧
    (∀ rest : List Nat, TxResult.unmarshal (0x0c :: rest) = .error .endGroupForNonGroup) ∧
    (∀ rest : List Nat, TraceConfig.unmarshal (0x0c :: rest) =
      .error .endGroupForNonGroup) := by
  refine ⟨?_, ?_, ?_, ?_, ?_, ?_, ?_, ?_, ?_, ?_, ?_, ?_, ?_, ?_, ?_, ?_⟩ <;>
    intro rest
  case _ =>
    have hstep : State.step (0x00 :: rest) State.zero = .error .illegalTag := by
      unfold State.step
      rw [readVarint_single 0x00 _ (by norm_num)]
      norm_num
    unfold State.unmarshal State.unmarshalFrom
    rw [List.length_cons]
    exact driverAux_error _ _ _ _ _ _ hstep
  case _ =>
    have hstep : AccessTuple.step (0x00 :: rest) AccessTuple.zero = .error .illegalTag := by
      unfold AccessTuple.step
      rw [readVarint_single 0x00 _ (by norm_num)]
      norm_num
    unfold AccessTuple.unmarshal AccessTuple.unmarshalFrom
    rw [List.length_cons]
    exact driverAux_error _ _ _ _ _ _ hstep
  case _ =>
    have hstep : Log.step (0x00 :: rest) Log.zero = .error .illegalTag := by
      unfold Log.step
      rw [readVarint_single 0x00 _ (by norm_num)]
      norm_num
    unfold Log.unmarshal Log.unmarshalFrom
    rw [List.length_cons]
    exact driverAux_error _ _ _ _ _ _ hstep
  case _ =>
    have hstep : TransactionLogs.step (0x00 :: rest) TransactionLogs.zero =
        .error .illegalTag := by
      unfold TransactionLogs.step
      rw [readVarint_single 0x00 _ (by norm_num)]
      norm_num
    unfold TransactionLogs.unmarshal TransactionLogs.unmarshalFrom
    rw [List.length_cons]
    exact driverAux_error _ _ _ _ _ _ hstep
  case _ =>
    have hstep : ChainConfig.step (0x00 :: rest) ChainConfig.zero = .error .illegalTag := by
      unfold ChainConfig.step
      rw [readVarint_single 0x00 _ (by norm_num)]
      norm_num
    unfold ChainConfig.unmarshal ChainConfig.unmarshalFrom
    rw [List.length_cons]
    exact driverAux_error _ _ _ _ _ _ hstep
  case _ =>
    have hstep : Params.step (0x00 :: rest) Params.zero = .error .illegalTag := by
      unfold Params.step
      rw [readVarint_single 0x00 _ (by norm_num)]
      norm_num
    unfold Params.unmarshal Params.unmarshalFrom
    rw [List.length_cons]
    exact driverAux_error _ _ _ _ _ _ hstep
  case _ =>
    have hstep : TxResult.step (0x00 :: rest) TxResult.zero = .error .illegalTag := by
      unfold TxResult.step
      rw [readVarint_single 0x00 _ (by norm_num)]
      norm_num
    unfold TxResult.unmarshal TxResult.unmarshalFrom
    rw [List.length_cons]
    exact driverAux_error _ _ _ _ _ _ hstep
  case _ =>
    have hstep : TraceConfig.step (0x00 :: rest) TraceConfig.zero = .error .illegalTag := by
      unfold TraceConfig.step
      rw [readVarint_single 0x00 _ (by norm_num)]
      norm_num
    unfold TraceConfig.unmarshal TraceConfig.unmarshalFrom
    rw [List.length_cons]
    exact driverAux_error _ _ _ _ _ _ hstep
  case _ =>
    have hstep : State.step (0x0c :: rest) State.zero = .error .endGroupForNonGroup := by
      unfold State.step
      rw [readVarint_single 0x0c _ (by norm_num)]
      norm_num
    unfold State.unmarshal State.unmarshalFrom
    rw [List.length_cons]
    exact driverAux_error _ _ _ _ _ _ hstep
  case _ =>
    have hstep : AccessTuple.step (0x0c :: rest) AccessTuple.zero =
        .error .endGroupForNonGroup := by
      unfold AccessTuple.step
      rw [readVarint_single 0x0c _ (by norm_num)]
      norm_num
    unfold AccessTuple.unmarshal AccessTuple.unmarshalFrom
    rw [List.length_cons]
    exact driverAux_error _ _ _ _ _ _ hstep
  case _ =>
    have hstep : Log.step (0x0c :: rest) Log.zero = .error .endGroupForNonGroup := by
      unfold Log.step
      rw [readVarint_single 0x0c _ (by norm_num)]
      norm_num
    unfold Log.unmarshal Log.unmarshalFrom
    rw [List.length_cons]
    exact driverAux_error _ _ _ _ _ _ hstep
  case _ =>
    have hstep : TransactionLogs.step (0x0c :: rest) TransactionLogs.zero =
        .error .endGroupForNonGroup := by
      unfold TransactionLogs.step
      rw [readVarint_single 0x0c _ (by norm_num)]
      norm_num
    unfold TransactionLogs.unmarshal TransactionLogs.unmarshalFrom
    rw [List.length_cons]
    exact driverAux_error _ _ _ _ _ _ hstep
  case _ =>
    have hstep : ChainConfig.step (0x0c :: rest) ChainConfig.zero =
        .error .endGroupForNonGroup := by
      unfold ChainConfig.step
      rw [readVarint_single 0x0c _ (by norm_num)]
      norm_num
    unfold ChainConfig.unmarshal ChainConfig.unmarshalFrom
    rw [List.length_cons]
    exact driverAux_error _ _ _ _ _ _ hstep
  case _ =>
    have hstep : Params.step (0x0c :: rest) Params.zero = .error .endGroupForNonGroup := by
      unfold Params.step
      rw [readVarint_single 0x0c _ (by norm_num)]
      norm_num
    unfold Params.unmarshal Params.unmarshalFrom
    rw [List.length_cons]
    exact driverAux_error _ _ _ _ _ _ hstep
  case _ =>
    have hstep : TxResult.step (0x0c :: rest) TxResult.zero =
        .error .endGroupForNonGroup := by
      unfold TxResult.step
      rw [readVarint_single 0x0c _ (by norm_num)]
      norm_num
    unfold TxResult.unmarshal TxResult.unmarshalFrom
    rw [List.length_cons]
    exact driverAux_error _ _ _ _ _ _ hstep
  case _ =>
    have hstep : TraceConfig.step (0x0c :: rest) TraceConfig.zero =
        .error .endGroupForNonGroup := by
      unfold TraceConfig.step
      rw [readVarint_single 0x0c _ (by norm_num)]
      norm_num
    unfold TraceConfig.unmarshal TraceConfig.unmarshalFrom
    rw [List.length_cons]
    exact driverAux_error _ _ _ _ _ _ hstep

end EvmPb
